import Mathlib

/-!
The xv6 buffer cache (kernel/bio.c) and per-CPU page allocator (kernel/kalloc.c).

A shallow embedding of the two kernel services and the properties proved about them.

Conventions of the embedding.

* C `uint` values are natural numbers; where the C arithmetic can wrap, the
  model reduces modulo `2^32` explicitly.
* A pointer `struct buf *b` into `bcache[id].buf[i]` is the pair `(id, i)`.
* `panic(...)` ends the call; the outcome records the message and the state in
  which the panic was raised.
* `acquiresleep` on a sleep-lock that is already held suspends the caller; the
  outcome `sleep` records the buffer waited for and the state at suspension.
* The functions `bget`, `bread`, `brelse`, ... run one call to completion. Concurrent
  callers are modelled by `cstep` and `crun`: the calls are cut where bio.c takes or
  drops a lock and between the accesses made under the content lock, and an
  interleaving is a list naming the caller that takes the next step.
* Loops whose number of iterations is not fixed by the source take a fuel argument; the
  result is `none` when the fuel runs out, and the lemmas show that enough fuel always
  yields a result.
-/

/-- Result of a kernel call in state type `σ` returning a value of type `α`:
it returns, it panics, or it is suspended on a sleep-lock. -/
inductive Outcome (σ : Type) (α : Type) where
  | ok (val : α) (st : σ)
  | panic (msg : String) (st : σ)
  | sleep (val : α) (st : σ)

/-- State carried by an outcome, whichever way the call ended. -/
def Outcome.state {σ α : Type} : Outcome σ α → σ
  | .ok _ s => s
  | .panic _ s => s
  | .sleep _ s => s

/-- Whether the call ended in `panic`. -/
def Outcome.isPanic {σ α : Type} : Outcome σ α → Bool
  | .panic _ _ => true
  | _ => false

/-- Whether the call returned normally. -/
def Outcome.isOk {σ α : Type} : Outcome σ α → Bool
  | .ok _ _ => true
  | _ => false

/-! Definitions for kernel/bio.c. -/

/-- Number of buckets: `#define NBUCKETS 97`. -/
def NBUCKETS : Nat := 97

/-- Slots per bucket: `#define NSIZE 2`. -/
def NSIZE : Nat := 2

/-- Modulus of C `uint` arithmetic. -/
def UINT_MOD : Nat := 2 ^ 32

/-- The value of `(uint)-1`. -/
def UINT_MAX : Nat := 2 ^ 32 - 1

/-- Modelled from the spec: `struct sleeplock` (kernel/sleeplock.h is not among the
sources). The content lock is an exclusive blocking lock; it records whether it is
held and the pid of the holder. -/
structure SleepLock where
  locked : Nat
  pid : Nat
deriving DecidableEq

/-- Modelled from the spec: `struct buf` (kernel/buf.h is not among the sources).
The fields used by bio.c: `valid`, `dev`, `blockno`, `lock`, `refcnt`, `timestamp`
and the payload `data` (kept abstract as one number). -/
structure Buf where
  valid : Nat
  dev : Nat
  blockno : Nat
  lock : SleepLock
  refcnt : Nat
  timestamp : Nat
  data : Nat
deriving DecidableEq

/-- One request handed to the storage collaborator `virtio_disk_rw`. -/
structure DiskOp where
  write : Bool
  dev : Nat
  blockno : Nat
deriving DecidableEq

/-- State of the buffer cache and of its storage collaborator:
`bcache id i` is `bcache[id].buf[i]`, `disk dev blockno` is the stored block,
`disklog` lists the requests made to the device, oldest first. -/
structure BState where
  bcache : Nat → Nat → Buf
  disk : Nat → Nat → Nat
  disklog : List DiskOp

/-- Store `b` into `bcache[p.1].buf[p.2]`. -/
def BState.setBuf (st : BState) (p : Nat × Nat) (b : Buf) : BState :=
  { st with bcache := fun i j => if i = p.1 ∧ j = p.2 then b else st.bcache i j }

/-- Read `bcache[p.1].buf[p.2]`. -/
def BState.getBuf (st : BState) (p : Nat × Nat) : Buf :=
  st.bcache p.1 p.2

/-- All `uint` fields of a buffer are in the range of a C `uint`. -/
def Buf.inRange (b : Buf) : Prop :=
  b.dev < UINT_MOD ∧ b.blockno < UINT_MOD ∧ b.refcnt < UINT_MOD ∧ b.timestamp < UINT_MOD

/-- Every slot of the cache holds `uint` fields in range. -/
def BState.inRange (st : BState) : Prop :=
  ∀ i j, i < NBUCKETS → j < NSIZE → (st.bcache i j).inRange

/-- Modelled from the spec: `acquiresleep(&b->lock)` (kernel/sleeplock.c is not among
the sources). A free lock is taken for `pid`; on a held lock the caller suspends. -/
def acquiresleep (st : BState) (pid : Nat) (p : Nat × Nat) : Outcome BState (Nat × Nat) :=
  let b := st.getBuf p
  if b.lock.locked ≠ 0 then .sleep p st
  else .ok p (st.setBuf p { b with lock := { locked := 1, pid := pid } })

/-- Modelled from the spec: `holdingsleep(&b->lock)`: the lock is held, by `pid`. -/
def holdingsleep (lk : SleepLock) (pid : Nat) : Bool :=
  decide (lk.locked ≠ 0 ∧ lk.pid = pid)

/-- Modelled from the spec: `releasesleep(&b->lock)`: the lock becomes free. -/
def releasesleep (st : BState) (p : Nat × Nat) : BState :=
  st.setBuf p { st.getBuf p with lock := { locked := 0, pid := 0 } }

/-- Modelled from the spec: the storage collaborator `virtio_disk_rw(b, write)`
(kernel/virtio_disk.c is not among the sources). A read fills the payload of `b`
from block `(b->dev, b->blockno)`, a write persists the payload; each call is logged. -/
def virtio_disk_rw (st : BState) (p : Nat × Nat) (write : Bool) : BState :=
  let b := st.getBuf p
  let op : DiskOp := { write := write, dev := b.dev, blockno := b.blockno }
  if write then
    { st with
      disk := fun d n => if d = b.dev ∧ n = b.blockno then b.data else st.disk d n
      disklog := st.disklog ++ [op] }
  else
    { (st.setBuf p { b with data := st.disk b.dev b.blockno }) with
      disklog := st.disklog ++ [op] }

/-- First loop of `bget`: the first slot `i < NSIZE` of the bucket whose
`dev` and `blockno` equal the requested ones. -/
def bgetHit (bucket : Nat → Buf) (dev blockno : Nat) : Option Nat :=
  (List.range NSIZE).find? (fun i => decide ((bucket i).dev = dev ∧ (bucket i).blockno = blockno))

/-- Body of the second loop of `bget`, on the pair `(min, temp)`:
`if (b->refcnt == 0 && b->timestamp < min) { min = b->timestamp; temp = b; }`. -/
def bgetLruStep (bucket : Nat → Buf) (acc : Nat × Option Nat) (i : Nat) : Nat × Option Nat :=
  if (bucket i).refcnt = 0 ∧ (bucket i).timestamp < acc.1 then ((bucket i).timestamp, some i)
  else acc

/-- Second loop of `bget`, started with `min = -1` and `temp = 0`. -/
def bgetLru (bucket : Nat → Buf) : Nat × Option Nat :=
  (List.range NSIZE).foldl (bgetLruStep bucket) (UINT_MAX, none)

/-- The function `bget(dev, blockno)` called by process `pid`. -/
def bget (st : BState) (pid dev blockno : Nat) : Outcome BState (Nat × Nat) :=
  let id := blockno % NBUCKETS
  match bgetHit (st.bcache id) dev blockno with
  | some i =>
    let b := st.bcache id i
    acquiresleep (st.setBuf (id, i) { b with refcnt := (b.refcnt + 1) % UINT_MOD }) pid (id, i)
  | none =>
    let r := bgetLru (st.bcache id)
    if r.1 ≠ UINT_MAX then
      match r.2 with
      | some t =>
        let b := st.bcache id t
        acquiresleep
          (st.setBuf (id, t) { b with dev := dev, blockno := blockno, valid := 0, refcnt := 1 })
          pid (id, t)
      | none => .panic "kerneltrap" st
    else .panic "bget: no buffers" st

/-- The function `bread(dev, blockno)` called by process `pid`. -/
def bread (st : BState) (pid dev blockno : Nat) : Outcome BState (Nat × Nat) :=
  match bget st pid dev blockno with
  | .ok b st1 =>
    if (st1.getBuf b).valid = 0 then
      let st2 := virtio_disk_rw st1 b false
      .ok b (st2.setBuf b { st2.getBuf b with valid := 1 })
    else .ok b st1
  | .panic msg st1 => .panic msg st1
  | .sleep b st1 => .sleep b st1

/-- The function `bwrite(b)` called by process `pid`. -/
def bwrite (st : BState) (pid : Nat) (b : Nat × Nat) : Outcome BState Unit :=
  if holdingsleep (st.getBuf b).lock pid = false then .panic "bwrite" st
  else .ok () (virtio_disk_rw st b true)

/-- The function `brelse(b)` called by process `pid` when the clock reads `ticks`. -/
def brelse (st : BState) (pid : Nat) (b : Nat × Nat) (ticks : Nat) : Outcome BState Unit :=
  if holdingsleep (st.getBuf b).lock pid = false then .panic "brelse" st
  else
    let st1 := releasesleep st b
    let st2 := st1.setBuf b
      { st1.getBuf b with refcnt := ((st1.getBuf b).refcnt + UINT_MOD - 1) % UINT_MOD }
    if (st2.getBuf b).refcnt = 0 then .ok () (st2.setBuf b { st2.getBuf b with timestamp := ticks })
    else .ok () st2

/-- The function `bpin(b)`. -/
def bpin (st : BState) (b : Nat × Nat) : BState :=
  st.setBuf b { st.getBuf b with refcnt := ((st.getBuf b).refcnt + 1) % UINT_MOD }

/-- The function `bunpin(b)`. -/
def bunpin (st : BState) (b : Nat × Nat) : BState :=
  st.setBuf b { st.getBuf b with refcnt := ((st.getBuf b).refcnt + UINT_MOD - 1) % UINT_MOD }

/-- The function `binit()` run when the clock reads `ticks`: every slot gets
`refcnt = 0`, `timestamp = ticks` and a free content lock; the other fields keep
the zero of static storage. -/
def binit (ticks : Nat) : BState :=
  { bcache := fun _ _ =>
      { valid := 0, dev := 0, blockno := 0, lock := { locked := 0, pid := 0 },
        refcnt := 0, timestamp := ticks, data := 0 }
    disk := fun _ _ => 0
    disklog := [] }

/-- A slot with a free content lock and an empty payload. -/
def mkBuf (valid dev blockno refcnt timestamp : Nat) : Buf :=
  { valid := valid, dev := dev, blockno := blockno, lock := { locked := 0, pid := 0 },
    refcnt := refcnt, timestamp := timestamp, data := 0 }

/-- The cache as `binit` leaves it at tick 0, except that bucket `id` holds `b0`, `b1`. -/
def bucketState (id : Nat) (b0 b1 : Buf) : BState :=
  ((binit 0).setBuf (id, 0) b0).setBuf (id, 1) b1

/-! Definitions for kernel/kalloc.c. -/

/-- Modelled from the spec: the page size `PGSIZE` of kernel/riscv.h (not among the
sources); the allocator hands out whole 4096-byte pages. -/
def PGSIZE : Nat := 4096

/-- Modulus of `uint64` and pointer arithmetic. -/
def U64_MOD : Nat := 2 ^ 64

/-- Modelled from the spec: `PGROUNDUP(sz)` of kernel/riscv.h (not among the sources),
`(sz + PGSIZE - 1) & ~(PGSIZE - 1)` on `uint64`: the next multiple of the page size. -/
def PGROUNDUP (sz : Nat) : Nat :=
  (sz + PGSIZE - 1) % U64_MOD / PGSIZE * PGSIZE

/-- Constants that the allocator takes from files that are not among the sources:
`NCPU` (kernel/param.h), the linker symbol `end` (kernel.ld) and `PHYSTOP`
(kernel/memlayout.h). -/
structure MemLayout where
  NCPU : Nat
  kend : Nat
  PHYSTOP : Nat

/-- A spinlock operation on `kmem[cpu].lock`. -/
inductive LockEvent where
  | acquire (cpu : Nat)
  | release (cpu : Nat)
deriving DecidableEq

/-- State of the allocator: `freelist i` is `kmem[i].freelist` (0 is the null
pointer), `next pa` is the word `((struct run*)pa)->next` stored at the start of the
page at address `pa`, `locks` lists the spinlock operations performed, oldest first. -/
structure KState where
  freelist : Nat → Nat
  next : Nat → Nat
  locks : List LockEvent

/-- The call `acquire(&kmem[i].lock)`. -/
def acquire (st : KState) (i : Nat) : KState :=
  { st with locks := st.locks ++ [LockEvent.acquire i] }

/-- The call `release(&kmem[i].lock)`. -/
def release (st : KState) (i : Nat) : KState :=
  { st with locks := st.locks ++ [LockEvent.release i] }

/-- The call `memset(pa, c, PGSIZE)` on a page: every byte becomes `c`, so the word at
the start of the page becomes `c` repeated eight times. The state records one word per
address, the `next` field of a `struct run` placed there, and only the word at `pa` is
rewritten: the other 4088 bytes of the page hold no `next` field of a list entry as long
as every list entry is page-aligned (`ValidLists`), which is the case in every state
reached from `kinit`. -/
def memsetPage (st : KState) (pa c : Nat) : KState :=
  { st with next := fun a => if a = pa then c * 0x0101010101010101 else st.next a }

/-- The assignment `r->next = v`. -/
def setNext (st : KState) (r v : Nat) : KState :=
  { st with next := fun a => if a = r then v else st.next a }

/-- The assignment `kmem[i].freelist = v`. -/
def setFreelist (st : KState) (i v : Nat) : KState :=
  { st with freelist := fun c => if c = i then v else st.freelist c }

/-- The function `kfree(pa)` executed on the core whose `cpuid()` is `cpu`. -/
def kfree (L : MemLayout) (cpu : Nat) (st : KState) (pa : Nat) : Outcome KState Unit :=
  if pa % PGSIZE ≠ 0 ∨ pa < L.kend ∨ pa ≥ L.PHYSTOP then .panic "kfree" st
  else
    let st1 := memsetPage st pa 1
    let id := cpu
    let st2 := acquire st1 id
    let st3 := setNext st2 pa (st2.freelist id)
    let st4 := setFreelist st3 id pa
    .ok () (release st4 id)

/-- The loop of `freerange`, from `p`; `none` when the fuel runs out. -/
def freerangeLoop (L : MemLayout) (cpu pa_end : Nat) : Nat → Nat → KState →
    Option (Outcome KState Unit)
  | 0, _, _ => none
  | fuel + 1, p, st =>
    if (p + PGSIZE) % U64_MOD ≤ pa_end then
      match kfree L cpu st p with
      | .ok _ st1 => freerangeLoop L cpu pa_end fuel ((p + PGSIZE) % U64_MOD) st1
      | other => some other
    else some (.ok () st)

/-- The function `freerange(pa_start, pa_end)` executed on core `cpu`. -/
def freerange (L : MemLayout) (cpu fuel pa_start pa_end : Nat) (st : KState) :
    Option (Outcome KState Unit) :=
  freerangeLoop L cpu pa_end fuel (PGROUNDUP pa_start) st

/-- The loop of `kinit` over `i`, executed on the core whose `cpuid()` is `cpu`. -/
def kinitLoop (L : MemLayout) (cpu fuel : Nat) : List Nat → KState →
    Option (Outcome KState Unit)
  | [], st => some (.ok () st)
  | i :: rest, st =>
    if cpu ≠ i then kinitLoop L cpu fuel rest st
    else
      match freerange L cpu fuel L.kend L.PHYSTOP st with
      | some (.ok _ st1) => kinitLoop L cpu fuel rest st1
      | other => other

/-- The function `kinit()` executed on core `cpu`. -/
def kinit (L : MemLayout) (cpu fuel : Nat) (st : KState) : Option (Outcome KState Unit) :=
  kinitLoop L cpu fuel (List.range L.NCPU) st

/-- The stealing loop of `kalloc` entered with `r == 0`, from `temp_id`; the result is
the final `r` and the state, `none` when the fuel runs out. -/
def kallocSteal (L : MemLayout) (id : Nat) : Nat → Nat → KState → Option (Nat × KState)
  | 0, _, _ => none
  | fuel + 1, temp_id, st =>
    let t := if temp_id ≥ L.NCPU then 0 else temp_id
    if t = id then some (0, st)
    else
      let st1 := acquire st t
      let r := st1.freelist t
      if r ≠ 0 then some (r, release (setFreelist st1 t (st1.next r)) t)
      else kallocSteal L id fuel (t + 1) (release st1 t)

/-- The function `kalloc()` executed on the core whose `cpuid()` is `id`; the result is
the returned pointer (0 for failure) and the state, `none` when the fuel runs out. -/
def kalloc (L : MemLayout) (fuel id : Nat) (st : KState) : Option (Nat × KState) :=
  let st1 := acquire st id
  let r := st1.freelist id
  let st2 := if r ≠ 0 then setFreelist st1 id (st1.next r) else st1
  let st3 := release st2 id
  let res := if r ≠ 0 then some (r, st3) else kallocSteal L id fuel (id + 1) st3
  match res with
  | none => none
  | some (r1, st4) => some (r1, if r1 ≠ 0 then memsetPage st4 r1 5 else st4)

/-- The state `kalloc` leaves when it takes the head `r` of the list of core `c`
after the lock operations `tr`. -/
def popped (st : KState) (c : Nat) (tr : List LockEvent) : KState :=
  { freelist := fun x => if x = c then st.next (st.freelist c) else st.freelist x
    next := fun a => if a = st.freelist c then 5 * 0x0101010101010101 else st.next a
    locks := st.locks ++ tr }

/-- The free list of one core as a list of page addresses: `Chain next h xs` says that
following `next` from the head pointer `h` visits exactly `xs` and then reaches null. -/
def Chain (next : Nat → Nat) : Nat → List Nat → Prop
  | h, [] => h = 0
  | h, x :: xs => h = x ∧ x ≠ 0 ∧ Chain next (next x) xs

/-- The pages that `kinit` donates: the page-aligned addresses from `PGROUNDUP(end)`
whose page ends at or below `PHYSTOP`, in increasing order. -/
def managedPages (L : MemLayout) : List Nat :=
  (List.range ((L.PHYSTOP - PGROUNDUP L.kend) / PGSIZE)).map
    (fun i => PGROUNDUP L.kend + i * PGSIZE)

/-- The free lists of all cores as lists of pages: `ls c` is the list of core `c`. -/
def FreeLists (L : MemLayout) (st : KState) (ls : Nat → List Nat) : Prop :=
  ∀ c, c < L.NCPU → Chain st.next (st.freelist c) (ls c)

/-- All free pages, core after core. -/
def allFree (L : MemLayout) (ls : Nat → List Nat) : List Nat :=
  (List.range L.NCPU).flatMap ls

/-- A well-formed state of the per-core free lists: every core's list is a
null-terminated chain, no page occurs twice (on one list or on two), and every page is
page-aligned. -/
def ValidLists (L : MemLayout) (st : KState) (ls : Nat → List Nat) : Prop :=
  FreeLists L st ls ∧ (allFree L ls).Nodup ∧ ∀ p, p ∈ allFree L ls → p % PGSIZE = 0

/-- The lock operations of probing the cores `(id + j) % NCPU` for
`j = a, ..., a + cnt - 1`, each probe being an acquire followed by a release. -/
def probeTrace (L : MemLayout) (id a cnt : Nat) : List LockEvent :=
  (List.range' a cnt).flatMap
    (fun j => [LockEvent.acquire ((id + j) % L.NCPU), LockEvent.release ((id + j) % L.NCPU)])

/-- Conditions on the layout constants under which no address computation of the
allocator wraps around and the null pointer is not a managed page: the kernel image ends
above address 0, and `end` and `PHYSTOP` leave room below `2^64`. -/
def MemLayout.sane (L : MemLayout) : Prop :=
  0 < L.kend ∧ L.kend + 2 * PGSIZE ≤ U64_MOD ∧ L.PHYSTOP + PGSIZE < U64_MOD

/-- The conservation invariant: the free lists are chains, and the free pages together
with the pages handed out are the managed pages, each once. -/
def Conserved (L : MemLayout) (st : KState) (out : List Nat) : Prop :=
  ∃ ls, FreeLists L st ls ∧ (allFree L ls ++ out).Perm (managedPages L)

/-- States of the allocator reachable from `kinit`, paired with the list of pages that
`kalloc` has handed out and that have not been freed since: `kinit` runs on one core
from zeroed free-list heads; then any core may call `kalloc`, and any core may call
`kfree` on a page that is currently handed out. -/
inductive Reachable (L : MemLayout) : KState → List Nat → Prop where
  | init (cpu fuel : Nat) (st0 st : KState) :
      cpu < L.NCPU → (∀ c, st0.freelist c = 0) →
      kinit L cpu fuel st0 = some (.ok () st) → Reachable L st []
  | alloc (cpu fuel : Nat) (st : KState) (out : List Nat) (r : Nat) (st1 : KState) :
      Reachable L st out → cpu < L.NCPU →
      kalloc L fuel cpu st = some (r, st1) →
      Reachable L st1 (if r = 0 then out else r :: out)
  | free (cpu : Nat) (st : KState) (out : List Nat) (pa : Nat) (st1 : KState) :
      Reachable L st out → cpu < L.NCPU → pa ∈ out →
      kfree L cpu st pa = .ok () st1 →
      Reachable L st1 (out.erase pa)

/-- A small layout for examples: two cores, kernel image ending at address 4000, memory
ending at 12288; the managed pages are 4096 and 8192. -/
def demoLayout : MemLayout := { NCPU := 2, kend := 4000, PHYSTOP := 12288 }

/-- A layout for examples with the eight cores of xv6 and eight managed pages
4096, ..., 32768. -/
def demoLayout8 : MemLayout := { NCPU := 8, kend := 4096, PHYSTOP := 36864 }

/-- The allocator before `kinit`: null heads, zeroed memory, no lock operation yet. -/
def bootState : KState := { freelist := fun _ => 0, next := fun _ => 0, locks := [] }

/-- An allocator state with the given head pointers over zeroed memory, so that every
non-empty list has exactly one page. -/
def headsState (heads : Nat → Nat) : KState :=
  { freelist := heads, next := fun _ => 0, locks := [] }

/-- State in which a call of `kinit`, `freerange` left the allocator; `dflt` when the
fuel ran out. -/
def stateOf (o : Option (Outcome KState Unit)) (dflt : KState) : KState :=
  match o with
  | some r => r.state
  | none => dflt

/-- The allocator of `demoLayout` after `kinit` on core 0. -/
def demoInit : KState := stateOf (kinit demoLayout 0 5 bootState) bootState

/-- The allocator of `demoLayout` after `kinit` on core 0 and one `kalloc` on core 1. -/
def demoAlloc : Nat × KState := (kalloc demoLayout 2 1 demoInit).getD (0, demoInit)

/-- The allocator of `demoLayout` after `kinit` on core 0, one `kalloc` on core 1 and the
`kfree` on core 1 of the page obtained. -/
def demoFreed : KState := (kfree demoLayout 1 demoAlloc.2 demoAlloc.1).state

/-- Example lists for `demoLayout8`: only core 3 holds a page, the page 4096. -/
def onlyCore3 : Nat → List Nat := fun c => if c = 3 then [4096] else []

/-- Example lists for `demoLayout8`: core 1 holds page 4096 and core 2 holds page 8192. -/
def cores1and2 : Nat → List Nat :=
  fun c => if c = 1 then [4096] else if c = 2 then [8192] else []

/-- The head pointers of lists that hold at most one page each. -/
def headsOf (ls : Nat → List Nat) : Nat → Nat := fun c => (ls c).headD 0

/-! Definitions for sequences of buffer-cache calls. -/

/-- One call of the buffer-cache interface: `bget(dev, blockno)` by process `pid`,
`brelse(b)` by process `pid` when the clock reads `ticks`, `bpin(b)`, `bunpin(b)`. -/
inductive BOp where
  | get (pid dev blockno : Nat)
  | release (pid : Nat) (b : Nat × Nat) (ticks : Nat)
  | pin (b : Nat × Nat)
  | unpin (b : Nat × Nat)

/-- The state of the cache after one call, whichever way the call ended. -/
def bstep (st : BState) : BOp → BState
  | .get pid dev blockno => (bget st pid dev blockno).state
  | .release pid b ticks => (brelse st pid b ticks).state
  | .pin b => bpin st b
  | .unpin b => bunpin st b

/-- Add `d` to the ledger entry of slot `b`. -/
def bump (net : Nat → Nat → Int) (b : Nat × Nat) (d : Int) : Nat → Nat → Int :=
  fun i j => if i = b.1 ∧ j = b.2 then net i j + d else net i j

/-- Set the ledger entry of slot `b` to `v`. -/
def setNet (net : Nat → Nat → Int) (b : Nat × Nat) (v : Int) : Nat → Nat → Int :=
  fun i j => if i = b.1 ∧ j = b.2 then v else net i j

/-- The ledger of one call made in state `st`. The ledger of a slot counts the increments
applied to it by `bget` and `bpin` since it was last repurposed, minus the decrements
applied by `brelse` and `bunpin`; repurposing a slot sets its ledger to 1, and a call
that panics changes nothing. -/
def ledgerStep (st : BState) (net : Nat → Nat → Int) : BOp → Nat → Nat → Int
  | .get pid dev blockno =>
    match bget st pid dev blockno with
    | .panic _ _ => net
    | .ok b _ =>
      if (bgetHit (st.bcache (blockno % NBUCKETS)) dev blockno).isSome then bump net b 1
      else setNet net b 1
    | .sleep b _ =>
      if (bgetHit (st.bcache (blockno % NBUCKETS)) dev blockno).isSome then bump net b 1
      else setNet net b 1
  | .release pid b ticks =>
    if (brelse st pid b ticks).isPanic then net else bump net b (-1)
  | .pin b => bump net b 1
  | .unpin b => bump net b (-1)

/-- Run a sequence of calls, keeping the ledger. -/
def ledgerRun : BState → (Nat → Nat → Int) → List BOp → BState × (Nat → Nat → Int)
  | st, net, [] => (st, net)
  | st, net, op :: ops => ledgerRun (bstep st op) (ledgerStep st net op) ops

/-- A call that neither decrements a reference count of 0 nor increments a reference
count of `(uint)-1`. -/
def opInBounds (st : BState) : BOp → Prop
  | .get _ dev blockno =>
    ∀ i, bgetHit (st.bcache (blockno % NBUCKETS)) dev blockno = some i →
      (st.bcache (blockno % NBUCKETS) i).refcnt < UINT_MAX
  | .release pid b _ =>
    holdingsleep (st.getBuf b).lock pid = true → 0 < (st.bcache b.1 b.2).refcnt
  | .pin b => (st.bcache b.1 b.2).refcnt < UINT_MAX
  | .unpin b => 0 < (st.bcache b.1 b.2).refcnt

/-- A sequence of calls, started in `st`, each of which is in bounds when it is made. -/
def InBounds : BState → List BOp → Prop
  | _, [] => True
  | st, op :: ops => opInBounds st op ∧ InBounds (bstep st op) ops

/-- The ledger invariant modulo `2^32`. -/
def LedgerMod (st : BState) (net : Nat → Nat → Int) : Prop :=
  ∀ i j, ((st.bcache i j).refcnt : Int) = net i j % (UINT_MOD : Int)

/-- The exact ledger invariant. -/
def LedgerExact (st : BState) (net : Nat → Nat → Int) : Prop :=
  ∀ i j, ((st.bcache i j).refcnt : Int) = net i j

/-- States of the cache reachable from `binit` by `bget` calls and by `brelse`, `bpin`
and `bunpin` calls on buffers of the cache whose reference count is above 0. -/
inductive BReach : BState → Prop where
  | init (ticks : Nat) : BReach (binit ticks)
  | get (st : BState) (pid dev blockno : Nat) :
      BReach st → BReach (bget st pid dev blockno).state
  | release (st : BState) (pid : Nat) (b : Nat × Nat) (ticks : Nat) :
      BReach st → b.1 < NBUCKETS → b.2 < NSIZE → 0 < (st.bcache b.1 b.2).refcnt →
      BReach (brelse st pid b ticks).state
  | pin (st : BState) (b : Nat × Nat) :
      BReach st → b.1 < NBUCKETS → b.2 < NSIZE → 0 < (st.bcache b.1 b.2).refcnt →
      BReach (bpin st b)
  | unpin (st : BState) (b : Nat × Nat) :
      BReach st → b.1 < NBUCKETS → b.2 < NSIZE → 0 < (st.bcache b.1 b.2).refcnt →
      BReach (bunpin st b)

/-- Invariant of the reachable cache states: a referenced slot lies in the bucket of its block number,
and when the two slots of a bucket carry the same identity the second one is
unreferenced. -/
def OneBufferPerBlock (st : BState) : Prop :=
  (∀ i j, j < NSIZE → 0 < (st.bcache i j).refcnt → (st.bcache i j).blockno % NBUCKETS = i) ∧
  (∀ i, (st.bcache i 0).dev = (st.bcache i 1).dev →
    (st.bcache i 0).blockno = (st.bcache i 1).blockno → (st.bcache i 1).refcnt = 0)

/-- Whether a sequence of lock operations, started with the lock of core `held` held (or
none), takes one lock at a time: an acquire happens only when no lock is held, the next
operation is the release of that same lock, and no lock is held at the end. -/
def lockDiscipline : Option Nat → List LockEvent → Bool
  | held, [] => held.isNone
  | none, .acquire c :: rest => lockDiscipline (some c) rest
  | some _, .acquire _ :: _ => false
  | some h, .release c :: rest => decide (h = c) && lockDiscipline none rest
  | none, .release _ :: _ => false

/-! Definitions for concurrent callers of the buffer cache. -/

/-- The critical section of `bget` under the bucket lock (bio.c:84-121): what `bget` does
between `acquire(&bcache[id].lock)` and `release(&bcache[id].lock)`. The result is the
buffer on which `bget` then calls `acquiresleep`, or the panic. -/
def bgetLocked (st : BState) (dev blockno : Nat) : Outcome BState (Nat × Nat) :=
  let id := blockno % NBUCKETS
  match bgetHit (st.bcache id) dev blockno with
  | some i =>
    let b := st.bcache id i
    .ok (id, i) (st.setBuf (id, i) { b with refcnt := (b.refcnt + 1) % UINT_MOD })
  | none =>
    let r := bgetLru (st.bcache id)
    if r.1 ≠ UINT_MAX then
      match r.2 with
      | some t =>
        let b := st.bcache id t
        .ok (id, t)
          (st.setBuf (id, t) { b with dev := dev, blockno := blockno, valid := 0, refcnt := 1 })
      | none => .panic "kerneltrap" st
    else .panic "bget: no buffers" st

/-- The statement `b->valid = 1` of `bread`. -/
def setValid (st : BState) (b : Nat × Nat) : BState :=
  st.setBuf b { st.getBuf b with valid := 1 }

/-- The critical section of `brelse` under the bucket lock (bio.c:196-203), entered after
`releasesleep`, when the clock reads `ticks`: `b->refcnt--` and, when the count reaches
zero, `b->timestamp = ticks`. The lock taken is that of bucket `b->blockno % NBUCKETS`,
the bucket of `b` for every referenced buffer handed out by `bget`. -/
def brelseLocked (st : BState) (b : Nat × Nat) (ticks : Nat) : BState :=
  let st2 := st.setBuf b
    { st.getBuf b with refcnt := ((st.getBuf b).refcnt + UINT_MOD - 1) % UINT_MOD }
  if (st2.getBuf b).refcnt = 0 then st2.setBuf b { st2.getBuf b with timestamp := ticks }
  else st2

/-- Program point of a caller that runs `b = bread(dev, blockno); brelse(b);` again and
again. The points lie where bio.c takes or drops a lock and between the accesses made
under the content lock. -/
inductive Pc where
  /-- before `bget` takes the bucket lock -/
  | start
  /-- in `acquiresleep(&b->lock)`, after `bget` has released the bucket lock -/
  | wantLock (b : Nat × Nat)
  /-- after `bget` has returned `b`, before `bread` tests `b->valid` -/
  | locked (b : Nat × Nat)
  /-- after `bread` found `b->valid == 0`, before it calls `virtio_disk_rw(b, 0)` -/
  | loading (b : Nat × Nat)
  /-- after `virtio_disk_rw` has returned, before `bread` sets `b->valid = 1` -/
  | loaded (b : Nat × Nat)
  /-- after `bread` has returned `b`, before `brelse(b)` tests `holdingsleep(&b->lock)` -/
  | inUse (b : Nat × Nat)
  /-- after `brelse` has passed the test, before it calls `releasesleep(&b->lock)` -/
  | checked (b : Nat × Nat)
  /-- after `brelse` has released the content lock, before it takes the bucket lock -/
  | releasing (b : Nat × Nat)
  /-- after `brelse` has returned -/
  | finished
  /-- after the caller has called `panic` -/
  | panicked
deriving DecidableEq

/-- The cache together with the program point of every caller. -/
structure CState where
  cache : BState
  pc : Nat → Pc

/-- Move caller `c` to program point `p`. -/
def setPc (pc : Nat → Pc) (c : Nat) (p : Pc) : Nat → Pc :=
  fun x => if x = c then p else pc x

/-- One step of caller `c`, one of the `N` callers; caller `c` runs as process `pids c`
and asks for block `req c`; `ticks` is the clock value read if the step is the critical
section of `brelse`. A caller in `acquiresleep` moves only when the lock is free. -/
def cstep (N : Nat) (pids : Nat → Nat) (req : Nat → Nat × Nat) (g : CState) (c ticks : Nat) :
    CState :=
  if c < N then
    match g.pc c with
    | .start =>
      match bgetLocked g.cache (req c).1 (req c).2 with
      | .ok b s => { cache := s, pc := setPc g.pc c (.wantLock b) }
      | .panic _ s => { cache := s, pc := setPc g.pc c .panicked }
      | .sleep _ _ => g
    | .wantLock b =>
      match acquiresleep g.cache (pids c) b with
      | .ok _ s => { cache := s, pc := setPc g.pc c (.locked b) }
      | .panic _ _ => g
      | .sleep _ _ => g
    | .locked b =>
      if (g.cache.getBuf b).valid = 0 then { cache := g.cache, pc := setPc g.pc c (.loading b) }
      else { cache := g.cache, pc := setPc g.pc c (.inUse b) }
    | .loading b => { cache := virtio_disk_rw g.cache b false, pc := setPc g.pc c (.loaded b) }
    | .loaded b => { cache := setValid g.cache b, pc := setPc g.pc c (.inUse b) }
    | .inUse b =>
      if holdingsleep (g.cache.getBuf b).lock (pids c) = false then
        { cache := g.cache, pc := setPc g.pc c .panicked }
      else { cache := g.cache, pc := setPc g.pc c (.checked b) }
    | .checked b => { cache := releasesleep g.cache b, pc := setPc g.pc c (.releasing b) }
    | .releasing b => { cache := brelseLocked g.cache b ticks, pc := setPc g.pc c .finished }
    | .finished => { cache := g.cache, pc := setPc g.pc c .start }
    | .panicked => g
  else g

/-- An interleaving: the steps of the schedule, each entry naming the caller that moves
and the clock value, run from `g`. -/
def crun (N : Nat) (pids : Nat → Nat) (req : Nat → Nat × Nat) (g : CState) :
    List (Nat × Nat) → CState
  | [] => g
  | e :: rest => crun N pids req (cstep N pids req g e.1 e.2) rest

theorem slot_cases {j : Nat} (h : j < NSIZE) : j = 0 ∨ j = 1 := by
  unfold NSIZE at h; omega

theorem bgetHit_unfold (bucket : Nat → Buf) (dev blockno : Nat) :
    bgetHit bucket dev blockno =
      if (bucket 0).dev = dev ∧ (bucket 0).blockno = blockno then some 0
      else if (bucket 1).dev = dev ∧ (bucket 1).blockno = blockno then some 1
      else none := by
  have h : List.range NSIZE = [0, 1] := rfl
  unfold bgetHit
  rw [h]
  by_cases h0 : (bucket 0).dev = dev ∧ (bucket 0).blockno = blockno
  · simp [List.find?, h0]
  · by_cases h1 : (bucket 1).dev = dev ∧ (bucket 1).blockno = blockno
    · simp [List.find?, h0, h1]
    · simp [List.find?, h0, h1]

theorem bgetHit_none_iff (bucket : Nat → Buf) (dev blockno : Nat) :
    bgetHit bucket dev blockno = none ↔
      ∀ i, i < NSIZE → ¬ ((bucket i).dev = dev ∧ (bucket i).blockno = blockno) := by
  rw [bgetHit_unfold]
  constructor
  · intro h i hi
    rcases slot_cases hi with rfl | rfl
    · intro h0; simp [h0] at h
    · intro h1; by_cases h0 : (bucket 0).dev = dev ∧ (bucket 0).blockno = blockno
      · simp [h0] at h
      · simp [h0, h1] at h
  · intro h
    have h0 := h 0 (by decide)
    have h1 := h 1 (by decide)
    simp [h0, h1]

theorem bgetLru_unfold (bucket : Nat → Buf) :
    bgetLru bucket = bgetLruStep bucket (bgetLruStep bucket (UINT_MAX, none) 0) 1 := rfl

/-- What the second loop of `bget` leaves in `(min, temp)`: either a selected slot
`t`, unreferenced, whose timestamp `min` is below `(uint)-1` and minimal among the
unreferenced slots, or no slot and `min` still `(uint)-1`, which happens exactly when no
unreferenced slot has a timestamp below `(uint)-1`. -/
theorem bgetLru_spec (bucket : Nat → Buf) :
    (∃ t, bgetLru bucket = ((bucket t).timestamp, some t) ∧ t < NSIZE ∧
        (bucket t).refcnt = 0 ∧ (bucket t).timestamp < UINT_MAX ∧
        (∀ j, j < NSIZE → (bucket j).refcnt = 0 → (bucket t).timestamp ≤ (bucket j).timestamp) ∧
        (∀ j, j < t → (bucket j).refcnt = 0 → (bucket t).timestamp < (bucket j).timestamp)) ∨
    (bgetLru bucket = (UINT_MAX, none) ∧
        ∀ j, j < NSIZE → ¬ ((bucket j).refcnt = 0 ∧ (bucket j).timestamp < UINT_MAX)) := by
  rw [bgetLru_unfold]
  by_cases c0 : (bucket 0).refcnt = 0 ∧ (bucket 0).timestamp < UINT_MAX
  · by_cases c1 : (bucket 1).refcnt = 0 ∧ (bucket 1).timestamp < (bucket 0).timestamp
    · left
      refine ⟨1, ?_, by decide, c1.1, lt_trans c1.2 c0.2, ?_, ?_⟩
      · simp [bgetLruStep, c0, c1]
      · intro j hj _
        rcases slot_cases hj with rfl | rfl
        · exact le_of_lt c1.2
        · exact le_refl _
      · intro j hj _
        have : j = 0 := by omega
        subst this; exact c1.2
    · left
      refine ⟨0, ?_, by decide, c0.1, c0.2, ?_, ?_⟩
      · simp [bgetLruStep, c0, c1]
      · intro j hj hr
        rcases slot_cases hj with rfl | rfl
        · exact le_refl _
        · by_contra hlt
          exact c1 ⟨hr, not_le.mp hlt⟩
      · intro j hj; omega
  · by_cases c1 : (bucket 1).refcnt = 0 ∧ (bucket 1).timestamp < UINT_MAX
    · left
      refine ⟨1, ?_, by decide, c1.1, c1.2, ?_, ?_⟩
      · simp [bgetLruStep, c0, c1]
      · intro j hj hr
        rcases slot_cases hj with rfl | rfl
        · by_contra hlt
          exact c0 ⟨hr, lt_trans (not_le.mp hlt) c1.2⟩
        · exact le_refl _
      · intro j hj hr
        have : j = 0 := by omega
        subst this
        by_contra hlt
        have h2 : (bucket 0).timestamp ≤ (bucket 1).timestamp := not_lt.mp hlt
        exact c0 ⟨hr, lt_of_le_of_lt h2 c1.2⟩
    · right
      refine ⟨?_, ?_⟩
      · simp [bgetLruStep, c0, c1]
      · intro j hj
        rcases slot_cases hj with rfl | rfl
        · exact c0
        · exact c1

theorem bgetHit_some_iff (bucket : Nat → Buf) (dev blockno i : Nat) :
    bgetHit bucket dev blockno = some i ↔
      i < NSIZE ∧ ((bucket i).dev = dev ∧ (bucket i).blockno = blockno) ∧
        ∀ j, j < i → ¬ ((bucket j).dev = dev ∧ (bucket j).blockno = blockno) := by
  rw [bgetHit_unfold]
  constructor
  · intro h
    by_cases h0 : (bucket 0).dev = dev ∧ (bucket 0).blockno = blockno
    · rw [if_pos h0] at h
      cases h
      exact ⟨by decide, h0, fun j hj => absurd hj (Nat.not_lt_zero j)⟩
    · rw [if_neg h0] at h
      by_cases h1 : (bucket 1).dev = dev ∧ (bucket 1).blockno = blockno
      · rw [if_pos h1] at h
        cases h
        refine ⟨by decide, h1, fun j hj => ?_⟩
        have : j = 0 := by omega
        subst this; exact h0
      · rw [if_neg h1] at h
        cases h
  · rintro ⟨hi, hm, hf⟩
    rcases slot_cases hi with rfl | rfl
    · rw [if_pos hm]
    · rw [if_neg (hf 0 (by decide)), if_pos hm]

/-- The state left by the bookkeeping of a miss that repurposes slot `(id, t)`. -/
theorem setBuf_same (st : BState) (p : Nat × Nat) (b : Buf) :
    (st.setBuf p b).bcache p.1 p.2 = b := by
  simp [BState.setBuf]

theorem setBuf_other (st : BState) (p : Nat × Nat) (b : Buf) (i j : Nat)
    (h : ¬ (i = p.1 ∧ j = p.2)) : (st.setBuf p b).bcache i j = st.bcache i j := by
  simp [BState.setBuf, h]

/-- The call `acquiresleep` returns `p` or suspends on `p`; it returns when the lock is
free, and it changes nothing but the lock field of `p`. -/
theorem acquiresleep_spec (st : BState) (pid : Nat) (p : Nat × Nat) :
    ∃ st1, (acquiresleep st pid p = .ok p st1 ∨ acquiresleep st pid p = .sleep p st1) ∧
      ((st.bcache p.1 p.2).lock.locked = 0 → acquiresleep st pid p = .ok p st1) ∧
      (acquiresleep st pid p = .ok p st1 → (st1.bcache p.1 p.2).lock = ⟨1, pid⟩) ∧
      (∀ i j, ¬ (i = p.1 ∧ j = p.2) → st1.bcache i j = st.bcache i j) ∧
      (st1.bcache p.1 p.2).valid = (st.bcache p.1 p.2).valid ∧
      (st1.bcache p.1 p.2).dev = (st.bcache p.1 p.2).dev ∧
      (st1.bcache p.1 p.2).blockno = (st.bcache p.1 p.2).blockno ∧
      (st1.bcache p.1 p.2).refcnt = (st.bcache p.1 p.2).refcnt ∧
      (st1.bcache p.1 p.2).timestamp = (st.bcache p.1 p.2).timestamp ∧
      (st1.bcache p.1 p.2).data = (st.bcache p.1 p.2).data ∧
      st1.disk = st.disk ∧ st1.disklog = st.disklog := by
  by_cases hl : (st.bcache p.1 p.2).lock.locked = 0
  · refine ⟨st.setBuf p { st.getBuf p with lock := { locked := 1, pid := pid } }, ?_⟩
    have e : acquiresleep st pid p =
        .ok p (st.setBuf p { st.getBuf p with lock := { locked := 1, pid := pid } }) := by
      simp [acquiresleep, BState.getBuf, hl]
    refine ⟨Or.inl e, fun _ => e, fun _ => ?_, ?_, ?_⟩
    · rw [setBuf_same]
    · intro i j h; exact setBuf_other st p _ i j h
    · simp [setBuf_same, BState.getBuf, BState.setBuf]
  · refine ⟨st, ?_⟩
    have e : acquiresleep st pid p = .sleep p st := by
      simp [acquiresleep, BState.getBuf, hl]
    refine ⟨Or.inr e, fun h => absurd h hl, fun h => ?_, fun _ _ _ => rfl, ?_⟩
    · rw [e] at h; cases h
    · simp

/-- The two ways a miss of `bget` can end: a slot `t` chosen by the second loop is
repurposed and then locked, or the call panics in the unchanged state. -/
theorem bget_miss_cases (st : BState) (pid dev blockno : Nat)
    (hmiss : bgetHit (st.bcache (blockno % NBUCKETS)) dev blockno = none) :
    (∃ t, t < NSIZE ∧ (st.bcache (blockno % NBUCKETS) t).refcnt = 0 ∧
        (st.bcache (blockno % NBUCKETS) t).timestamp < UINT_MAX ∧
        (∀ j, j < NSIZE → (st.bcache (blockno % NBUCKETS) j).refcnt = 0 →
          (st.bcache (blockno % NBUCKETS) t).timestamp ≤
            (st.bcache (blockno % NBUCKETS) j).timestamp) ∧
        (∀ j, j < t → (st.bcache (blockno % NBUCKETS) j).refcnt = 0 →
          (st.bcache (blockno % NBUCKETS) t).timestamp <
            (st.bcache (blockno % NBUCKETS) j).timestamp) ∧
        bget st pid dev blockno =
          acquiresleep
            (st.setBuf (blockno % NBUCKETS, t)
              { st.bcache (blockno % NBUCKETS) t with
                dev := dev, blockno := blockno, valid := 0, refcnt := 1 })
            pid (blockno % NBUCKETS, t)) ∨
    (bget st pid dev blockno = .panic "bget: no buffers" st ∧
        ∀ j, j < NSIZE → ¬ ((st.bcache (blockno % NBUCKETS) j).refcnt = 0 ∧
          (st.bcache (blockno % NBUCKETS) j).timestamp < UINT_MAX)) := by
  rcases bgetLru_spec (st.bcache (blockno % NBUCKETS)) with ⟨t, hl, ht, hr, hlt, hmin, hfst⟩ | ⟨hl, hno⟩
  · left
    refine ⟨t, ht, hr, hlt, hmin, hfst, ?_⟩
    have hne : (st.bcache (blockno % NBUCKETS) t).timestamp ≠ UINT_MAX := ne_of_lt hlt
    simp only [bget, hmiss, hl]
    rw [if_pos hne]
  · right
    refine ⟨?_, hno⟩
    simp only [bget, hmiss, hl]
    simp

/-- What `bget` guarantees whenever it returns: the returned pointer is a slot of the
shard of `blockno`, it carries the requested identity and is the first slot of its shard
to do so, its content lock is held by the caller, and the device was not touched. -/
theorem bget_ok_spec (st : BState) (pid dev blockno : Nat) (b : Nat × Nat) (st1 : BState)
    (h : bget st pid dev blockno = .ok b st1) :
    b.1 = blockno % NBUCKETS ∧ b.2 < NSIZE ∧
      (st1.bcache b.1 b.2).dev = dev ∧ (st1.bcache b.1 b.2).blockno = blockno ∧
      (∀ j, j < b.2 → ¬ ((st1.bcache b.1 j).dev = dev ∧ (st1.bcache b.1 j).blockno = blockno)) ∧
      (st1.bcache b.1 b.2).lock = ⟨1, pid⟩ ∧
      st1.disk = st.disk ∧ st1.disklog = st.disklog := by
  cases hh : bgetHit (st.bcache (blockno % NBUCKETS)) dev blockno with
  | some i =>
    obtain ⟨hi, hm, hf⟩ := (bgetHit_some_iff _ _ _ _).mp hh
    have hb : bget st pid dev blockno =
        acquiresleep
          (st.setBuf (blockno % NBUCKETS, i)
            { st.bcache (blockno % NBUCKETS) i with
              refcnt := ((st.bcache (blockno % NBUCKETS) i).refcnt + 1) % UINT_MOD })
          pid (blockno % NBUCKETS, i) := by
      simp only [bget, hh]
    obtain ⟨s, hor, _, hlock, hoth, _, hdev, hblk, _, _, _, hdisk, hlog⟩ :=
      acquiresleep_spec
        (st.setBuf (blockno % NBUCKETS, i)
          { st.bcache (blockno % NBUCKETS) i with
            refcnt := ((st.bcache (blockno % NBUCKETS) i).refcnt + 1) % UINT_MOD })
        pid (blockno % NBUCKETS, i)
    rw [hb] at h
    have hs : acquiresleep
        (st.setBuf (blockno % NBUCKETS, i)
          { st.bcache (blockno % NBUCKETS) i with
            refcnt := ((st.bcache (blockno % NBUCKETS) i).refcnt + 1) % UINT_MOD })
        pid (blockno % NBUCKETS, i) = .ok (blockno % NBUCKETS, i) s := by
      rcases hor with h1 | h1
      · exact h1
      · rw [h1] at h; cases h
    rw [hs] at h
    cases h
    refine ⟨rfl, hi, ?_, ?_, ?_, hlock hs, ?_, ?_⟩
    · rw [hdev]; simpa [BState.setBuf] using hm.1
    · rw [hblk]; simpa [BState.setBuf] using hm.2
    · intro j hj
      have hij : ¬ (blockno % NBUCKETS = blockno % NBUCKETS ∧ j = i) := by
        rintro ⟨_, rfl⟩; exact lt_irrefl _ hj
      show ¬ ((st1.bcache (blockno % NBUCKETS) j).dev = dev ∧
        (st1.bcache (blockno % NBUCKETS) j).blockno = blockno)
      rw [hoth _ j hij, setBuf_other st _ _ _ j hij]
      exact hf j hj
    · rw [hdisk]; rfl
    · rw [hlog]; rfl
  | none =>
    have hmiss := (bgetHit_none_iff _ _ _).mp hh
    rcases bget_miss_cases st pid dev blockno hh with ⟨t, ht, _, _, _, _, hb⟩ | ⟨hb, _⟩
    · obtain ⟨s, hor, _, hlock, hoth, _, hdev, hblk, _, _, _, hdisk, hlog⟩ :=
        acquiresleep_spec
          (st.setBuf (blockno % NBUCKETS, t)
            { st.bcache (blockno % NBUCKETS) t with
              dev := dev, blockno := blockno, valid := 0, refcnt := 1 })
          pid (blockno % NBUCKETS, t)
      rw [hb] at h
      have hs : acquiresleep
          (st.setBuf (blockno % NBUCKETS, t)
            { st.bcache (blockno % NBUCKETS) t with
              dev := dev, blockno := blockno, valid := 0, refcnt := 1 })
          pid (blockno % NBUCKETS, t) = .ok (blockno % NBUCKETS, t) s := by
        rcases hor with h1 | h1
        · exact h1
        · rw [h1] at h; cases h
      rw [hs] at h
      cases h
      refine ⟨rfl, ht, ?_, ?_, ?_, hlock hs, ?_, ?_⟩
      · rw [hdev]; simp [BState.setBuf]
      · rw [hblk]; simp [BState.setBuf]
      · intro j hj
        have hij : ¬ (blockno % NBUCKETS = blockno % NBUCKETS ∧ j = t) := by
          rintro ⟨_, rfl⟩; exact lt_irrefl _ hj
        show ¬ ((st1.bcache (blockno % NBUCKETS) j).dev = dev ∧
          (st1.bcache (blockno % NBUCKETS) j).blockno = blockno)
        rw [hoth _ j hij, setBuf_other st _ _ _ j hij]
        exact hmiss j (lt_trans hj ht)
      · rw [hdisk]; rfl
      · rw [hlog]; rfl
    · rw [hb] at h; cases h

/-- Hit path of `bget`: when slot `i` is the first slot of the shard that matches the request,
`bget` selects `i` (it returns `i` at once when the content lock of `i` is free and is
suspended on that lock otherwise), the reference count of `i` has gone through one
`refcnt++` (one more than before, for every count below `(uint)-1`), its `dev`,
`blockno`, `valid` and `timestamp` are unchanged, and no other slot of the cache has
changed; no condition is put on the reference count the slot had, so an unreferenced
slot is matched again in the same way and is not repurposed. -/
theorem hit_path_spec (st : BState) (pid dev blockno i : Nat) (hi : i < NSIZE)
    (hm : (st.bcache (blockno % NBUCKETS) i).dev = dev ∧
      (st.bcache (blockno % NBUCKETS) i).blockno = blockno)
    (hfirst : ∀ j, j < i → ¬ ((st.bcache (blockno % NBUCKETS) j).dev = dev ∧
      (st.bcache (blockno % NBUCKETS) j).blockno = blockno)) :
    ∃ st1,
      (bget st pid dev blockno = .ok (blockno % NBUCKETS, i) st1 ∨
        bget st pid dev blockno = .sleep (blockno % NBUCKETS, i) st1) ∧
      ((st.bcache (blockno % NBUCKETS) i).lock.locked = 0 →
        bget st pid dev blockno = .ok (blockno % NBUCKETS, i) st1) ∧
      (st1.bcache (blockno % NBUCKETS) i).refcnt =
        ((st.bcache (blockno % NBUCKETS) i).refcnt + 1) % UINT_MOD ∧
      ((st.bcache (blockno % NBUCKETS) i).refcnt < UINT_MAX →
        (st1.bcache (blockno % NBUCKETS) i).refcnt =
          (st.bcache (blockno % NBUCKETS) i).refcnt + 1) ∧
      (st1.bcache (blockno % NBUCKETS) i).dev = (st.bcache (blockno % NBUCKETS) i).dev ∧
      (st1.bcache (blockno % NBUCKETS) i).blockno =
        (st.bcache (blockno % NBUCKETS) i).blockno ∧
      (st1.bcache (blockno % NBUCKETS) i).valid = (st.bcache (blockno % NBUCKETS) i).valid ∧
      (st1.bcache (blockno % NBUCKETS) i).timestamp =
        (st.bcache (blockno % NBUCKETS) i).timestamp ∧
      (∀ k j, ¬ (k = blockno % NBUCKETS ∧ j = i) → st1.bcache k j = st.bcache k j) ∧
      st1.disk = st.disk ∧ st1.disklog = st.disklog := by
  have hh := (bgetHit_some_iff (st.bcache (blockno % NBUCKETS)) dev blockno i).mpr
    ⟨hi, hm, hfirst⟩
  have hb : bget st pid dev blockno =
      acquiresleep
        (st.setBuf (blockno % NBUCKETS, i)
          { st.bcache (blockno % NBUCKETS) i with
            refcnt := ((st.bcache (blockno % NBUCKETS) i).refcnt + 1) % UINT_MOD })
        pid (blockno % NBUCKETS, i) := by
    simp only [bget, hh]
  obtain ⟨s, hor, hfree, _, hoth, hvalid, hdev, hblk, hrc, htime, _, hdisk, hlog⟩ :=
    acquiresleep_spec
      (st.setBuf (blockno % NBUCKETS, i)
        { st.bcache (blockno % NBUCKETS) i with
          refcnt := ((st.bcache (blockno % NBUCKETS) i).refcnt + 1) % UINT_MOD })
      pid (blockno % NBUCKETS, i)
  have hrc1 : (s.bcache (blockno % NBUCKETS) i).refcnt =
      ((st.bcache (blockno % NBUCKETS) i).refcnt + 1) % UINT_MOD := by
    simpa [BState.setBuf] using hrc
  refine ⟨s, ?_, ?_, hrc1, ?_, ?_, ?_, ?_, ?_, ?_, ?_, ?_⟩
  · rw [hb]; exact hor
  · intro hl
    rw [hb]
    apply hfree
    simpa [BState.setBuf] using hl
  · intro hlt
    rw [hrc1]
    apply Nat.mod_eq_of_lt
    unfold UINT_MAX at hlt
    unfold UINT_MOD
    omega
  · simpa [BState.setBuf] using hdev
  · simpa [BState.setBuf] using hblk
  · simpa [BState.setBuf] using hvalid
  · simpa [BState.setBuf] using htime
  · intro k j hkj
    rw [hoth k j hkj]
    exact setBuf_other st _ _ k j hkj
  · rw [hdisk]; rfl
  · rw [hlog]; rfl

theorem ite_ok_state {σ : Type} (c : Prop) [Decidable c] (a b : σ) :
    (if c then Outcome.ok () a else Outcome.ok () b : Outcome σ Unit) =
      .ok () (if c then Outcome.ok () a else Outcome.ok () b : Outcome σ Unit).state := by
  split <;> rfl

/-- What `brelse` does when the caller holds the content lock of `b`: the lock is freed,
the reference count goes through one `refcnt--`, the timestamp becomes `ticks` exactly
when the new count is 0, and nothing else changes. -/
theorem brelse_spec (st : BState) (pid : Nat) (b : Nat × Nat) (ticks : Nat)
    (hold : (st.bcache b.1 b.2).lock.locked ≠ 0 ∧ (st.bcache b.1 b.2).lock.pid = pid) :
    ∃ st1, brelse st pid b ticks = .ok () st1 ∧
      (st1.bcache b.1 b.2).lock = ⟨0, 0⟩ ∧
      (st1.bcache b.1 b.2).refcnt = ((st.bcache b.1 b.2).refcnt + UINT_MOD - 1) % UINT_MOD ∧
      ((st1.bcache b.1 b.2).refcnt = 0 → (st1.bcache b.1 b.2).timestamp = ticks) ∧
      ((st1.bcache b.1 b.2).refcnt ≠ 0 →
        (st1.bcache b.1 b.2).timestamp = (st.bcache b.1 b.2).timestamp) ∧
      (st1.bcache b.1 b.2).dev = (st.bcache b.1 b.2).dev ∧
      (st1.bcache b.1 b.2).blockno = (st.bcache b.1 b.2).blockno ∧
      (st1.bcache b.1 b.2).valid = (st.bcache b.1 b.2).valid ∧
      (st1.bcache b.1 b.2).data = (st.bcache b.1 b.2).data ∧
      (∀ k j, ¬ (k = b.1 ∧ j = b.2) → st1.bcache k j = st.bcache k j) ∧
      st1.disk = st.disk ∧ st1.disklog = st.disklog := by
  have hh : holdingsleep (st.getBuf b).lock pid = true := by
    simp [holdingsleep, BState.getBuf, hold.1, hold.2]
  have hh2 : holdingsleep (st.bcache b.1 b.2).lock pid = true := hh
  have hok : brelse st pid b ticks = .ok () (brelse st pid b ticks).state := by
    unfold brelse
    rw [if_neg (by simp [hh])]
    exact ite_ok_state _ _ _
  refine ⟨(brelse st pid b ticks).state, hok, ?_⟩
  by_cases hz : ((st.bcache b.1 b.2).refcnt + UINT_MOD - 1) % UINT_MOD = 0
  · simp [brelse, hh2, releasesleep, BState.getBuf, BState.setBuf, hz, Outcome.state]
    intro k j hkj
    have hn : ¬ (k = b.1 ∧ j = b.2) := fun h => hkj h.1 h.2
    simp only [if_neg hn]
  · simp [brelse, hh2, releasesleep, BState.getBuf, BState.setBuf, hz, Outcome.state]
    intro k j hkj
    have hn : ¬ (k = b.1 ∧ j = b.2) := fun h => hkj h.1 h.2
    simp only [if_neg hn]

/-- What `bread` does once its `bget` has returned `b` in state `st1`: it returns `b`,
valid; it asks the device for the block exactly when `b` was not valid, and then only
the payload and the valid flag of `b` change. -/
theorem bread_after_bget (st : BState) (pid dev blockno : Nat) (b : Nat × Nat) (st1 : BState)
    (h : bget st pid dev blockno = .ok b st1) :
    ∃ st2, bread st pid dev blockno = .ok b st2 ∧
      (st2.bcache b.1 b.2).valid ≠ 0 ∧
      (st2.bcache b.1 b.2).dev = (st1.bcache b.1 b.2).dev ∧
      (st2.bcache b.1 b.2).blockno = (st1.bcache b.1 b.2).blockno ∧
      (st2.bcache b.1 b.2).lock = (st1.bcache b.1 b.2).lock ∧
      (st2.bcache b.1 b.2).refcnt = (st1.bcache b.1 b.2).refcnt ∧
      (st2.bcache b.1 b.2).timestamp = (st1.bcache b.1 b.2).timestamp ∧
      (∀ k j, ¬ (k = b.1 ∧ j = b.2) → st2.bcache k j = st1.bcache k j) ∧
      ((st1.bcache b.1 b.2).valid = 0 →
        st2.disklog = st1.disklog ++
          [⟨false, (st1.bcache b.1 b.2).dev, (st1.bcache b.1 b.2).blockno⟩]) ∧
      ((st1.bcache b.1 b.2).valid ≠ 0 → st2.disklog = st1.disklog) := by
  by_cases hv : (st1.bcache b.1 b.2).valid = 0
  · refine ⟨(virtio_disk_rw st1 b false).setBuf b
      { (virtio_disk_rw st1 b false).getBuf b with valid := 1 }, ?_, ?_⟩
    · unfold bread
      rw [h]
      simp only []
      rw [if_pos (show (st1.getBuf b).valid = 0 from hv)]
    · simp [virtio_disk_rw, BState.getBuf, BState.setBuf, hv]
      intro k j hkj
      have hn : ¬ (k = b.1 ∧ j = b.2) := fun h => hkj h.1 h.2
      simp only [if_neg hn]
  · refine ⟨st1, ?_, hv, rfl, rfl, rfl, rfl, rfl, fun _ _ _ => rfl, fun h0 => absurd h0 hv,
      fun _ => rfl⟩
    unfold bread
    rw [h]
    simp only []
    rw [if_neg (show ¬ (st1.getBuf b).valid = 0 from hv)]

theorem mod_shift {n id j : Nat} (hid : id < n) (hj : j ≤ n) :
    (id + j) % n = if id + j < n then id + j else id + j - n := by
  split_ifs with h
  · exact Nat.mod_eq_of_lt h
  · rw [Nat.mod_eq_sub_mod (not_lt.mp h)]
    exact Nat.mod_eq_of_lt (by omega)

theorem mod_shift_ne {n id j : Nat} (hid : id < n) (h1 : 1 ≤ j) (hj : j < n) :
    (id + j) % n ≠ id := by
  rw [mod_shift hid (le_of_lt hj)]
  split_ifs <;> omega

theorem mod_shift_lt {n id j : Nat} (hid : id < n) : (id + j) % n < n :=
  Nat.mod_lt _ (by omega)

theorem mod_shift_succ {n id j : Nat} (hid : id < n) (hj : j < n) :
    (if (id + j) % n + 1 ≥ n then 0 else (id + j) % n + 1) = (id + (j + 1)) % n := by
  rw [mod_shift hid (le_of_lt hj), mod_shift hid (show j + 1 ≤ n by omega)]
  split_ifs <;> omega

theorem probeTrace_zero (L : MemLayout) (id a : Nat) : probeTrace L id a 0 = [] := rfl

theorem probeTrace_succ (L : MemLayout) (id a cnt : Nat) :
    probeTrace L id a (cnt + 1) =
      [LockEvent.acquire ((id + a) % L.NCPU), LockEvent.release ((id + a) % L.NCPU)] ++
        probeTrace L id (a + 1) cnt := by
  simp [probeTrace, List.range'_succ]

/-- The stealing loop when every core still to be probed has an empty list: it probes
them all, reaches `id` again and leaves the loop with `r == 0`. -/
theorem kallocSteal_none (L : MemLayout) (id : Nat) (hid : id < L.NCPU) :
    ∀ (d j temp fuel : Nat) (st : KState), j + d = L.NCPU → 1 ≤ j →
      (if temp ≥ L.NCPU then 0 else temp) = (id + j) % L.NCPU → d + 1 ≤ fuel →
      (∀ j', j ≤ j' → j' < L.NCPU → st.freelist ((id + j') % L.NCPU) = 0) →
      kallocSteal L id fuel temp st =
        some (0, { st with locks := st.locks ++ probeTrace L id j d }) := by
  intro d
  induction d with
  | zero =>
    intro j temp fuel st hjd _ hnorm hfuel _
    obtain ⟨f, rfl⟩ : ∃ f, fuel = f + 1 := ⟨fuel - 1, by omega⟩
    have hj : j = L.NCPU := by omega
    have ht : (if temp ≥ L.NCPU then 0 else temp) = id := by
      rw [hnorm, hj, Nat.add_mod_right, Nat.mod_eq_of_lt hid]
    simp only [kallocSteal, ht, if_true, probeTrace_zero, List.append_nil]
  | succ d ih =>
    intro j temp fuel st hjd h1 hnorm hfuel hempty
    obtain ⟨f, rfl⟩ : ∃ f, fuel = f + 1 := ⟨fuel - 1, by omega⟩
    have hj : j < L.NCPU := by omega
    have hne : (id + j) % L.NCPU ≠ id := mod_shift_ne hid h1 hj
    have h0 : st.freelist ((id + j) % L.NCPU) = 0 := hempty j (le_refl _) hj
    have hstep : kallocSteal L id (f + 1) temp st =
        kallocSteal L id f ((id + j) % L.NCPU + 1)
          (release (acquire st ((id + j) % L.NCPU)) ((id + j) % L.NCPU)) := by
      simp only [kallocSteal, hnorm, if_neg hne]
      simp [acquire, h0]
    rw [hstep, ih (j + 1) ((id + j) % L.NCPU + 1) f _ (by omega) (by omega)
      (mod_shift_succ hid hj) (by omega)
      (fun j' hj' hlt => by simpa [acquire, release] using hempty j' (by omega) hlt)]
    simp [acquire, release, probeTrace_succ]

/-- The stealing loop when the core `(id + k) % NCPU` is the first one still to be
probed whose list is not empty: the loop pops the head of that list. -/
theorem kallocSteal_found (L : MemLayout) (id : Nat) (hid : id < L.NCPU) (k : Nat)
    (hk : k < L.NCPU) :
    ∀ (d j temp fuel : Nat) (st : KState), j + d = k → 1 ≤ j →
      (if temp ≥ L.NCPU then 0 else temp) = (id + j) % L.NCPU → d + 1 ≤ fuel →
      (∀ j', j ≤ j' → j' < k → st.freelist ((id + j') % L.NCPU) = 0) →
      st.freelist ((id + k) % L.NCPU) ≠ 0 →
      kallocSteal L id fuel temp st =
        some (st.freelist ((id + k) % L.NCPU),
          { freelist := fun x =>
              if x = (id + k) % L.NCPU then st.next (st.freelist ((id + k) % L.NCPU))
              else st.freelist x
            next := st.next
            locks := st.locks ++ probeTrace L id j d ++
              [LockEvent.acquire ((id + k) % L.NCPU), LockEvent.release ((id + k) % L.NCPU)] }) := by
  intro d
  induction d with
  | zero =>
    intro j temp fuel st hjd h1 hnorm hfuel _ hne0
    obtain ⟨f, rfl⟩ : ∃ f, fuel = f + 1 := ⟨fuel - 1, by omega⟩
    have hj : j = k := by omega
    subst hj
    have hne : (id + j) % L.NCPU ≠ id := mod_shift_ne hid h1 hk
    simp only [kallocSteal, hnorm, if_neg hne]
    simp [acquire, release, setFreelist, hne0, probeTrace_zero]
  | succ d ih =>
    intro j temp fuel st hjd h1 hnorm hfuel hempty hne0
    obtain ⟨f, rfl⟩ : ∃ f, fuel = f + 1 := ⟨fuel - 1, by omega⟩
    have hj : j < L.NCPU := by omega
    have hne : (id + j) % L.NCPU ≠ id := mod_shift_ne hid h1 hj
    have h0 : st.freelist ((id + j) % L.NCPU) = 0 := hempty j (le_refl _) (by omega)
    have hstep : kallocSteal L id (f + 1) temp st =
        kallocSteal L id f ((id + j) % L.NCPU + 1)
          (release (acquire st ((id + j) % L.NCPU)) ((id + j) % L.NCPU)) := by
      simp only [kallocSteal, hnorm, if_neg hne]
      simp [acquire, h0]
    rw [hstep, ih (j + 1) ((id + j) % L.NCPU + 1) f _ (by omega) (by omega)
      (mod_shift_succ hid hj) (by omega)
      (fun j' hj' hlt => by simpa [acquire, release] using hempty j' (by omega) hlt)
      (by simpa [acquire, release] using hne0)]
    simp [acquire, release, probeTrace_succ]

/-- The function `kalloc` when the core `(id + k) % NCPU` is the first in the order
`id, id + 1, ...` (wrapping around) whose list is not empty: the head of that list is
returned and unlinked, and the page is filled with junk. -/
theorem kalloc_found (L : MemLayout) (id k fuel : Nat) (st : KState) (hid : id < L.NCPU)
    (hk : k < L.NCPU) (hfuel : L.NCPU ≤ fuel)
    (hempty : ∀ j, j < k → st.freelist ((id + j) % L.NCPU) = 0)
    (hne0 : st.freelist ((id + k) % L.NCPU) ≠ 0) :
    kalloc L fuel id st =
      some (st.freelist ((id + k) % L.NCPU),
        popped st ((id + k) % L.NCPU)
          (probeTrace L id 0 k ++
            [LockEvent.acquire ((id + k) % L.NCPU), LockEvent.release ((id + k) % L.NCPU)])) := by
  rcases Nat.eq_zero_or_pos k with rfl | hpos
  · have hc : (id + 0) % L.NCPU = id := by
      rw [Nat.add_zero, Nat.mod_eq_of_lt hid]
    rw [hc] at hne0 ⊢
    simp [kalloc, acquire, release, setFreelist, memsetPage, popped, hne0, probeTrace_zero]
  · have h0 : st.freelist id = 0 := by
      have := hempty 0 hpos
      rwa [Nat.add_zero, Nat.mod_eq_of_lt hid] at this
    have hnorm : (if id + 1 ≥ L.NCPU then 0 else id + 1) = (id + 1) % L.NCPU := by
      rw [mod_shift hid (show 1 ≤ L.NCPU by omega)]
      split_ifs <;> omega
    have hs := kallocSteal_found L id hid k hk (k - 1) 1 (id + 1) fuel
      (release (acquire st id) id) (by omega) (le_refl _) hnorm (by omega)
      (fun j' hj' hlt => by simpa [acquire, release] using hempty j' hlt)
      (by simpa [acquire, release] using hne0)
    have hp : probeTrace L id 0 k =
        [LockEvent.acquire id, LockEvent.release id] ++ probeTrace L id 1 (k - 1) := by
      obtain ⟨m, rfl⟩ : ∃ m, k = m + 1 := ⟨k - 1, by omega⟩
      rw [probeTrace_succ, Nat.add_zero, Nat.mod_eq_of_lt hid]
      rfl
    simp only [kalloc]
    simp only [acquire, h0, ne_eq, not_true_eq_false, if_false] at hs ⊢
    simp only [acquire, release] at hs
    simp only [release]
    rw [hs]
    simp [memsetPage, popped, hne0, hp, acquire, release]

/-- The function `kalloc` when every core's list is empty: every core is probed once,
the call returns 0, and only the record of lock operations has grown. -/
theorem kalloc_none (L : MemLayout) (id fuel : Nat) (st : KState) (hid : id < L.NCPU)
    (hfuel : L.NCPU ≤ fuel)
    (hempty : ∀ c, c < L.NCPU → st.freelist c = 0) :
    kalloc L fuel id st =
      some (0, { st with locks := st.locks ++ probeTrace L id 0 L.NCPU }) := by
  have h0 : st.freelist id = 0 := hempty id hid
  have hnorm : (if id + 1 ≥ L.NCPU then 0 else id + 1) = (id + 1) % L.NCPU := by
    rw [mod_shift hid (show 1 ≤ L.NCPU by omega)]
    split_ifs <;> omega
  have hs := kallocSteal_none L id hid (L.NCPU - 1) 1 (id + 1) fuel
    (release (acquire st id) id) (by omega) (le_refl _) hnorm (by omega)
    (fun j' _ _ => by simpa [acquire, release] using hempty _ (mod_shift_lt hid))
  have hp : probeTrace L id 0 L.NCPU =
      [LockEvent.acquire id, LockEvent.release id] ++ probeTrace L id 1 (L.NCPU - 1) := by
    obtain ⟨m, hm⟩ : ∃ m, L.NCPU = m + 1 := ⟨L.NCPU - 1, by omega⟩
    have hm1 : L.NCPU - 1 = m := by omega
    rw [hm1]
    conv_lhs => rw [hm]
    rw [probeTrace_succ, Nat.add_zero, Nat.mod_eq_of_lt hid]
  simp only [kalloc]
  simp only [acquire, h0, ne_eq, not_true_eq_false, if_false] at hs ⊢
  simp only [acquire, release] at hs
  simp only [release]
  rw [hs]
  simp [hp, acquire, release]

theorem chain_congr {next next1 : Nat → Nat} :
    ∀ (xs : List Nat) (h : Nat), (∀ x, x ∈ xs → next1 x = next x) →
      Chain next h xs → Chain next1 h xs := by
  intro xs
  induction xs with
  | nil => intro h _ hc; exact hc
  | cons x xs ih =>
    intro h hag hc
    obtain ⟨h1, h2, h3⟩ := hc
    refine ⟨h1, h2, ?_⟩
    rw [hag x (List.mem_cons_self x xs)]
    exact ih (next x) (fun y hy => hag y (List.mem_cons_of_mem x hy)) h3

theorem chain_null {next : Nat → Nat} {xs : List Nat} (hc : Chain next 0 xs) : xs = [] := by
  cases xs with
  | nil => rfl
  | cons x xs =>
    obtain ⟨h1, h2, _⟩ := hc
    exact absurd h1.symm h2

theorem chain_nonnull {next : Nat → Nat} {h : Nat} {xs : List Nat} (hc : Chain next h xs)
    (hne : h ≠ 0) : ∃ rest, xs = h :: rest ∧ Chain next (next h) rest := by
  cases xs with
  | nil => exact absurd hc hne
  | cons x xs =>
    obtain ⟨h1, _, h3⟩ := hc
    subst h1
    exact ⟨xs, rfl, h3⟩

theorem chain_head_iff {next : Nat → Nat} {h : Nat} {xs : List Nat} (hc : Chain next h xs) :
    h = 0 ↔ xs = [] := by
  constructor
  · intro h0; subst h0; exact chain_null hc
  · intro hx; subst hx; exact hc

theorem chain_mem_ne_zero {next : Nat → Nat} :
    ∀ (xs : List Nat) (h : Nat), Chain next h xs → ∀ x, x ∈ xs → x ≠ 0 := by
  intro xs
  induction xs with
  | nil => intro h _ x hx; cases hx
  | cons y ys ih =>
    intro h hc x hx
    obtain ⟨_, h2, h3⟩ := hc
    rcases List.mem_cons.mp hx with rfl | hx1
    · exact h2
    · exact ih (next y) h3 x hx1

theorem mem_allFree {L : MemLayout} {ls : Nat → List Nat} {p : Nat} :
    p ∈ allFree L ls ↔ ∃ c, c < L.NCPU ∧ p ∈ ls c := by
  simp [allFree, List.mem_flatMap]

theorem flatMap_range_congr {f g : Nat → List Nat} (n : Nat)
    (h : ∀ c, c < n → f c = g c) : (List.range n).flatMap f = (List.range n).flatMap g := by
  induction n with
  | zero => rfl
  | succ n ih =>
    rw [List.range_succ, List.flatMap_append, List.flatMap_append,
      ih (fun c hc => h c (Nat.lt_succ_of_lt hc))]
    simp [h n (Nat.lt_succ_self n)]

/-- Changing the list of one core `c < n` by one page at its head changes the
concatenation of all lists by that page. -/
theorem perm_flatMap_update (f g : Nat → List Nat) (x : Nat) (n c : Nat) (hc : c < n)
    (hg : g c = x :: f c) (hother : ∀ d, d ≠ c → g d = f d) :
    ((List.range n).flatMap g).Perm (x :: (List.range n).flatMap f) := by
  induction n with
  | zero => omega
  | succ n ih =>
    rw [List.range_succ, List.flatMap_append, List.flatMap_append]
    simp only [List.flatMap_cons, List.flatMap_nil, List.append_nil]
    by_cases hcn : c = n
    · subst hcn
      rw [flatMap_range_congr c (fun d hd => hother d (by omega)), hg]
      exact List.perm_middle
    · have hlt : c < n := by omega
      rw [hother n (fun h => hcn h.symm)]
      exact List.Perm.append_right (f n) (ih hlt)

/-- List view of a successful `kalloc`: when the lists of the cores probed before
`c = (id + k) % NCPU` are empty and the list of `c` is `p :: rest`, the call returns
`p`, the list of `c` becomes `rest` and every other list is as before. -/
theorem kalloc_pop_lists (L : MemLayout) (id k fuel : Nat) (st : KState)
    (ls : Nat → List Nat) (p : Nat) (rest : List Nat)
    (hid : id < L.NCPU) (hk : k < L.NCPU) (hfuel : L.NCPU ≤ fuel)
    (hF : FreeLists L st ls) (hnd : (allFree L ls).Nodup)
    (hempty : ∀ j, j < k → ls ((id + j) % L.NCPU) = [])
    (hhead : ls ((id + k) % L.NCPU) = p :: rest) :
    kalloc L fuel id st =
      some (p, popped st ((id + k) % L.NCPU)
        (probeTrace L id 0 k ++
          [LockEvent.acquire ((id + k) % L.NCPU), LockEvent.release ((id + k) % L.NCPU)])) ∧
    FreeLists L
      (popped st ((id + k) % L.NCPU)
        (probeTrace L id 0 k ++
          [LockEvent.acquire ((id + k) % L.NCPU), LockEvent.release ((id + k) % L.NCPU)]))
      (fun x => if x = (id + k) % L.NCPU then rest else ls x) ∧
    (allFree L ls).Perm
      (p :: allFree L (fun x => if x = (id + k) % L.NCPU then rest else ls x)) := by
  have hc : (id + k) % L.NCPU < L.NCPU := mod_shift_lt hid
  have hchain := hF _ hc
  rw [hhead] at hchain
  obtain ⟨hp, hp0, hrest⟩ := hchain
  have hperm : (allFree L ls).Perm
      (p :: allFree L (fun x => if x = (id + k) % L.NCPU then rest else ls x)) := by
    apply perm_flatMap_update _ _ p L.NCPU _ hc
    · simp [hhead]
    · intro d hd; simp [hd]
  have hnd1 := (hperm.nodup_iff).mp hnd
  have hnot : p ∉ allFree L (fun x => if x = (id + k) % L.NCPU then rest else ls x) :=
    (List.nodup_cons.mp hnd1).1
  have hfound := kalloc_found L id k fuel st hid hk hfuel
    (fun j hj => by
      have := hF _ (mod_shift_lt (j := j) hid)
      rw [hempty j hj] at this
      exact this)
    (by rw [hp]; exact hp0)
  rw [hp] at hfound
  refine ⟨hfound, ?_, hperm⟩
  intro x hx
  have hag : ∀ y, y ∈ (if x = (id + k) % L.NCPU then rest else ls x) →
      (popped st ((id + k) % L.NCPU)
        (probeTrace L id 0 k ++
          [LockEvent.acquire ((id + k) % L.NCPU),
            LockEvent.release ((id + k) % L.NCPU)])).next y = st.next y := by
    intro y hy
    have hyp : y ≠ p := by
      rintro rfl
      exact hnot (mem_allFree.mpr ⟨x, hx, hy⟩)
    simp [popped, hp, hyp]
  apply chain_congr _ _ hag
  by_cases hxc : x = (id + k) % L.NCPU
  · subst hxc
    simp only [popped, if_true, hp]
    exact hrest
  · simp only [popped, if_neg hxc]
    exact hF x hx

/-- List view of `kfree` of a valid page that is on no free list: the call returns, the
page becomes the head of the executing core's list, in front of the previous list, and
every other list is as before. -/
theorem kfree_push_lists (L : MemLayout) (cpu : Nat) (st : KState) (ls : Nat → List Nat)
    (pa : Nat) (hcpu : cpu < L.NCPU) (hF : FreeLists L st ls)
    (hfresh : pa ∉ allFree L ls) (hal : pa % PGSIZE = 0) (hlo : L.kend ≤ pa)
    (hhi : pa < L.PHYSTOP) (hnz : pa ≠ 0) :
    ∃ st1, kfree L cpu st pa = .ok () st1 ∧
      FreeLists L st1 (fun x => if x = cpu then pa :: ls cpu else ls x) ∧
      (allFree L (fun x => if x = cpu then pa :: ls cpu else ls x)).Perm
        (pa :: allFree L ls) ∧
      st1.freelist = (fun x => if x = cpu then pa else st.freelist x) ∧
      st1.locks = st.locks ++ [LockEvent.acquire cpu, LockEvent.release cpu] := by
  have hcond : ¬ (pa % PGSIZE ≠ 0 ∨ pa < L.kend ∨ pa ≥ L.PHYSTOP) := by
    rintro (h | h | h)
    · exact h hal
    · omega
    · omega
  refine ⟨release (setFreelist (setNext (acquire (memsetPage st pa 1) cpu) pa
    ((acquire (memsetPage st pa 1) cpu).freelist cpu)) cpu pa) cpu, ?_, ?_, ?_, ?_, ?_⟩
  · simp only [kfree, if_neg hcond]
  · intro x hx
    have hag : ∀ y, y ∈ ls x →
        (release (setFreelist (setNext (acquire (memsetPage st pa 1) cpu) pa
          ((acquire (memsetPage st pa 1) cpu).freelist cpu)) cpu pa) cpu).next y =
          st.next y := by
      intro y hy
      have hyp : y ≠ pa := by
        rintro rfl
        exact hfresh (mem_allFree.mpr ⟨x, hx, hy⟩)
      simp [release, setFreelist, setNext, acquire, memsetPage, hyp]
    by_cases hxc : x = cpu
    · subst hxc
      simp only [if_true]
      refine ⟨?_, hnz, ?_⟩
      · simp [release, setFreelist]
      · apply chain_congr _ _ hag
        have : (release (setFreelist (setNext (acquire (memsetPage st pa 1) x) pa
          ((acquire (memsetPage st pa 1) x).freelist x)) x pa) x).next pa = st.freelist x := by
          simp [release, setFreelist, setNext, acquire, memsetPage]
        rw [this]
        exact hF x hx
    · simp only [if_neg hxc]
      apply chain_congr _ _ hag
      have : (release (setFreelist (setNext (acquire (memsetPage st pa 1) cpu) pa
          ((acquire (memsetPage st pa 1) cpu).freelist cpu)) cpu pa) cpu).freelist x =
          st.freelist x := by
        simp [release, setFreelist, setNext, acquire, memsetPage, hxc]
      rw [this]
      exact hF x hx
  · apply perm_flatMap_update _ _ pa L.NCPU cpu hcpu
    · simp
    · intro d hd; simp [hd]
  · funext x
    simp [release, setFreelist, setNext, acquire, memsetPage]
  · simp [release, setFreelist, setNext, acquire, memsetPage]

theorem PGROUNDUP_spec (sz : Nat) (h : sz + PGSIZE ≤ U64_MOD) :
    PGROUNDUP sz % PGSIZE = 0 ∧ sz ≤ PGROUNDUP sz ∧ PGROUNDUP sz < sz + PGSIZE := by
  unfold PGROUNDUP
  unfold PGSIZE U64_MOD at *
  have h1 : (sz + 4096 - 1) % 2 ^ 64 = sz + 4095 := by
    rw [Nat.mod_eq_of_lt (by omega)]
    omega
  rw [h1]
  omega

theorem mem_managedPages (L : MemLayout) (p : Nat) (hs : L.sane) :
    p ∈ managedPages L ↔
      p % PGSIZE = 0 ∧ PGROUNDUP L.kend ≤ p ∧ p + PGSIZE ≤ L.PHYSTOP := by
  obtain ⟨h0, h1, h2⟩ := hs
  obtain ⟨ha, hb, hc⟩ := PGROUNDUP_spec L.kend (by unfold PGSIZE at *; omega)
  unfold managedPages
  rw [List.mem_map]
  generalize PGROUNDUP L.kend = p0 at *
  unfold PGSIZE at *
  constructor
  · rintro ⟨i, hi, rfl⟩
    rw [List.mem_range] at hi
    have : i * 4096 + 4096 ≤ L.PHYSTOP - p0 := by
      have := Nat.div_mul_le_self (L.PHYSTOP - p0) 4096
      have : (i + 1) * 4096 ≤ (L.PHYSTOP - p0) / 4096 * 4096 :=
        Nat.mul_le_mul_right 4096 hi
      omega
    refine ⟨by omega, by omega, by omega⟩
  · rintro ⟨h3, h4, h5⟩
    refine ⟨(p - p0) / 4096, ?_, ?_⟩
    · rw [List.mem_range]
      rw [Nat.div_lt_iff_lt_mul (by decide)]
      have := Nat.div_add_mod (L.PHYSTOP - p0) 4096
      have := Nat.mod_lt (L.PHYSTOP - p0) (show 4096 > 0 by decide)
      have := Nat.div_add_mod (p - p0) 4096
      have : (p - p0) % 4096 = 0 := by omega
      omega
    · have := Nat.div_add_mod (p - p0) 4096
      have : (p - p0) % 4096 = 0 := by omega
      omega

theorem managedPages_nodup (L : MemLayout) : (managedPages L).Nodup := by
  unfold managedPages
  apply List.Nodup.map _ (List.nodup_range _)
  intro a b hab
  simp only [PGSIZE] at hab
  omega

/-- Every managed page passes the checks of `kfree` and is not the null pointer. -/
theorem managedPages_valid (L : MemLayout) (p : Nat) (hs : L.sane) (hp : p ∈ managedPages L) :
    p % PGSIZE = 0 ∧ L.kend ≤ p ∧ p < L.PHYSTOP ∧ p ≠ 0 := by
  obtain ⟨h3, h4, h5⟩ := (mem_managedPages L p hs).mp hp
  obtain ⟨h0, h1, h2⟩ := hs
  obtain ⟨ha, hb, hc⟩ := PGROUNDUP_spec L.kend (by unfold PGSIZE at *; omega)
  unfold PGSIZE at *
  refine ⟨h3, by omega, by omega, by omega⟩

theorem freerangeLoop_mono (L : MemLayout) (cpu pa_end : Nat) :
    ∀ (fuel p : Nat) (st : KState) (r : Outcome KState Unit),
      freerangeLoop L cpu pa_end fuel p st = some r →
      ∀ d, freerangeLoop L cpu pa_end (fuel + d) p st = some r := by
  intro fuel
  induction fuel with
  | zero => intro p st r h; simp [freerangeLoop] at h
  | succ fuel ih =>
    intro p st r h d
    have e : fuel + 1 + d = (fuel + d) + 1 := by omega
    rw [e]
    simp only [freerangeLoop] at h ⊢
    split_ifs at h ⊢ with hc
    · cases hk : kfree L cpu st p with
      | ok v st1 =>
        rw [hk] at h
        simp only at h ⊢
        exact ih _ _ _ h d
      | panic msg st1 =>
        rw [hk] at h
        simpa using h
      | sleep v st1 =>
        rw [hk] at h
        simpa using h
    · exact h

theorem kallocSteal_mono (L : MemLayout) (id : Nat) :
    ∀ (fuel t : Nat) (st : KState) (r : Nat × KState),
      kallocSteal L id fuel t st = some r →
      ∀ d, kallocSteal L id (fuel + d) t st = some r := by
  intro fuel
  induction fuel with
  | zero => intro t st r h; simp [kallocSteal] at h
  | succ fuel ih =>
    intro t st r h d
    have e : fuel + 1 + d = (fuel + d) + 1 := by omega
    rw [e]
    simp only [kallocSteal] at h ⊢
    split_ifs at h ⊢
    all_goals first
      | exact h
      | exact ih _ _ _ h d

theorem kalloc_mono (L : MemLayout) (fuel id : Nat) (st : KState) (r : Nat × KState)
    (h : kalloc L fuel id st = some r) (d : Nat) : kalloc L (fuel + d) id st = some r := by
  simp only [kalloc] at h ⊢
  split_ifs at h ⊢ with h1
  · exact h
  · cases hk : kallocSteal L id fuel (id + 1) (release (acquire st id) id) with
    | none => rw [hk] at h; simp at h
    | some x =>
      rw [hk] at h
      rw [kallocSteal_mono L id _ _ _ _ hk d]
      exact h

theorem managedPages_eq (L : MemLayout) :
    managedPages L = (List.range ((L.PHYSTOP - PGROUNDUP L.kend) / PGSIZE)).map
      (fun i => PGROUNDUP L.kend + i * PGSIZE) := rfl

theorem allFree_nil (L : MemLayout) : allFree L (fun _ => []) = [] := by
  unfold allFree
  induction L.NCPU with
  | zero => rfl
  | succ n ih => rw [List.range_succ, List.flatMap_append, ih]; rfl

/-- When only core `cpu` has pages, the free pages are the pages of its list. -/
theorem allFree_single (L : MemLayout) (cpu : Nat) (hcpu : cpu < L.NCPU) :
    ∀ l : List Nat, (allFree L (fun x => if x = cpu then l else [])).Perm l := by
  intro l
  induction l with
  | nil =>
    have : (fun x => if x = cpu then ([] : List Nat) else []) = fun _ => [] := by
      funext x; split_ifs <;> rfl
    rw [this, allFree_nil]
  | cons a l ih =>
    refine (perm_flatMap_update (fun x => if x = cpu then l else [])
      (fun x => if x = cpu then a :: l else []) a L.NCPU cpu hcpu (by simp) ?_).trans
      (List.Perm.cons a ih)
    intro d hd
    simp [hd]

/-- The loop of `freerange` called by `kinit`: started at the `i`-th managed page with
the earlier ones already on the list of `cpu`, it frees the remaining managed pages in
increasing order and returns. -/
theorem freerangeLoop_spec (L : MemLayout) (cpu : Nat) (hs : L.sane) (hcpu : cpu < L.NCPU) :
    ∀ (d i fuel : Nat) (st : KState),
      i + d = (L.PHYSTOP - PGROUNDUP L.kend) / PGSIZE → d + 1 ≤ fuel →
      FreeLists L st (fun x => if x = cpu then
        ((List.range i).map (fun j => PGROUNDUP L.kend + j * PGSIZE)).reverse else []) →
      ∃ st1, freerangeLoop L cpu L.PHYSTOP fuel (PGROUNDUP L.kend + i * PGSIZE) st =
          some (.ok () st1) ∧
        FreeLists L st1 (fun x => if x = cpu then (managedPages L).reverse else []) := by
  obtain ⟨hs0, hs1, hs2⟩ := hs
  obtain ⟨ha, hb, hc⟩ := PGROUNDUP_spec L.kend (by unfold PGSIZE at *; omega)
  intro d
  induction d with
  | zero =>
    intro i fuel st hid hfuel hF
    obtain ⟨f, rfl⟩ : ∃ f, fuel = f + 1 := ⟨fuel - 1, by omega⟩
    have him : i = (L.PHYSTOP - PGROUNDUP L.kend) / PGSIZE := by omega
    have hgt : ¬ ((PGROUNDUP L.kend + i * PGSIZE + PGSIZE) % U64_MOD ≤ L.PHYSTOP) := by
      have h1 := Nat.div_add_mod (L.PHYSTOP - PGROUNDUP L.kend) PGSIZE
      have h2 := Nat.mod_lt (L.PHYSTOP - PGROUNDUP L.kend) (show PGSIZE > 0 by decide)
      rw [← him] at h1
      have h3 : PGSIZE * i = i * PGSIZE := Nat.mul_comm _ _
      have hlt : PGROUNDUP L.kend + i * PGSIZE + PGSIZE < U64_MOD := by
        unfold PGSIZE U64_MOD at *; omega
      rw [Nat.mod_eq_of_lt hlt]
      unfold PGSIZE at *; omega
    refine ⟨st, ?_, ?_⟩
    · simp only [freerangeLoop, if_neg hgt]
    · rw [managedPages_eq, ← him]
      exact hF
  | succ d ih =>
    intro i fuel st hid hfuel hF
    obtain ⟨f, rfl⟩ : ∃ f, fuel = f + 1 := ⟨fuel - 1, by omega⟩
    have hmem : PGROUNDUP L.kend + i * PGSIZE ∈ managedPages L := by
      rw [managedPages_eq]
      exact List.mem_map.mpr ⟨i, List.mem_range.mpr (by omega), rfl⟩
    obtain ⟨v1, v2, v3, v4⟩ := managedPages_valid L _ ⟨hs0, hs1, hs2⟩ hmem
    obtain ⟨_, _, w3⟩ := (mem_managedPages L _ ⟨hs0, hs1, hs2⟩).mp hmem
    have hlt : PGROUNDUP L.kend + i * PGSIZE + PGSIZE < U64_MOD := by
      unfold PGSIZE U64_MOD at *; omega
    have hle : (PGROUNDUP L.kend + i * PGSIZE + PGSIZE) % U64_MOD ≤ L.PHYSTOP := by
      rw [Nat.mod_eq_of_lt hlt]; exact w3
    have hfresh : PGROUNDUP L.kend + i * PGSIZE ∉ allFree L (fun x => if x = cpu then
        ((List.range i).map (fun j => PGROUNDUP L.kend + j * PGSIZE)).reverse else []) := by
      intro hm
      obtain ⟨c, _, hc2⟩ := mem_allFree.mp hm
      split_ifs at hc2
      · rw [List.mem_reverse, List.mem_map] at hc2
        obtain ⟨j, hj, hje⟩ := hc2
        rw [List.mem_range] at hj
        unfold PGSIZE at hje
        omega
      · cases hc2
    obtain ⟨st1, hk, hF1, _, _, _⟩ := kfree_push_lists L cpu st _ _ hcpu hF hfresh v1 v2 v3 v4
    have hfun : (fun x => if x = cpu then (PGROUNDUP L.kend + i * PGSIZE) ::
          (fun x => if x = cpu then
            ((List.range i).map (fun j => PGROUNDUP L.kend + j * PGSIZE)).reverse else []) cpu
        else (fun x => if x = cpu then
            ((List.range i).map (fun j => PGROUNDUP L.kend + j * PGSIZE)).reverse else []) x) =
        (fun x => if x = cpu then
          ((List.range (i + 1)).map (fun j => PGROUNDUP L.kend + j * PGSIZE)).reverse
          else []) := by
      funext x
      by_cases hx : x = cpu
      · simp [hx, List.range_succ]
      · simp [hx]
    rw [hfun] at hF1
    obtain ⟨st2, h2, hF2⟩ := ih (i + 1) f st1 (by omega) (by omega) hF1
    refine ⟨st2, ?_, hF2⟩
    simp only [freerangeLoop, if_pos hle, hk]
    rw [Nat.mod_eq_of_lt hlt]
    have e : PGROUNDUP L.kend + i * PGSIZE + PGSIZE = PGROUNDUP L.kend + (i + 1) * PGSIZE := by
      rw [Nat.add_mul, Nat.one_mul, Nat.add_assoc]
    rw [e]
    exact h2

theorem kinitLoop_skip (L : MemLayout) (cpu fuel : Nat) :
    ∀ (l : List Nat) (st : KState), cpu ∉ l → kinitLoop L cpu fuel l st = some (.ok () st) := by
  intro l
  induction l with
  | nil => intro st _; rfl
  | cons a l ih =>
    intro st h
    have h1 : cpu ≠ a := fun e => h (e ▸ List.mem_cons_self _ _)
    have h2 : cpu ∉ l := fun e => h (List.mem_cons_of_mem _ e)
    simp only [kinitLoop, if_pos h1]
    exact ih st h2

theorem kinitLoop_once (L : MemLayout) (cpu fuel : Nat) :
    ∀ (l : List Nat) (st : KState), l.Nodup → cpu ∈ l →
      kinitLoop L cpu fuel l st = freerange L cpu fuel L.kend L.PHYSTOP st := by
  intro l
  induction l with
  | nil => intro st _ h; cases h
  | cons a l ih =>
    intro st hnd hmem
    obtain ⟨hna, hnd1⟩ := List.nodup_cons.mp hnd
    by_cases h1 : cpu = a
    · subst h1
      simp only [kinitLoop, ne_eq, not_true_eq_false, if_false]
      cases hf : freerange L cpu fuel L.kend L.PHYSTOP st with
      | none => rfl
      | some o =>
        cases o with
        | ok v st1 => exact kinitLoop_skip L cpu fuel l st1 hna
        | panic msg st1 => rfl
        | sleep v st1 => rfl
    · have hm : cpu ∈ l := by
        rcases List.mem_cons.mp hmem with h | h
        · exact absurd h h1
        · exact h
      simp only [kinitLoop, ne_eq, h1, not_false_eq_true, if_true]
      exact ih st hnd1 hm

/-- The function `kinit` on core `cpu`, from empty lists, puts every managed page on
the list of `cpu` and leaves the other lists empty; it returns whenever the fuel
suffices, and whenever it returns the lists are these. -/
theorem kinit_spec (L : MemLayout) (cpu fuel : Nat) (st0 : KState) (hs : L.sane)
    (hcpu : cpu < L.NCPU) (h0 : ∀ c, st0.freelist c = 0) :
    (∀ st, kinit L cpu fuel st0 = some (.ok () st) →
      FreeLists L st (fun x => if x = cpu then (managedPages L).reverse else [])) ∧
    ((L.PHYSTOP - PGROUNDUP L.kend) / PGSIZE + 1 ≤ fuel →
      ∃ st, kinit L cpu fuel st0 = some (.ok () st)) := by
  have hk : kinit L cpu fuel st0 = freerange L cpu fuel L.kend L.PHYSTOP st0 :=
    kinitLoop_once L cpu fuel _ st0 (List.nodup_range _) (List.mem_range.mpr hcpu)
  have hF0 : FreeLists L st0 (fun x => if x = cpu then
      ((List.range 0).map (fun j => PGROUNDUP L.kend + j * PGSIZE)).reverse else []) := by
    intro c _
    have : (if c = cpu then
        ((List.range 0).map (fun j => PGROUNDUP L.kend + j * PGSIZE)).reverse else []) = [] := by
      split_ifs <;> rfl
    show Chain st0.next (st0.freelist c) (if c = cpu then
        ((List.range 0).map (fun j => PGROUNDUP L.kend + j * PGSIZE)).reverse else [])
    rw [this]
    exact h0 c
  have hspec : ∀ f, (L.PHYSTOP - PGROUNDUP L.kend) / PGSIZE + 1 ≤ f →
      ∃ st1, freerange L cpu f L.kend L.PHYSTOP st0 = some (.ok () st1) ∧
        FreeLists L st1 (fun x => if x = cpu then (managedPages L).reverse else []) := by
    intro f hf
    have := freerangeLoop_spec L cpu hs hcpu ((L.PHYSTOP - PGROUNDUP L.kend) / PGSIZE) 0 f st0
      (by omega) hf hF0
    simpa [freerange] using this
  constructor
  · intro st hst
    rw [hk] at hst
    obtain ⟨st1, h1, hF1⟩ := hspec (fuel + ((L.PHYSTOP - PGROUNDUP L.kend) / PGSIZE + 1))
      (by omega)
    have h2 := freerangeLoop_mono L cpu L.PHYSTOP fuel _ st0 _ hst
      ((L.PHYSTOP - PGROUNDUP L.kend) / PGSIZE + 1)
    unfold freerange at h1
    rw [h2] at h1
    cases h1
    exact hF1
  · intro hf
    obtain ⟨st1, h1, _⟩ := hspec fuel hf
    exact ⟨st1, by rw [hk]; exact h1⟩

/-- In the probing order of core `id`, some core is the first whose head pointer is not
null, as soon as any head pointer is not null. -/
theorem exists_first_nonempty (n id : Nat) (f : Nat → Nat) (hid : id < n)
    (h : ∃ c, c < n ∧ f c ≠ 0) :
    ∃ k, k < n ∧ (∀ j, j < k → f ((id + j) % n) = 0) ∧ f ((id + k) % n) ≠ 0 := by
  obtain ⟨c, hc, hfc⟩ := h
  have hex : ∃ j, j < n ∧ f ((id + j) % n) ≠ 0 := by
    by_cases hle : id ≤ c
    · refine ⟨c - id, by omega, ?_⟩
      have : (id + (c - id)) % n = c := by
        rw [mod_shift hid (by omega)]
        split_ifs <;> omega
      rw [this]; exact hfc
    · refine ⟨c + n - id, by omega, ?_⟩
      have : (id + (c + n - id)) % n = c := by
        rw [mod_shift hid (by omega)]
        split_ifs <;> omega
      rw [this]; exact hfc
  refine ⟨Nat.find hex, (Nat.find_spec hex).1, ?_, (Nat.find_spec hex).2⟩
  intro j hj
  have hmin := Nat.find_min hex hj
  have hjn : j < n := lt_trans hj (Nat.find_spec hex).1
  by_contra hne
  exact hmin ⟨hjn, hne⟩

theorem conserved_kalloc (L : MemLayout) (cpu fuel : Nat) (st : KState)
    (out : List Nat) (r : Nat) (st1 : KState) (hinv : Conserved L st out)
    (hcpu : cpu < L.NCPU) (hk : kalloc L fuel cpu st = some (r, st1)) :
    Conserved L st1 (if r = 0 then out else r :: out) := by
  obtain ⟨ls, hF, hperm⟩ := hinv
  have hk1 := kalloc_mono L fuel cpu st _ hk L.NCPU
  have hnd : (allFree L ls).Nodup :=
    (List.nodup_append.mp ((hperm.nodup_iff).mpr (managedPages_nodup L))).1
  by_cases hall : ∀ c, c < L.NCPU → st.freelist c = 0
  · rw [kalloc_none L cpu _ st hcpu (by omega) hall] at hk1
    cases hk1
    simp only [if_true]
    exact ⟨ls, hF, hperm⟩
  · have hex : ∃ c, c < L.NCPU ∧ st.freelist c ≠ 0 := by
      by_contra hno
      apply hall
      intro c hc
      by_contra hne
      exact hno ⟨c, hc, hne⟩
    obtain ⟨k, hkn, hempty, hne⟩ := exists_first_nonempty L.NCPU cpu st.freelist hcpu hex
    obtain ⟨rest, hhead, _⟩ := chain_nonnull (hF _ (mod_shift_lt (j := k) hcpu)) hne
    have hemp : ∀ j, j < k → ls ((cpu + j) % L.NCPU) = [] := by
      intro j hj
      exact (chain_head_iff (hF _ (mod_shift_lt (j := j) hcpu))).mp (hempty j hj)
    obtain ⟨hres, hF1, hp1⟩ := kalloc_pop_lists L cpu k (fuel + L.NCPU) st ls _ rest hcpu hkn
      (by omega) hF hnd hemp hhead
    rw [hres] at hk1
    cases hk1
    rw [if_neg hne]
    refine ⟨_, hF1, ?_⟩
    refine List.Perm.trans ?_ hperm
    exact (List.perm_middle).trans (List.Perm.append_right out hp1.symm)

theorem conserved_kfree (L : MemLayout) (hs : L.sane) (cpu : Nat) (st : KState)
    (out : List Nat) (pa : Nat) (st1 : KState) (hinv : Conserved L st out)
    (hcpu : cpu < L.NCPU) (hpa : pa ∈ out) (hk : kfree L cpu st pa = .ok () st1) :
    Conserved L st1 (out.erase pa) := by
  obtain ⟨ls, hF, hperm⟩ := hinv
  have hnd : (allFree L ls ++ out).Nodup := (hperm.nodup_iff).mpr (managedPages_nodup L)
  have hfresh : pa ∉ allFree L ls := fun hm =>
    (List.nodup_append.mp hnd).2.2 hm hpa
  have hmem : pa ∈ managedPages L := hperm.subset (List.mem_append_right _ hpa)
  obtain ⟨v1, v2, v3, v4⟩ := managedPages_valid L pa hs hmem
  obtain ⟨st2, hk2, hF2, hp2, _, _⟩ := kfree_push_lists L cpu st ls pa hcpu hF hfresh v1 v2 v3 v4
  rw [hk2] at hk
  cases hk
  refine ⟨_, hF2, ?_⟩
  refine List.Perm.trans ?_ hperm
  refine (List.Perm.append_right _ hp2).trans ?_
  refine List.Perm.trans ?_ (List.Perm.append_left _ (List.perm_cons_erase hpa).symm)
  exact List.perm_middle.symm

/-- The effect of a returning `kfree` on a handed-out page in a conserved state never
is a panic: the page passes the checks. -/
theorem kfree_returns (L : MemLayout) (hs : L.sane) (cpu : Nat) (st : KState)
    (out : List Nat) (pa : Nat) (hinv : Conserved L st out) (hpa : pa ∈ out) :
    ∃ st1, kfree L cpu st pa = .ok () st1 := by
  obtain ⟨ls, _, hperm⟩ := hinv
  have hmem : pa ∈ managedPages L := hperm.subset (List.mem_append_right _ hpa)
  obtain ⟨v1, v2, v3, _⟩ := managedPages_valid L pa hs hmem
  have hcond : ¬ (pa % PGSIZE ≠ 0 ∨ pa < L.kend ∨ pa ≥ L.PHYSTOP) := by
    rintro (h | h | h)
    · exact h v1
    · omega
    · omega
  simp only [kfree, if_neg hcond]
  exact ⟨_, rfl⟩

theorem reachable_conserved (L : MemLayout) (hs : L.sane) (st : KState) (out : List Nat)
    (h : Reachable L st out) : Conserved L st out := by
  induction h with
  | init cpu fuel st0 st hcpu h0 hk =>
    refine ⟨_, (kinit_spec L cpu fuel st0 hs hcpu h0).1 st hk, ?_⟩
    rw [List.append_nil]
    exact (allFree_single L cpu hcpu _).trans (List.reverse_perm _)
  | alloc cpu fuel st out r st1 _ hcpu hk ih =>
    exact conserved_kalloc L cpu fuel st out r st1 ih hcpu hk
  | free cpu st out pa st1 _ hcpu hpa hk ih =>
    exact conserved_kfree L hs cpu st out pa st1 ih hcpu hpa hk

/-- Every state reachable from `kinit` has well-formed free lists. -/
theorem reachable_validLists (L : MemLayout) (hs : L.sane) (st : KState) (out : List Nat)
    (h : Reachable L st out) : ∃ ls, ValidLists L st ls := by
  obtain ⟨ls, hF, hperm⟩ := reachable_conserved L hs st out h
  have hnd : (allFree L ls ++ out).Nodup := (hperm.nodup_iff).mpr (managedPages_nodup L)
  refine ⟨ls, hF, (List.nodup_append.mp hnd).1, ?_⟩
  intro p hp
  exact (managedPages_valid L p hs (hperm.subset (List.mem_append_left _ hp))).1

theorem probeTrace_snoc (L : MemLayout) (id a cnt : Nat) :
    probeTrace L id a (cnt + 1) =
      probeTrace L id a cnt ++
        [LockEvent.acquire ((id + (a + cnt)) % L.NCPU),
          LockEvent.release ((id + (a + cnt)) % L.NCPU)] := by
  simp [probeTrace, List.range'_concat]

/-- A successful `kalloc` keeps the free lists well formed. -/
theorem validLists_pop (L : MemLayout) (st st1 : KState) (ls : Nat → List Nat) (c p : Nat)
    (rest : List Nat) (hv : ValidLists L st ls)
    (hF1 : FreeLists L st1 (fun x => if x = c then rest else ls x))
    (hp : (allFree L ls).Perm (p :: allFree L (fun x => if x = c then rest else ls x))) :
    ValidLists L st1 (fun x => if x = c then rest else ls x) := by
  obtain ⟨_, hnd, hal⟩ := hv
  refine ⟨hF1, (List.nodup_cons.mp ((hp.nodup_iff).mp hnd)).2, ?_⟩
  intro q hq
  exact hal q (hp.symm.subset (List.mem_cons_of_mem p hq))

/-- The example state in which only core 3 holds a page is well formed. -/
theorem validLists_onlyCore3 :
    ValidLists demoLayout8 (headsState (headsOf onlyCore3)) onlyCore3 := by
  refine ⟨?_, by decide, by decide⟩
  intro c _
  by_cases h : c = 3
  · subst h; exact ⟨rfl, by decide, rfl⟩
  · simp [onlyCore3, headsOf, headsState, h, Chain]

/-- The example state in which cores 1 and 2 hold one page each is well formed. -/
theorem validLists_cores1and2 :
    ValidLists demoLayout8 (headsState (headsOf cores1and2)) cores1and2 := by
  refine ⟨?_, by decide, by decide⟩
  intro c _
  by_cases h1 : c = 1
  · subst h1; exact ⟨rfl, by decide, rfl⟩
  · by_cases h2 : c = 2
    · subst h2; exact ⟨rfl, by decide, rfl⟩
    · simp [cores1and2, headsOf, headsState, h1, h2, Chain]

/-- What `bwrite` does when the caller holds the content lock of `b`: one write request
for the block of `b` goes to the device, and the cache is unchanged. -/
theorem bwrite_spec (st : BState) (pid : Nat) (b : Nat × Nat)
    (hold : (st.bcache b.1 b.2).lock.locked ≠ 0 ∧ (st.bcache b.1 b.2).lock.pid = pid) :
    ∃ st1, bwrite st pid b = .ok () st1 ∧
      st1.disklog = st.disklog ++
        [⟨true, (st.bcache b.1 b.2).dev, (st.bcache b.1 b.2).blockno⟩] ∧
      st1.bcache = st.bcache := by
  have hh : holdingsleep (st.getBuf b).lock pid = true := by
    simp [holdingsleep, BState.getBuf, hold.1, hold.2]
  refine ⟨virtio_disk_rw st b true, ?_, ?_, ?_⟩
  · simp [bwrite, hh]
  · simp [virtio_disk_rw, BState.getBuf]
  · simp [virtio_disk_rw]

/-- The pid recorded in a held lock differs from the caller, or the lock is free:
`holdingsleep` answers no. -/
theorem holdingsleep_false_iff (lk : SleepLock) (pid : Nat) :
    holdingsleep lk pid = false ↔ ¬ (lk.locked ≠ 0 ∧ lk.pid = pid) := by
  simp [holdingsleep]

/-- A head pointer and the page memory determine the free list. -/
theorem chain_unique {next : Nat → Nat} :
    ∀ (xs ys : List Nat) (h : Nat), Chain next h xs → Chain next h ys → xs = ys := by
  intro xs
  induction xs with
  | nil =>
    intro ys h hx hy
    have h0 : h = 0 := hx
    subst h0
    exact (chain_null hy).symm
  | cons x xs ih =>
    intro ys h hx hy
    obtain ⟨h1, h2, h3⟩ := hx
    subst h1
    obtain ⟨rest, hys, hrest⟩ := chain_nonnull hy h2
    subst hys
    rw [ih rest (next h) h3 hrest]

/-- What a returning `kfree` leaves behind, pointer by pointer: the page is the head of
the executing core's list, its `next` word is the previous head, every other head pointer
and every other page is as before, and one lock was taken and released. -/
theorem kfree_ok_spec (L : MemLayout) (cpu : Nat) (st : KState) (pa : Nat)
    (hcond : ¬ (pa % PGSIZE ≠ 0 ∨ pa < L.kend ∨ pa ≥ L.PHYSTOP)) :
    ∃ st1, kfree L cpu st pa = .ok () st1 ∧
      st1.freelist cpu = pa ∧ st1.next pa = st.freelist cpu ∧
      (∀ d, d ≠ cpu → st1.freelist d = st.freelist d) ∧
      (∀ a, a ≠ pa → st1.next a = st.next a) ∧
      st1.locks = st.locks ++ [LockEvent.acquire cpu, LockEvent.release cpu] := by
  refine ⟨release (setFreelist (setNext (acquire (memsetPage st pa 1) cpu) pa
    ((acquire (memsetPage st pa 1) cpu).freelist cpu)) cpu pa) cpu, ?_, ?_, ?_, ?_, ?_, ?_⟩
  · simp only [kfree, if_neg hcond]
  · simp [release, setFreelist]
  · simp [release, setFreelist, setNext, acquire, memsetPage]
  · intro d hd
    simp [release, setFreelist, setNext, acquire, memsetPage, hd]
  · intro a ha
    simp [release, setFreelist, setNext, acquire, memsetPage, ha]
  · simp [release, setFreelist, setNext, acquire, memsetPage]

/-- The free lists of the example allocator after `kinit` on core 0. -/
theorem freeLists_demoInit :
    FreeLists demoLayout demoInit (fun c => if c = 0 then [8192, 4096] else []) := by
  intro c hc
  by_cases h : c = 0
  · subst h; exact ⟨rfl, by decide, rfl, by decide, rfl⟩
  · simp only [if_neg h]
    have h1 : c = 1 := by
      have : c < 2 := hc
      omega
    subst h1
    rfl

theorem lockDiscipline_probeTrace (L : MemLayout) (id : Nat) :
    ∀ (cnt a : Nat) (rest : List LockEvent),
      lockDiscipline none (probeTrace L id a cnt ++ rest) = lockDiscipline none rest := by
  intro cnt
  induction cnt with
  | zero => intro a rest; rfl
  | succ n ih =>
    intro a rest
    rw [probeTrace_succ, List.append_assoc]
    simp only [List.cons_append, List.nil_append, lockDiscipline, decide_True, Bool.true_and]
    exact ih (a + 1) rest

/-- Which slot a miss of `bget` repurposes: the unreferenced slot `v` whose timestamp is
below `(uint)-1` and is smaller than that of every other unreferenced slot, or equal to
it with `v` the earlier slot. When the content lock of `v` is free the call returns
`v`, repurposed and locked by the caller, and nothing else has changed. -/
theorem bget_miss_selects (st : BState) (pid dev blockno v : Nat) (hv : v < NSIZE)
    (hmiss : ∀ i, i < NSIZE → ¬ ((st.bcache (blockno % NBUCKETS) i).dev = dev ∧
      (st.bcache (blockno % NBUCKETS) i).blockno = blockno))
    (hfree : (st.bcache (blockno % NBUCKETS) v).refcnt = 0)
    (hts : (st.bcache (blockno % NBUCKETS) v).timestamp < UINT_MAX)
    (hlock : (st.bcache (blockno % NBUCKETS) v).lock.locked = 0)
    (hbest : ∀ j, j < NSIZE → j ≠ v → (st.bcache (blockno % NBUCKETS) j).refcnt = 0 →
      (st.bcache (blockno % NBUCKETS) v).timestamp <
          (st.bcache (blockno % NBUCKETS) j).timestamp ∨
        ((st.bcache (blockno % NBUCKETS) v).timestamp =
          (st.bcache (blockno % NBUCKETS) j).timestamp ∧ v < j)) :
    ∃ st1, bget st pid dev blockno = .ok (blockno % NBUCKETS, v) st1 ∧
      (st1.bcache (blockno % NBUCKETS) v).dev = dev ∧
      (st1.bcache (blockno % NBUCKETS) v).blockno = blockno ∧
      (st1.bcache (blockno % NBUCKETS) v).valid = 0 ∧
      (st1.bcache (blockno % NBUCKETS) v).refcnt = 1 ∧
      (st1.bcache (blockno % NBUCKETS) v).timestamp =
        (st.bcache (blockno % NBUCKETS) v).timestamp ∧
      (st1.bcache (blockno % NBUCKETS) v).lock = ⟨1, pid⟩ ∧
      (∀ i j, ¬ (i = blockno % NBUCKETS ∧ j = v) → st1.bcache i j = st.bcache i j) := by
  have hnone := (bgetHit_none_iff (st.bcache (blockno % NBUCKETS)) dev blockno).mpr hmiss
  rcases bget_miss_cases st pid dev blockno hnone with
    ⟨t, ht, hr, _, hmin, hfst, hb⟩ | ⟨_, hno⟩
  · have htv : t = v := by
      by_contra hne
      rcases hbest t ht hne hr with h1 | ⟨h1, h2⟩
      · have := hmin v hv hfree
        omega
      · have := hfst v h2 hfree
        omega
    subst htv
    obtain ⟨st1, _, hfreeok, hlk, hoth, hvalid, hdev, hblk, hrc, htime, _, _, _⟩ :=
      acquiresleep_spec
        (st.setBuf (blockno % NBUCKETS, t)
          { st.bcache (blockno % NBUCKETS) t with
            dev := dev, blockno := blockno, valid := 0, refcnt := 1 })
        pid (blockno % NBUCKETS, t)
    have hok := hfreeok (by simpa [BState.setBuf] using hlock)
    refine ⟨st1, by rw [hb]; exact hok, ?_, ?_, ?_, ?_, ?_, hlk hok, ?_⟩
    · simpa [BState.setBuf] using hdev
    · simpa [BState.setBuf] using hblk
    · simpa [BState.setBuf] using hvalid
    · simpa [BState.setBuf] using hrc
    · simpa [BState.setBuf] using htime
    · intro i j hij
      rw [hoth i j hij]
      exact setBuf_other st _ _ i j hij
  · exact absurd ⟨hfree, hts⟩ (hno v hv)

theorem uint_dec_one : (1 + UINT_MOD - 1) % UINT_MOD = 0 := by decide

theorem ledger_inc (r : Nat) (n : Int) (h : (r : Int) = n % (UINT_MOD : Int)) :
    (((r + 1) % UINT_MOD : Nat) : Int) = (n + 1) % (UINT_MOD : Int) := by
  unfold UINT_MOD at *
  push_cast at *
  omega

theorem ledger_dec (r : Nat) (n : Int) (h : (r : Int) = n % (UINT_MOD : Int)) :
    (((r + UINT_MOD - 1) % UINT_MOD : Nat) : Int) = (n + -1) % (UINT_MOD : Int) := by
  unfold UINT_MOD at *
  push_cast at *
  omega

/-- What one call does to the reference counts, in terms of the ledger: the call
changes the count of at most one slot `b`, by one `refcnt++`, by one `refcnt--` or by
setting it to 1, and the ledger of the call records the same change. -/
theorem step_effect (st : BState) (net : Nat → Nat → Int) (op : BOp) :
    (bstep st op = st ∧ ledgerStep st net op = net) ∨
    (∃ b, (∀ i j, ¬ (i = b.1 ∧ j = b.2) →
          ((bstep st op).bcache i j).refcnt = (st.bcache i j).refcnt) ∧
        ((((bstep st op).bcache b.1 b.2).refcnt =
              ((st.bcache b.1 b.2).refcnt + 1) % UINT_MOD ∧
            ledgerStep st net op = bump net b 1 ∧
            (opInBounds st op → (st.bcache b.1 b.2).refcnt < UINT_MAX)) ∨
          (((bstep st op).bcache b.1 b.2).refcnt =
              ((st.bcache b.1 b.2).refcnt + UINT_MOD - 1) % UINT_MOD ∧
            ledgerStep st net op = bump net b (-1) ∧
            (opInBounds st op → 0 < (st.bcache b.1 b.2).refcnt)) ∨
          (((bstep st op).bcache b.1 b.2).refcnt = 1 ∧
            ledgerStep st net op = setNet net b 1))) := by
  cases op with
  | get pid dev blockno =>
    cases hh : bgetHit (st.bcache (blockno % NBUCKETS)) dev blockno with
    | some i =>
      obtain ⟨hi, hm, hf⟩ := (bgetHit_some_iff _ _ _ _).mp hh
      obtain ⟨st1, hor, _, hrc, _, _, _, _, _, hoth, _, _⟩ :=
        hit_path_spec st pid dev blockno i hi hm hf
      right
      refine ⟨(blockno % NBUCKETS, i), ?_, Or.inl ⟨?_, ?_, ?_⟩⟩
      · intro k j hkj
        rcases hor with h | h <;> simp only [bstep, h, Outcome.state] <;> rw [hoth k j hkj]
      · rcases hor with h | h <;> simp only [bstep, h, Outcome.state] <;> exact hrc
      · rcases hor with h | h <;> simp [ledgerStep, h, hh]
      · intro hb
        exact hb i hh
    | none =>
      rcases bget_miss_cases st pid dev blockno hh with ⟨t, _, _, _, _, _, hb⟩ | ⟨hb, _⟩
      · obtain ⟨st1, hor, _, _, hoth, _, _, _, hrc, _, _, _, _⟩ :=
          acquiresleep_spec
            (st.setBuf (blockno % NBUCKETS, t)
              { st.bcache (blockno % NBUCKETS) t with
                dev := dev, blockno := blockno, valid := 0, refcnt := 1 })
            pid (blockno % NBUCKETS, t)
        rw [← hb] at hor
        right
        refine ⟨(blockno % NBUCKETS, t), ?_, Or.inr (Or.inr ⟨?_, ?_⟩)⟩
        · intro k j hkj
          have e : st1.bcache k j = st.bcache k j := by
            rw [hoth k j hkj]; exact setBuf_other st _ _ k j hkj
          rcases hor with h | h <;> simp only [bstep, h, Outcome.state] <;> rw [e]
        · have e : (st1.bcache (blockno % NBUCKETS) t).refcnt = 1 := by
            simpa [BState.setBuf] using hrc
          rcases hor with h | h <;> simp only [bstep, h, Outcome.state] <;> exact e
        · rcases hor with h | h <;> simp [ledgerStep, h, hh]
      · left
        exact ⟨by simp only [bstep, hb, Outcome.state], by simp only [ledgerStep, hb]⟩
  | release pid b ticks =>
    by_cases hold : (st.bcache b.1 b.2).lock.locked ≠ 0 ∧ (st.bcache b.1 b.2).lock.pid = pid
    · obtain ⟨st1, hrel, _, hrc, _, _, _, _, _, _, hoth, _, _⟩ := brelse_spec st pid b ticks hold
      have hh : holdingsleep (st.getBuf b).lock pid = true := by
        simp [holdingsleep, BState.getBuf, hold.1, hold.2]
      right
      refine ⟨b, ?_, Or.inr (Or.inl ⟨?_, ?_, ?_⟩)⟩
      · intro k j hkj
        simp only [bstep, hrel, Outcome.state]
        rw [hoth k j hkj]
      · simp only [bstep, hrel, Outcome.state]
        exact hrc
      · simp [ledgerStep, hrel, Outcome.isPanic]
      · intro hb
        exact hb hh
    · have hh : holdingsleep (st.getBuf b).lock pid = false := by
        simp only [holdingsleep, BState.getBuf, decide_eq_false_iff_not]
        exact hold
      have hr : brelse st pid b ticks = .panic "brelse" st := by simp [brelse, hh]
      left
      exact ⟨by simp only [bstep, hr, Outcome.state], by simp [ledgerStep, hr, Outcome.isPanic]⟩
  | pin b =>
    right
    refine ⟨b, ?_, Or.inl ⟨?_, rfl, fun hb => hb⟩⟩
    · intro k j hkj
      simp [bstep, bpin, BState.setBuf, hkj]
    · simp [bstep, bpin, BState.setBuf, BState.getBuf]
  | unpin b =>
    right
    refine ⟨b, ?_, Or.inr (Or.inl ⟨?_, rfl, fun hb => hb⟩)⟩
    · intro k j hkj
      simp [bstep, bunpin, BState.setBuf, hkj]
    · simp [bstep, bunpin, BState.setBuf, BState.getBuf]

theorem ledgerMod_step (st : BState) (net : Nat → Nat → Int) (op : BOp)
    (h : LedgerMod st net) : LedgerMod (bstep st op) (ledgerStep st net op) := by
  rcases step_effect st net op with ⟨e1, e2⟩ | ⟨b, hoth, hcase⟩
  · rw [e1, e2]; exact h
  · intro i j
    by_cases hij : i = b.1 ∧ j = b.2
    · obtain ⟨rfl, rfl⟩ := hij
      rcases hcase with ⟨hrc, hl, _⟩ | ⟨hrc, hl, _⟩ | ⟨hrc, hl⟩
      · rw [hrc, hl]
        simp only [bump, and_self, if_true]
        exact ledger_inc _ _ (h b.1 b.2)
      · rw [hrc, hl]
        simp only [bump, and_self, if_true]
        exact ledger_dec _ _ (h b.1 b.2)
      · rw [hrc, hl]
        simp only [setNet, and_self, if_true]
        decide
    · have hnet : ledgerStep st net op i j = net i j := by
        rcases hcase with ⟨_, hl, _⟩ | ⟨_, hl, _⟩ | ⟨_, hl⟩ <;> rw [hl] <;>
          simp [bump, setNet, hij]
      rw [hoth i j hij, hnet]
      exact h i j

theorem ledgerExact_step (st : BState) (net : Nat → Nat → Int) (op : BOp)
    (hm : LedgerMod st net) (h : LedgerExact st net) (hb : opInBounds st op) :
    LedgerExact (bstep st op) (ledgerStep st net op) := by
  rcases step_effect st net op with ⟨e1, e2⟩ | ⟨b, hoth, hcase⟩
  · rw [e1, e2]; exact h
  · intro i j
    by_cases hij : i = b.1 ∧ j = b.2
    · obtain ⟨rfl, rfl⟩ := hij
      have hr := h b.1 b.2
      have hmod := hm b.1 b.2
      rcases hcase with ⟨hrc, hl, hin⟩ | ⟨hrc, hl, hin⟩ | ⟨hrc, hl⟩
      · have hlt := hin hb
        rw [hrc, hl]
        simp only [bump, and_self, if_true]
        unfold UINT_MOD UINT_MAX at *
        push_cast at *
        omega
      · have hpos := hin hb
        rw [hrc, hl]
        simp only [bump, and_self, if_true]
        unfold UINT_MOD at *
        push_cast at *
        omega
      · rw [hrc, hl]
        simp only [setNet, and_self, if_true]
        rfl
    · have hnet : ledgerStep st net op i j = net i j := by
        rcases hcase with ⟨_, hl, _⟩ | ⟨_, hl, _⟩ | ⟨_, hl⟩ <;> rw [hl] <;>
          simp [bump, setNet, hij]
      rw [hoth i j hij, hnet]
      exact h i j

theorem ledgerMod_run :
    ∀ (ops : List BOp) (st : BState) (net : Nat → Nat → Int), LedgerMod st net →
      LedgerMod (ledgerRun st net ops).1 (ledgerRun st net ops).2 := by
  intro ops
  induction ops with
  | nil => intro st net h; exact h
  | cons op ops ih =>
    intro st net h
    exact ih _ _ (ledgerMod_step st net op h)

theorem ledgerExact_run :
    ∀ (ops : List BOp) (st : BState) (net : Nat → Nat → Int), LedgerMod st net →
      LedgerExact st net → InBounds st ops →
      LedgerExact (ledgerRun st net ops).1 (ledgerRun st net ops).2 := by
  intro ops
  induction ops with
  | nil => intro st net _ h _; exact h
  | cons op ops ih =>
    intro st net hm h hb
    exact ih _ _ (ledgerMod_step st net op hm) (ledgerExact_step st net op hm h hb.1) hb.2

/-- The three ways `bget` can leave the cache: unchanged (it panicked); with the first
matching slot of the bucket referenced once more; or with a slot of the bucket, none of
which matched, repurposed for the requested block with a reference count of 1. In the
last two cases no other slot has changed. -/
theorem bget_effect (st : BState) (pid dev blockno : Nat) :
    (bget st pid dev blockno).state = st ∨
    (∃ i, i < NSIZE ∧
      ((st.bcache (blockno % NBUCKETS) i).dev = dev ∧
        (st.bcache (blockno % NBUCKETS) i).blockno = blockno) ∧
      (∀ j, j < i → ¬ ((st.bcache (blockno % NBUCKETS) j).dev = dev ∧
        (st.bcache (blockno % NBUCKETS) j).blockno = blockno)) ∧
      ((bget st pid dev blockno).state.bcache (blockno % NBUCKETS) i).dev = dev ∧
      ((bget st pid dev blockno).state.bcache (blockno % NBUCKETS) i).blockno = blockno ∧
      (∀ k j, ¬ (k = blockno % NBUCKETS ∧ j = i) →
        (bget st pid dev blockno).state.bcache k j = st.bcache k j)) ∨
    (∃ t, t < NSIZE ∧
      (∀ j, j < NSIZE → ¬ ((st.bcache (blockno % NBUCKETS) j).dev = dev ∧
        (st.bcache (blockno % NBUCKETS) j).blockno = blockno)) ∧
      ((bget st pid dev blockno).state.bcache (blockno % NBUCKETS) t).dev = dev ∧
      ((bget st pid dev blockno).state.bcache (blockno % NBUCKETS) t).blockno = blockno ∧
      ((bget st pid dev blockno).state.bcache (blockno % NBUCKETS) t).refcnt = 1 ∧
      (∀ k j, ¬ (k = blockno % NBUCKETS ∧ j = t) →
        (bget st pid dev blockno).state.bcache k j = st.bcache k j)) := by
  cases hh : bgetHit (st.bcache (blockno % NBUCKETS)) dev blockno with
  | some i =>
    obtain ⟨hi, hm, hf⟩ := (bgetHit_some_iff _ _ _ _).mp hh
    obtain ⟨st1, hor, _, _, _, hdev, hblk, _, _, hoth, _, _⟩ :=
      hit_path_spec st pid dev blockno i hi hm hf
    have hs : (bget st pid dev blockno).state = st1 := by
      rcases hor with h | h <;> rw [h] <;> rfl
    right; left
    rw [hs]
    exact ⟨i, hi, hm, hf, by rw [hdev]; exact hm.1, by rw [hblk]; exact hm.2, hoth⟩
  | none =>
    have hmiss := (bgetHit_none_iff _ _ _).mp hh
    rcases bget_miss_cases st pid dev blockno hh with ⟨t, ht, _, _, _, _, hb⟩ | ⟨hb, _⟩
    · obtain ⟨st1, hor, _, _, hoth, _, hdev, hblk, hrc, _, _, _, _⟩ :=
        acquiresleep_spec
          (st.setBuf (blockno % NBUCKETS, t)
            { st.bcache (blockno % NBUCKETS) t with
              dev := dev, blockno := blockno, valid := 0, refcnt := 1 })
          pid (blockno % NBUCKETS, t)
      rw [← hb] at hor
      have hs : (bget st pid dev blockno).state = st1 := by
        rcases hor with h | h <;> rw [h] <;> rfl
      right; right
      rw [hs]
      refine ⟨t, ht, hmiss, ?_, ?_, ?_, ?_⟩
      · simpa [BState.setBuf] using hdev
      · simpa [BState.setBuf] using hblk
      · simpa [BState.setBuf] using hrc
      · intro k j hkj
        rw [hoth k j hkj]
        exact setBuf_other st _ _ k j hkj
    · left
      rw [hb]; rfl

theorem oneBuffer_get (st : BState) (pid dev blockno : Nat) (h : OneBufferPerBlock st) :
    OneBufferPerBlock (bget st pid dev blockno).state := by
  obtain ⟨h2, h3⟩ := h
  rcases bget_effect st pid dev blockno with hs | ⟨i0, hi0, hm, hf, hdev, hblk, hoth⟩ |
      ⟨t, ht, hmiss, hdev, hblk, _, hoth⟩
  · rw [hs]; exact ⟨h2, h3⟩
  · constructor
    · intro i j hj hpos
      by_cases hij : i = blockno % NBUCKETS ∧ j = i0
      · obtain ⟨rfl, rfl⟩ := hij
        rw [hblk]
      · rw [hoth i j hij] at hpos ⊢
        exact h2 i j hj hpos
    · intro i hd hb
      by_cases hi : i = blockno % NBUCKETS
      · subst hi
        rcases slot_cases hi0 with rfl | rfl
        · have e1 : (bget st pid dev blockno).state.bcache (blockno % NBUCKETS) 1 =
              st.bcache (blockno % NBUCKETS) 1 := hoth _ 1 (by simp)
          rw [e1] at hd hb ⊢
          rw [hdev] at hd
          rw [hblk] at hb
          exact h3 _ (by rw [hm.1]; exact hd) (by rw [hm.2]; exact hb)
        · exfalso
          have e0 : (bget st pid dev blockno).state.bcache (blockno % NBUCKETS) 0 =
              st.bcache (blockno % NBUCKETS) 0 := hoth _ 0 (by simp)
          rw [e0, hdev] at hd
          rw [e0, hblk] at hb
          exact hf 0 (by decide) ⟨hd, hb⟩
      · have e0 : (bget st pid dev blockno).state.bcache i 0 = st.bcache i 0 :=
          hoth i 0 (fun h => hi h.1)
        have e1 : (bget st pid dev blockno).state.bcache i 1 = st.bcache i 1 :=
          hoth i 1 (fun h => hi h.1)
        rw [e0, e1] at hd hb
        rw [e1]
        exact h3 i hd hb
  · constructor
    · intro i j hj hpos
      by_cases hij : i = blockno % NBUCKETS ∧ j = t
      · obtain ⟨rfl, rfl⟩ := hij
        rw [hblk]
      · rw [hoth i j hij] at hpos ⊢
        exact h2 i j hj hpos
    · intro i hd hb
      by_cases hi : i = blockno % NBUCKETS
      · subst hi
        exfalso
        rcases slot_cases ht with rfl | rfl
        · have e1 : (bget st pid dev blockno).state.bcache (blockno % NBUCKETS) 1 =
              st.bcache (blockno % NBUCKETS) 1 := hoth _ 1 (by simp)
          rw [e1, hdev] at hd
          rw [e1, hblk] at hb
          exact hmiss 1 (by decide) ⟨hd.symm, hb.symm⟩
        · have e0 : (bget st pid dev blockno).state.bcache (blockno % NBUCKETS) 0 =
              st.bcache (blockno % NBUCKETS) 0 := hoth _ 0 (by simp)
          rw [e0, hdev] at hd
          rw [e0, hblk] at hb
          exact hmiss 0 (by decide) ⟨hd, hb⟩
      · have e0 : (bget st pid dev blockno).state.bcache i 0 = st.bcache i 0 :=
          hoth i 0 (fun h => hi h.1)
        have e1 : (bget st pid dev blockno).state.bcache i 1 = st.bcache i 1 :=
          hoth i 1 (fun h => hi h.1)
        rw [e0, e1] at hd hb
        rw [e1]
        exact h3 i hd hb

/-- A call that changes nothing but the reference count, the timestamp and the lock of one
referenced slot keeps the invariant. -/
theorem oneBuffer_refcnt_only (st st1 : BState) (b : Nat × Nat) (h : OneBufferPerBlock st)
    (hpos : 0 < (st.bcache b.1 b.2).refcnt)
    (hdev : (st1.bcache b.1 b.2).dev = (st.bcache b.1 b.2).dev)
    (hblk : (st1.bcache b.1 b.2).blockno = (st.bcache b.1 b.2).blockno)
    (hoth : ∀ k j, ¬ (k = b.1 ∧ j = b.2) → st1.bcache k j = st.bcache k j) :
    OneBufferPerBlock st1 := by
  obtain ⟨h2, h3⟩ := h
  have hid : ∀ k j, (st1.bcache k j).dev = (st.bcache k j).dev ∧
      (st1.bcache k j).blockno = (st.bcache k j).blockno := by
    intro k j
    by_cases hkj : k = b.1 ∧ j = b.2
    · obtain ⟨rfl, rfl⟩ := hkj
      exact ⟨hdev, hblk⟩
    · rw [hoth k j hkj]
      exact ⟨rfl, rfl⟩
  constructor
  · intro i j hj hp
    rw [(hid i j).2]
    by_cases hij : i = b.1 ∧ j = b.2
    · obtain ⟨rfl, rfl⟩ := hij
      exact h2 _ _ hj hpos
    · rw [hoth i j hij] at hp
      exact h2 i j hj hp
  · intro i hd hb
    rw [(hid i 0).1, (hid i 1).1] at hd
    rw [(hid i 0).2, (hid i 1).2] at hb
    have h0 := h3 i hd hb
    by_cases hij : i = b.1 ∧ 1 = b.2
    · obtain ⟨rfl, h1⟩ := hij
      rw [← h1] at hpos
      omega
    · rw [hoth i 1 hij]
      exact h0

theorem oneBuffer_reach (st : BState) (h : BReach st) : OneBufferPerBlock st := by
  induction h with
  | init ticks =>
    exact ⟨fun i j _ hp => by simp [binit] at hp, fun i _ _ => by simp [binit]⟩
  | get st pid dev blockno _ ih => exact oneBuffer_get st pid dev blockno ih
  | release st pid b ticks _ _ _ hpos ih =>
    by_cases hold : (st.bcache b.1 b.2).lock.locked ≠ 0 ∧ (st.bcache b.1 b.2).lock.pid = pid
    · obtain ⟨st1, hrel, _, _, _, _, hdev, hblk, _, _, hoth, _, _⟩ :=
        brelse_spec st pid b ticks hold
      rw [hrel]
      exact oneBuffer_refcnt_only st st1 b ih hpos hdev hblk hoth
    · have hh : holdingsleep (st.getBuf b).lock pid = false := by
        simp only [holdingsleep, BState.getBuf, decide_eq_false_iff_not]
        exact hold
      have hr : brelse st pid b ticks = .panic "brelse" st := by simp [brelse, hh]
      rw [hr]
      exact ih
  | pin st b _ _ _ hpos ih =>
    apply oneBuffer_refcnt_only st _ b ih hpos
    · simp [bpin, BState.setBuf, BState.getBuf]
    · simp [bpin, BState.setBuf, BState.getBuf]
    · intro k j hkj
      simp [bpin, BState.setBuf, hkj]
  | unpin st b _ _ _ hpos ih =>
    apply oneBuffer_refcnt_only st _ b ih hpos
    · simp [bunpin, BState.setBuf, BState.getBuf]
    · simp [bunpin, BState.setBuf, BState.getBuf]
    · intro k j hkj
      simp [bunpin, BState.setBuf, hkj]

/-! Lemmas about concurrent callers of the buffer cache. -/

theorem bget_eq_bgetLocked (st : BState) (pid dev blockno : Nat) :
    bget st pid dev blockno =
      match bgetLocked st dev blockno with
      | .ok b s => acquiresleep s pid b
      | .panic m s => .panic m s
      | .sleep b s => .sleep b s := by
  unfold bget bgetLocked
  dsimp only
  cases bgetHit (st.bcache (blockno % NBUCKETS)) dev blockno with
  | some i => rfl
  | none =>
    dsimp only
    by_cases h : (bgetLru (st.bcache (blockno % NBUCKETS))).1 ≠ UINT_MAX
    · rw [if_pos h, if_pos h]
      cases (bgetLru (st.bcache (blockno % NBUCKETS))).2 with
      | some t => rfl
      | none => rfl
    · rw [if_neg h, if_neg h]

theorem bread_eq_steps (st : BState) (pid dev blockno : Nat) :
    bread st pid dev blockno =
      match bgetLocked st dev blockno with
      | .ok b s =>
        match acquiresleep s pid b with
        | .ok b2 s2 =>
          .ok b2 (if (s2.getBuf b2).valid = 0 then setValid (virtio_disk_rw s2 b2 false) b2
            else s2)
        | .panic m s2 => .panic m s2
        | .sleep b2 s2 => .sleep b2 s2
      | .panic m s => .panic m s
      | .sleep b s => .sleep b s := by
  unfold bread
  rw [bget_eq_bgetLocked]
  cases bgetLocked st dev blockno with
  | ok b s =>
    simp only []
    cases acquiresleep s pid b with
    | ok b2 s2 =>
      simp only []
      by_cases h : (s2.getBuf b2).valid = 0
      · simp only [if_pos h]; rfl
      · simp only [if_neg h]
    | panic m s2 => rfl
    | sleep b2 s2 => rfl
  | panic m s => rfl
  | sleep b s => rfl

theorem brelse_eq_steps (st : BState) (pid : Nat) (b : Nat × Nat) (ticks : Nat) :
    brelse st pid b ticks =
      if holdingsleep (st.getBuf b).lock pid = false then .panic "brelse" st
      else .ok () (brelseLocked (releasesleep st b) b ticks) := by
  unfold brelse brelseLocked
  by_cases h : holdingsleep (st.getBuf b).lock pid = false
  · simp only [if_pos h]
  · simp only [if_neg h]
    split
    · rfl
    · rfl

theorem setPc_same (pc : Nat → Pc) (c : Nat) (p : Pc) : setPc pc c p c = p := by
  simp [setPc]

theorem acquiresleep_ok (st : BState) (pid : Nat) (b b2 : Nat × Nat) (s : BState)
    (h : acquiresleep st pid b = .ok b2 s) :
    b2 = b ∧ (st.getBuf b).lock.locked = 0 ∧
      s = st.setBuf b { st.getBuf b with lock := { locked := 1, pid := pid } } := by
  unfold acquiresleep at h
  dsimp only at h
  by_cases hl : (st.getBuf b).lock.locked ≠ 0
  · rw [if_pos hl] at h
    cases h
  · rw [if_neg hl] at h
    cases h
    exact ⟨rfl, not_not.mp hl, rfl⟩

theorem cstep_start (N : Nat) (pids : Nat → Nat) (req : Nat → Nat × Nat) (g : CState)
    (c ticks : Nat) (b : Nat × Nat) (s : BState) (hc : c < N) (hp : g.pc c = .start)
    (h : bgetLocked g.cache (req c).1 (req c).2 = .ok b s) :
    cstep N pids req g c ticks = { cache := s, pc := setPc g.pc c (.wantLock b) } := by
  unfold cstep
  rw [if_pos hc, hp]
  dsimp only
  rw [h]

theorem cstep_wantLock (N : Nat) (pids : Nat → Nat) (req : Nat → Nat × Nat) (g : CState)
    (c ticks : Nat) (b b2 : Nat × Nat) (s : BState) (hc : c < N) (hp : g.pc c = .wantLock b)
    (h : acquiresleep g.cache (pids c) b = .ok b2 s) :
    cstep N pids req g c ticks = { cache := s, pc := setPc g.pc c (.locked b) } := by
  unfold cstep
  rw [if_pos hc, hp]
  dsimp only
  rw [h]

theorem cstep_locked (N : Nat) (pids : Nat → Nat) (req : Nat → Nat × Nat) (g : CState)
    (c ticks : Nat) (b : Nat × Nat) (hc : c < N) (hp : g.pc c = .locked b) :
    cstep N pids req g c ticks =
      if (g.cache.getBuf b).valid = 0 then { cache := g.cache, pc := setPc g.pc c (.loading b) }
      else { cache := g.cache, pc := setPc g.pc c (.inUse b) } := by
  unfold cstep
  rw [if_pos hc, hp]

theorem cstep_loading (N : Nat) (pids : Nat → Nat) (req : Nat → Nat × Nat) (g : CState)
    (c ticks : Nat) (b : Nat × Nat) (hc : c < N) (hp : g.pc c = .loading b) :
    cstep N pids req g c ticks =
      { cache := virtio_disk_rw g.cache b false, pc := setPc g.pc c (.loaded b) } := by
  unfold cstep
  rw [if_pos hc, hp]

theorem cstep_loaded (N : Nat) (pids : Nat → Nat) (req : Nat → Nat × Nat) (g : CState)
    (c ticks : Nat) (b : Nat × Nat) (hc : c < N) (hp : g.pc c = .loaded b) :
    cstep N pids req g c ticks =
      { cache := setValid g.cache b, pc := setPc g.pc c (.inUse b) } := by
  unfold cstep
  rw [if_pos hc, hp]

theorem cstep_inUse (N : Nat) (pids : Nat → Nat) (req : Nat → Nat × Nat) (g : CState)
    (c ticks : Nat) (b : Nat × Nat) (hc : c < N) (hp : g.pc c = .inUse b) :
    cstep N pids req g c ticks =
      if holdingsleep (g.cache.getBuf b).lock (pids c) = false then
        { cache := g.cache, pc := setPc g.pc c .panicked }
      else { cache := g.cache, pc := setPc g.pc c (.checked b) } := by
  unfold cstep
  rw [if_pos hc, hp]

theorem cstep_checked (N : Nat) (pids : Nat → Nat) (req : Nat → Nat × Nat) (g : CState)
    (c ticks : Nat) (b : Nat × Nat) (hc : c < N) (hp : g.pc c = .checked b) :
    cstep N pids req g c ticks =
      { cache := releasesleep g.cache b, pc := setPc g.pc c (.releasing b) } := by
  unfold cstep
  rw [if_pos hc, hp]

theorem cstep_releasing (N : Nat) (pids : Nat → Nat) (req : Nat → Nat × Nat) (g : CState)
    (c ticks : Nat) (b : Nat × Nat) (hc : c < N) (hp : g.pc c = .releasing b) :
    cstep N pids req g c ticks =
      { cache := brelseLocked g.cache b ticks, pc := setPc g.pc c .finished } := by
  unfold cstep
  rw [if_pos hc, hp]

/-- A caller that runs alone through `bread` reproduces the sequential `bread`: when
`bread` returns `b` in state `s` from the cache of `g`, three or five steps of the caller
lead from `g` to the cache `s` with the caller at the return of `bread`. -/
theorem solo_bread_agrees (N : Nat) (pids : Nat → Nat) (req : Nat → Nat × Nat) (g : CState)
    (c : Nat) (b : Nat × Nat) (s : BState) (hc : c < N) (hp : g.pc c = .start)
    (h : bread g.cache (pids c) (req c).1 (req c).2 = .ok b s) :
    ∃ k, (crun N pids req g (List.replicate k (c, 0))).cache = s ∧
      (crun N pids req g (List.replicate k (c, 0))).pc c = .inUse b := by
  rw [bread_eq_steps] at h
  cases hb : bgetLocked g.cache (req c).1 (req c).2 with
  | ok b1 s1 =>
    rw [hb] at h
    dsimp only at h
    cases ha : acquiresleep s1 (pids c) b1 with
    | ok b2 s2 =>
      rw [ha] at h
      dsimp only at h
      obtain ⟨hb2, _, _⟩ := acquiresleep_ok s1 (pids c) b1 b2 s2 ha
      subst hb2
      have e1 := cstep_start N pids req g c 0 b2 s1 hc hp hb
      have e2 := cstep_wantLock N pids req
        { cache := s1, pc := setPc g.pc c (.wantLock b2) } c 0 b2 b2 s2 hc
        (setPc_same _ _ _) ha
      have e3 := cstep_locked N pids req
        { cache := s2, pc := setPc (setPc g.pc c (.wantLock b2)) c (.locked b2) } c 0 b2 hc
        (setPc_same _ _ _)
      by_cases hv : (s2.getBuf b2).valid = 0
      · rw [if_pos hv] at h
        cases h
        refine ⟨5, ?_⟩
        dsimp only at e2 e3
        rw [if_pos hv] at e3
        have e4 := cstep_loading N pids req
          { cache := s2,
            pc := setPc (setPc (setPc g.pc c (.wantLock b)) c (.locked b)) c (.loading b) }
          c 0 b hc (setPc_same _ _ _)
        have e5 := cstep_loaded N pids req
          { cache := virtio_disk_rw s2 b false,
            pc := setPc (setPc (setPc (setPc g.pc c (.wantLock b)) c (.locked b)) c
              (.loading b)) c (.loaded b) }
          c 0 b hc (setPc_same _ _ _)
        dsimp only at e4 e5
        simp only [List.replicate, crun, e1, e2, e3, e4, e5, setPc_same, and_self]
      · rw [if_neg hv] at h
        cases h
        refine ⟨3, ?_⟩
        dsimp only at e2 e3
        rw [if_neg hv] at e3
        simp only [List.replicate, crun, e1, e2, e3, setPc_same, and_self]
    | panic m s2 =>
      rw [ha] at h
      cases h
    | sleep b2 s2 =>
      rw [ha] at h
      cases h
  | panic m s1 =>
    rw [hb] at h
    cases h
  | sleep b1 s1 =>
    rw [hb] at h
    cases h

/-- A caller that runs alone through `brelse` reproduces the sequential `brelse`. -/
theorem solo_brelse_agrees (N : Nat) (pids : Nat → Nat) (req : Nat → Nat × Nat)
    (g : CState) (c ticks : Nat) (b : Nat × Nat) (s : BState) (hc : c < N)
    (hp : g.pc c = .inUse b) (h : brelse g.cache (pids c) b ticks = .ok () s) :
    (crun N pids req g [(c, ticks), (c, ticks), (c, ticks)]).cache = s ∧
      (crun N pids req g [(c, ticks), (c, ticks), (c, ticks)]).pc c = .finished := by
  rw [brelse_eq_steps] at h
  have e1 := cstep_inUse N pids req g c ticks b hc hp
  by_cases hh : holdingsleep (g.cache.getBuf b).lock (pids c) = false
  · rw [if_pos hh] at h
    cases h
  · rw [if_neg hh] at h
    cases h
    rw [if_neg hh] at e1
    have e2 := cstep_checked N pids req
      { cache := g.cache, pc := setPc g.pc c (.checked b) } c ticks b hc
      (setPc_same _ _ _)
    have e3 := cstep_releasing N pids req
      { cache := releasesleep g.cache b,
        pc := setPc (setPc g.pc c (.checked b)) c (.releasing b) } c ticks b hc
      (setPc_same _ _ _)
    dsimp only at e2 e3
    simp only [crun, e1, e2, e3, setPc_same, and_self]

/-! The properties of the specification. -/

/-- C1. Least-recently-used eviction: when both slots of the shard are unreferenced, carry
distinct timestamps and none matches the request, `bget` repurposes the slot `v` with the
strictly smallest timestamp (new `dev` and `blockno`, `valid = 0`, `refcnt = 1`) and
leaves every other slot of the cache as it was; the call returns `v` at once when the
content lock of `v` is free. -/
theorem bget_evicts_smallest_timestamp (st : BState) (pid dev blockno : Nat)
    (hts : ∀ i, i < NSIZE → (st.bcache (blockno % NBUCKETS) i).timestamp < UINT_MOD)
    (href : ∀ i, i < NSIZE → (st.bcache (blockno % NBUCKETS) i).refcnt = 0)
    (hdist : ∀ i, i < NSIZE → ∀ j, j < NSIZE → i ≠ j →
      (st.bcache (blockno % NBUCKETS) i).timestamp ≠
        (st.bcache (blockno % NBUCKETS) j).timestamp)
    (hmiss : ∀ i, i < NSIZE → ¬ ((st.bcache (blockno % NBUCKETS) i).dev = dev ∧
      (st.bcache (blockno % NBUCKETS) i).blockno = blockno)) :
    ∃ v st1, v < NSIZE ∧
      (∀ j, j < NSIZE → j ≠ v →
        (st.bcache (blockno % NBUCKETS) v).timestamp <
          (st.bcache (blockno % NBUCKETS) j).timestamp) ∧
      (bget st pid dev blockno = .ok (blockno % NBUCKETS, v) st1 ∨
        bget st pid dev blockno = .sleep (blockno % NBUCKETS, v) st1) ∧
      ((st.bcache (blockno % NBUCKETS) v).lock.locked = 0 →
        bget st pid dev blockno = .ok (blockno % NBUCKETS, v) st1) ∧
      (st1.bcache (blockno % NBUCKETS) v).dev = dev ∧
      (st1.bcache (blockno % NBUCKETS) v).blockno = blockno ∧
      (st1.bcache (blockno % NBUCKETS) v).valid = 0 ∧
      (st1.bcache (blockno % NBUCKETS) v).refcnt = 1 ∧
      (∀ i j, ¬ (i = blockno % NBUCKETS ∧ j = v) → st1.bcache i j = st.bcache i j) := by
  have hnone := (bgetHit_none_iff (st.bcache (blockno % NBUCKETS)) dev blockno).mpr hmiss
  rcases bget_miss_cases st pid dev blockno hnone with ⟨t, ht, _, _, hmin, _, hb⟩ | ⟨_, hno⟩
  · obtain ⟨st1, hor, hfree, _, hoth, hvalid, hdev, hblk, hrc, _, _, _, _⟩ :=
      acquiresleep_spec
        (st.setBuf (blockno % NBUCKETS, t)
          { st.bcache (blockno % NBUCKETS) t with
            dev := dev, blockno := blockno, valid := 0, refcnt := 1 })
        pid (blockno % NBUCKETS, t)
    refine ⟨t, st1, ht, ?_, ?_, ?_, ?_, ?_, ?_, ?_, ?_⟩
    · intro j hj hne
      exact lt_of_le_of_ne (hmin j hj (href j hj)) (hdist t ht j hj (Ne.symm hne))
    · rw [hb]; exact hor
    · intro hl
      rw [hb]
      apply hfree
      simpa [BState.setBuf] using hl
    · simpa [BState.setBuf] using hdev
    · simpa [BState.setBuf] using hblk
    · simpa [BState.setBuf] using hvalid
    · simpa [BState.setBuf] using hrc
    · intro i j hij
      rw [hoth i j hij]
      exact setBuf_other st _ _ i j hij
  · exfalso
    have h0 := hno 0 (by decide)
    have h1 := hno 1 (by decide)
    have t0 := hts 0 (by decide)
    have t1 := hts 1 (by decide)
    have r0 := href 0 (by decide)
    have r1 := href 1 (by decide)
    have hd := hdist 0 (by decide) 1 (by decide) (by decide)
    simp only [r0, true_and, not_lt] at h0
    simp only [r1, true_and, not_lt] at h1
    unfold UINT_MAX at h0 h1
    unfold UINT_MOD at t0 t1
    omega

/-- Example for C1: bucket 10 holds block 10 released at tick 5 and block 107 released at
tick 3, both unreferenced; a request for block 204 repurposes a slot. -/
theorem bget_evicts_smallest_timestamp_witness :
    ∃ v st1, v < NSIZE ∧
      (∀ j, j < NSIZE → j ≠ v →
        ((bucketState 10 (mkBuf 1 1 10 0 5) (mkBuf 1 1 107 0 3)).bcache (204 % NBUCKETS) v).timestamp <
          ((bucketState 10 (mkBuf 1 1 10 0 5) (mkBuf 1 1 107 0 3)).bcache (204 % NBUCKETS) j).timestamp) ∧
      (bget (bucketState 10 (mkBuf 1 1 10 0 5) (mkBuf 1 1 107 0 3)) 7 1 204 =
          .ok (204 % NBUCKETS, v) st1 ∨
        bget (bucketState 10 (mkBuf 1 1 10 0 5) (mkBuf 1 1 107 0 3)) 7 1 204 =
          .sleep (204 % NBUCKETS, v) st1) ∧
      (((bucketState 10 (mkBuf 1 1 10 0 5) (mkBuf 1 1 107 0 3)).bcache
          (204 % NBUCKETS) v).lock.locked = 0 →
        bget (bucketState 10 (mkBuf 1 1 10 0 5) (mkBuf 1 1 107 0 3)) 7 1 204 =
          .ok (204 % NBUCKETS, v) st1) ∧
      (st1.bcache (204 % NBUCKETS) v).dev = 1 ∧
      (st1.bcache (204 % NBUCKETS) v).blockno = 204 ∧
      (st1.bcache (204 % NBUCKETS) v).valid = 0 ∧
      (st1.bcache (204 % NBUCKETS) v).refcnt = 1 ∧
      (∀ i j, ¬ (i = 204 % NBUCKETS ∧ j = v) →
        st1.bcache i j = (bucketState 10 (mkBuf 1 1 10 0 5) (mkBuf 1 1 107 0 3)).bcache i j) :=
  bget_evicts_smallest_timestamp (bucketState 10 (mkBuf 1 1 10 0 5) (mkBuf 1 1 107 0 3)) 7 1 204
    (by decide) (by decide) (by decide) (by decide)

/-- C2. Page conservation: in every state reachable from `kinit` by calls of `kalloc`
on any cores and calls of `kfree`, on any cores, of pages currently handed out, the
free lists are null-terminated chains `ls c`, and the pages on all free lists together
with the pages handed out and not yet freed are a permutation of the managed pages; the
managed pages are exactly the page-aligned `p` with `PGROUNDUP(end) <= p` and
`p + 4096 <= PHYSTOP`, without repetition, so no page is on two lists, twice on one
list, or both free and handed out. -/
theorem page_conservation (L : MemLayout) (st : KState) (out : List Nat) (hs : L.sane)
    (h : Reachable L st out) :
    ∃ ls, FreeLists L st ls ∧
      (allFree L ls ++ out).Perm (managedPages L) ∧
      (allFree L ls ++ out).Nodup ∧
      (managedPages L).Nodup ∧
      (∀ p, p ∈ managedPages L ↔
        p % PGSIZE = 0 ∧ PGROUNDUP L.kend ≤ p ∧ p + PGSIZE ≤ L.PHYSTOP) := by
  obtain ⟨ls, hF, hperm⟩ := reachable_conserved L hs st out h
  exact ⟨ls, hF, hperm, (hperm.nodup_iff).mpr (managedPages_nodup L), managedPages_nodup L,
    fun p => mem_managedPages L p hs⟩

/-- Example for C2: two cores and two managed pages; `kinit` on core 0, then `kalloc` on
core 1, which steals page 8192, then `kfree` of that page on core 1. -/
theorem page_conservation_witness :
    ∃ ls, FreeLists demoLayout demoFreed ls ∧
      (allFree demoLayout ls ++ []).Perm (managedPages demoLayout) ∧
      (allFree demoLayout ls ++ []).Nodup ∧
      (managedPages demoLayout).Nodup ∧
      (∀ p, p ∈ managedPages demoLayout ↔
        p % PGSIZE = 0 ∧ PGROUNDUP demoLayout.kend ≤ p ∧ p + PGSIZE ≤ demoLayout.PHYSTOP) :=
  page_conservation demoLayout demoFreed [] ⟨by decide, by decide, by decide⟩
    (Reachable.free 1 demoAlloc.2 [8192] 8192 demoFreed
      (Reachable.alloc 1 2 demoInit [] 8192 demoAlloc.2
        (Reachable.init 0 5 bootState demoInit (by decide) (fun _ => rfl) rfl) (by decide) rfl)
      (by decide) (by decide) rfl)

/-- C3. Identity stability: on the miss path of `bget`, every slot of the cache that was
referenced (`refcnt > 0`) before the call is the same afterwards in every field, hence in
`dev`, `blockno`, `valid`, `refcnt` and `timestamp`; a slot that differs afterwards had
`refcnt = 0`. -/
theorem bget_miss_keeps_referenced (st : BState) (pid dev blockno : Nat)
    (hmiss : ∀ i, i < NSIZE → ¬ ((st.bcache (blockno % NBUCKETS) i).dev = dev ∧
      (st.bcache (blockno % NBUCKETS) i).blockno = blockno)) :
    (∀ i j, (st.bcache i j).refcnt > 0 →
      (bget st pid dev blockno).state.bcache i j = st.bcache i j) ∧
    (∀ i j, (bget st pid dev blockno).state.bcache i j ≠ st.bcache i j →
      (st.bcache i j).refcnt = 0) := by
  have hnone := (bgetHit_none_iff (st.bcache (blockno % NBUCKETS)) dev blockno).mpr hmiss
  have key : ∀ i j, (st.bcache i j).refcnt > 0 →
      (bget st pid dev blockno).state.bcache i j = st.bcache i j := by
    intro i j hpos
    rcases bget_miss_cases st pid dev blockno hnone with ⟨t, _, hr, _, _, _, hb⟩ | ⟨hb, _⟩
    · obtain ⟨st1, hor, _, _, hoth, _⟩ :=
        acquiresleep_spec
          (st.setBuf (blockno % NBUCKETS, t)
            { st.bcache (blockno % NBUCKETS) t with
              dev := dev, blockno := blockno, valid := 0, refcnt := 1 })
          pid (blockno % NBUCKETS, t)
      have hij : ¬ (i = blockno % NBUCKETS ∧ j = t) := by
        rintro ⟨rfl, rfl⟩
        omega
      have hstate : (bget st pid dev blockno).state = st1 := by
        rw [hb]
        rcases hor with h | h <;> rw [h] <;> rfl
      rw [hstate, hoth i j hij]
      exact setBuf_other st _ _ i j hij
    · rw [hb]; rfl
  refine ⟨key, ?_⟩
  intro i j hne
  by_contra h0
  exact hne (key i j (Nat.pos_of_ne_zero h0))

/-- Example for C3: bucket 10 holds block 10 with two references and block 107 with none;
a request for block 204 misses. -/
theorem bget_miss_keeps_referenced_witness :
    (∀ i j, ((bucketState 10 (mkBuf 1 1 10 2 5) (mkBuf 1 1 107 0 3)).bcache i j).refcnt > 0 →
      (bget (bucketState 10 (mkBuf 1 1 10 2 5) (mkBuf 1 1 107 0 3)) 7 1 204).state.bcache i j =
        (bucketState 10 (mkBuf 1 1 10 2 5) (mkBuf 1 1 107 0 3)).bcache i j) ∧
    (∀ i j,
      (bget (bucketState 10 (mkBuf 1 1 10 2 5) (mkBuf 1 1 107 0 3)) 7 1 204).state.bcache i j ≠
        (bucketState 10 (mkBuf 1 1 10 2 5) (mkBuf 1 1 107 0 3)).bcache i j →
      ((bucketState 10 (mkBuf 1 1 10 2 5) (mkBuf 1 1 107 0 3)).bcache i j).refcnt = 0) :=
  bget_miss_keeps_referenced (bucketState 10 (mkBuf 1 1 10 2 5) (mkBuf 1 1 107 0 3)) 7 1 204
    (by decide)

/-- C4. Exhaustion: when no slot of the shard matches the request and both slots are
referenced, `bget` panics with "bget: no buffers" and the state in which it panics is
the state before the call, so no field of any slot has changed. -/
theorem bget_exhausted_panics (st : BState) (pid dev blockno : Nat)
    (hmiss : ∀ i, i < NSIZE → ¬ ((st.bcache (blockno % NBUCKETS) i).dev = dev ∧
      (st.bcache (blockno % NBUCKETS) i).blockno = blockno))
    (hpin : ∀ i, i < NSIZE → (st.bcache (blockno % NBUCKETS) i).refcnt > 0) :
    bget st pid dev blockno = .panic "bget: no buffers" st := by
  have hnone := (bgetHit_none_iff (st.bcache (blockno % NBUCKETS)) dev blockno).mpr hmiss
  rcases bget_miss_cases st pid dev blockno hnone with ⟨t, ht, hr, _⟩ | ⟨hb, _⟩
  · have := hpin t ht
    omega
  · exact hb

/-- Example for C4: bucket 10 holds blocks 10 and 107, each with one reference; a request
for block 204 misses and panics. -/
theorem bget_exhausted_panics_witness :
    bget (bucketState 10 (mkBuf 1 1 10 1 5) (mkBuf 1 1 107 1 3)) 7 1 204 =
      .panic "bget: no buffers" (bucketState 10 (mkBuf 1 1 10 1 5) (mkBuf 1 1 107 1 3)) :=
  bget_exhausted_panics (bucketState 10 (mkBuf 1 1 10 1 5) (mkBuf 1 1 107 1 3)) 7 1 204
    (by decide) (by decide)

/-- C5 (failing input). Bucket 10 holds slot 0 = block 10, unreferenced, released when the
clock read `(uint)-1`, and slot 1 = block 107, referenced. A `bget` of block 204, which
no slot matches, panics with "bget: no buffers" although slot 0 is unreferenced. -/
theorem bget_panics_with_unreferenced_slot :
    (∀ i, i < NSIZE →
      ¬ (((bucketState 10 (mkBuf 1 1 10 0 4294967295) (mkBuf 1 1 107 1 7)).bcache
            (204 % NBUCKETS) i).dev = 1 ∧
          ((bucketState 10 (mkBuf 1 1 10 0 4294967295) (mkBuf 1 1 107 1 7)).bcache
            (204 % NBUCKETS) i).blockno = 204)) ∧
    (bucketState 10 (mkBuf 1 1 10 0 4294967295) (mkBuf 1 1 107 1 7)).inRange ∧
    ((bucketState 10 (mkBuf 1 1 10 0 4294967295) (mkBuf 1 1 107 1 7)).bcache
      (204 % NBUCKETS) 0).refcnt = 0 ∧
    bget (bucketState 10 (mkBuf 1 1 10 0 4294967295) (mkBuf 1 1 107 1 7)) 7 1 204 =
      .panic "bget: no buffers"
        (bucketState 10 (mkBuf 1 1 10 0 4294967295) (mkBuf 1 1 107 1 7)) := by
  refine ⟨by decide, ?_, by decide, rfl⟩
  intro i j _ _
  simp only [bucketState, binit, BState.setBuf, mkBuf, Buf.inRange, UINT_MOD]
  split_ifs <;> decide

/-- The failing state of C5 arises from the initialised cache through the interface:
read block 10, release it when the clock reads `(uint)-1`, read block 107 and keep it;
the next `bget` of block 204 panics while slot 0 of the bucket is unreferenced. -/
theorem bget_sentinel_state_reachable :
    ∃ s1 s2 s3, bread (binit 0) 7 1 10 = .ok (10, 0) s1 ∧
      brelse s1 7 (10, 0) UINT_MAX = .ok () s2 ∧
      bread s2 7 1 107 = .ok (10, 1) s3 ∧
      (s3.bcache 10 0).refcnt = 0 ∧ (s3.bcache 10 0).timestamp = UINT_MAX ∧
      (s3.bcache 10 1).refcnt = 1 ∧
      bget s3 7 1 204 = .panic "bget: no buffers" s3 :=
  ⟨(bread (binit 0) 7 1 10).state,
    (brelse (bread (binit 0) 7 1 10).state 7 (10, 0) UINT_MAX).state,
    (bread (brelse (bread (binit 0) 7 1 10).state 7 (10, 0) UINT_MAX).state 7 1 107).state,
    rfl, rfl, rfl, by decide, by decide, by decide, rfl⟩

/-- On a miss, `bget` does not fail as soon as some unreferenced slot carries a timestamp
below `(uint)-1`; the slot it selects is unreferenced and its timestamp is minimal among
the unreferenced slots. -/
theorem bget_miss_succeeds_below_sentinel (st : BState) (pid dev blockno k : Nat)
    (hmiss : ∀ i, i < NSIZE → ¬ ((st.bcache (blockno % NBUCKETS) i).dev = dev ∧
      (st.bcache (blockno % NBUCKETS) i).blockno = blockno))
    (hk : k < NSIZE) (hfree : (st.bcache (blockno % NBUCKETS) k).refcnt = 0)
    (hbelow : (st.bcache (blockno % NBUCKETS) k).timestamp < UINT_MAX) :
    ∃ t st1, t < NSIZE ∧
      (bget st pid dev blockno = .ok (blockno % NBUCKETS, t) st1 ∨
        bget st pid dev blockno = .sleep (blockno % NBUCKETS, t) st1) ∧
      (st.bcache (blockno % NBUCKETS) t).refcnt = 0 ∧
      (∀ j, j < NSIZE → (st.bcache (blockno % NBUCKETS) j).refcnt = 0 →
        (st.bcache (blockno % NBUCKETS) t).timestamp ≤
          (st.bcache (blockno % NBUCKETS) j).timestamp) := by
  have hnone := (bgetHit_none_iff (st.bcache (blockno % NBUCKETS)) dev blockno).mpr hmiss
  rcases bget_miss_cases st pid dev blockno hnone with ⟨t, ht, hr, _, hmin, _, hb⟩ | ⟨_, hno⟩
  · obtain ⟨st1, hor, _⟩ :=
      acquiresleep_spec
        (st.setBuf (blockno % NBUCKETS, t)
          { st.bcache (blockno % NBUCKETS) t with
            dev := dev, blockno := blockno, valid := 0, refcnt := 1 })
        pid (blockno % NBUCKETS, t)
    exact ⟨t, st1, ht, by rw [hb]; exact hor, hr, hmin⟩
  · exact absurd ⟨hfree, hbelow⟩ (hno k hk)

/-- C6. Allocation order: on a well-formed state of the free lists, when the cores
`id, id + 1, ...` (wrapping around at `NCPU`) probed before `c = (id + k) % NCPU` have
empty lists and the list of `c` is `p :: rest`, `kalloc` on core `id` returns `p`, the
list of `c` becomes `rest`, every other list and head pointer is unchanged, and the locks
were taken one core at a time in that order up to `c`. In particular, on core 0 with the
first page found on core 3, the cores are inspected in the order 0, 1, 2, 3, and core 3
is left empty when that page was its only one. -/
theorem kalloc_allocation_order (L : MemLayout) (id k fuel : Nat) (st : KState)
    (ls : Nat → List Nat) (p : Nat) (rest : List Nat)
    (hid : id < L.NCPU) (hfuel : L.NCPU ≤ fuel) (hv : ValidLists L st ls)
    (hk : k < L.NCPU) (hempty : ∀ j, j < k → ls ((id + j) % L.NCPU) = [])
    (hhead : ls ((id + k) % L.NCPU) = p :: rest) :
    ∃ st1, kalloc L fuel id st = some (p, st1) ∧
      ValidLists L st1 (fun x => if x = (id + k) % L.NCPU then rest else ls x) ∧
      (∀ x, x ≠ (id + k) % L.NCPU → st1.freelist x = st.freelist x) ∧
      st1.locks = st.locks ++ probeTrace L id 0 (k + 1) ∧
      (id = 0 → k = 3 →
        st1.locks = st.locks ++
          [LockEvent.acquire 0, LockEvent.release 0, LockEvent.acquire 1, LockEvent.release 1,
            LockEvent.acquire 2, LockEvent.release 2, LockEvent.acquire 3, LockEvent.release 3] ∧
        (rest = [] → st1.freelist 3 = 0)) := by
  obtain ⟨hres, hF1, hp1⟩ := kalloc_pop_lists L id k fuel st ls p rest hid hk hfuel hv.1 hv.2.1
    hempty hhead
  have hlocks : (popped st ((id + k) % L.NCPU)
      (probeTrace L id 0 k ++
        [LockEvent.acquire ((id + k) % L.NCPU), LockEvent.release ((id + k) % L.NCPU)])).locks =
      st.locks ++ probeTrace L id 0 (k + 1) := by
    rw [probeTrace_snoc, Nat.zero_add]
    rfl
  refine ⟨_, hres, validLists_pop L st _ ls _ p rest hv hF1 hp1, ?_, hlocks, ?_⟩
  · intro x hx
    simp [popped, hx]
  · intro h0 h3
    subst h0 h3
    have h3n : (3 : Nat) % L.NCPU = 3 := Nat.mod_eq_of_lt (by omega)
    simp only [Nat.zero_add] at hF1 ⊢
    refine ⟨?_, ?_⟩
    · rw [hlocks]
      have e0 : (0 : Nat) % L.NCPU = 0 := Nat.mod_eq_of_lt (by omega)
      have e1 : (1 : Nat) % L.NCPU = 1 := Nat.mod_eq_of_lt (by omega)
      have e2 : (2 : Nat) % L.NCPU = 2 := Nat.mod_eq_of_lt (by omega)
      have e3 : (3 : Nat) % L.NCPU = 3 := Nat.mod_eq_of_lt (by omega)
      simp [probeTrace, List.range', e0, e1, e2, e3]
    · intro hr
      subst hr
      have := hF1 3 hk
      rw [h3n] at this ⊢
      simpa [Chain] using this

/-- Example for C6: eight cores, only core 3 holds a page; `kalloc` on core 0. -/
theorem kalloc_allocation_order_witness :
    ∃ st1, kalloc demoLayout8 8 0 (headsState (headsOf onlyCore3)) = some (4096, st1) ∧
      ValidLists demoLayout8 st1
        (fun x => if x = (0 + 3) % demoLayout8.NCPU then [] else onlyCore3 x) ∧
      (∀ x, x ≠ (0 + 3) % demoLayout8.NCPU →
        st1.freelist x = (headsState (headsOf onlyCore3)).freelist x) ∧
      st1.locks = (headsState (headsOf onlyCore3)).locks ++ probeTrace demoLayout8 0 0 (3 + 1) ∧
      (0 = 0 → 3 = 3 →
        st1.locks = (headsState (headsOf onlyCore3)).locks ++
          [LockEvent.acquire 0, LockEvent.release 0, LockEvent.acquire 1, LockEvent.release 1,
            LockEvent.acquire 2, LockEvent.release 2, LockEvent.acquire 3, LockEvent.release 3] ∧
        (([] : List Nat) = [] → st1.freelist 3 = 0)) :=
  kalloc_allocation_order demoLayout8 0 3 8 (headsState (headsOf onlyCore3)) onlyCore3 4096 []
    (by decide) (by decide) validLists_onlyCore3 (by decide) (by decide) (by decide)

/-- C7. No false out-of-memory: `kalloc` on any core returns, and the value it returns
is 0 exactly when the head pointer of every core is null, that is, when every core's
free list is empty; when it returns 0, the head pointers, the page memory and hence all
free lists are unchanged. -/
theorem kalloc_fails_iff_all_empty (L : MemLayout) (id fuel : Nat) (st : KState)
    (hid : id < L.NCPU) (hfuel : L.NCPU ≤ fuel) :
    ∃ r st1, kalloc L fuel id st = some (r, st1) ∧
      (r = 0 ↔ ∀ c, c < L.NCPU → st.freelist c = 0) ∧
      (∀ ls, FreeLists L st ls → (r = 0 ↔ ∀ c, c < L.NCPU → ls c = [])) ∧
      (r = 0 → st1.freelist = st.freelist ∧ st1.next = st.next ∧
        ∀ ls, FreeLists L st ls → FreeLists L st1 ls) := by
  have hlist : ∀ ls, FreeLists L st ls →
      ((∀ c, c < L.NCPU → st.freelist c = 0) ↔ ∀ c, c < L.NCPU → ls c = []) := by
    intro ls hF
    constructor
    · intro h c hc; exact (chain_head_iff (hF c hc)).mp (h c hc)
    · intro h c hc; exact (chain_head_iff (hF c hc)).mpr (h c hc)
  by_cases hall : ∀ c, c < L.NCPU → st.freelist c = 0
  · refine ⟨0, _, kalloc_none L id fuel st hid hfuel hall, ?_, ?_, ?_⟩
    · exact ⟨fun _ => hall, fun _ => rfl⟩
    · intro ls hF
      exact ⟨fun _ => (hlist ls hF).mp hall, fun _ => rfl⟩
    · intro _
      exact ⟨rfl, rfl, fun ls hF => hF⟩
  · have hex : ∃ c, c < L.NCPU ∧ st.freelist c ≠ 0 := by
      by_contra hno
      apply hall
      intro c hc
      by_contra hne
      exact hno ⟨c, hc, hne⟩
    obtain ⟨k, hkn, hempty, hne⟩ := exists_first_nonempty L.NCPU id st.freelist hid hex
    refine ⟨_, _, kalloc_found L id k fuel st hid hkn hfuel hempty hne, ?_, ?_, ?_⟩
    · exact ⟨fun h => absurd h hne, fun h => absurd h hall⟩
    · intro ls hF
      exact ⟨fun h => absurd h hne, fun h => absurd ((hlist ls hF).mpr h) hall⟩
    · intro h
      exact absurd h hne

/-- Example for C7: eight cores, every list empty; `kalloc` on core 0. -/
theorem kalloc_fails_iff_all_empty_witness :
    ∃ r st1, kalloc demoLayout8 8 0 bootState = some (r, st1) ∧
      (r = 0 ↔ ∀ c, c < demoLayout8.NCPU → bootState.freelist c = 0) ∧
      (∀ ls, FreeLists demoLayout8 bootState ls →
        (r = 0 ↔ ∀ c, c < demoLayout8.NCPU → ls c = [])) ∧
      (r = 0 → st1.freelist = bootState.freelist ∧ st1.next = bootState.next ∧
        ∀ ls, FreeLists demoLayout8 bootState ls → FreeLists demoLayout8 st1 ls) :=
  kalloc_fails_iff_all_empty demoLayout8 0 8 bootState (by decide) (by decide)

/-- C8 (counterexample). Eight cores; the list of core 0 is empty, core 1 holds page 4096
and core 2 holds page 8192. With `A = 0` and `B = 2`, `kalloc` on core 0 returns page
4096, taken from core 1: the list of core 2 is the same afterwards and the returned page
was not on it. -/
theorem kalloc_steal_not_from_B :
    ValidLists demoLayout8 (headsState (headsOf cores1and2)) cores1and2 ∧
    (0 : Nat) ≠ 2 ∧ cores1and2 0 = [] ∧ cores1and2 2 ≠ [] ∧
    ∃ st1, kalloc demoLayout8 8 0 (headsState (headsOf cores1and2)) = some (4096, st1) ∧
      Chain st1.next (st1.freelist 2) (cores1and2 2) ∧ 4096 ∉ cores1and2 2 :=
  ⟨validLists_cores1and2, by decide, by decide, by decide,
    ((kalloc demoLayout8 8 0 (headsState (headsOf cores1and2))).getD (0, bootState)).2,
    rfl, ⟨rfl, by decide, rfl⟩, by decide⟩

/-- C8 (as amended). Stealing: on a well-formed state in which the list of core `A` is
empty and the list of another core `B`, reached from `A` after `m` steps of the probing
order, is not, `kalloc` on `A` succeeds and removes exactly one page: the head `p` of the
first non-empty list in the order `A + 1, A + 2, ...` (wrapping around), which becomes
its tail while every other list is unchanged. That list is the list of `B` whenever every
core probed before `B` has an empty list. -/
theorem kalloc_steals_first_nonempty (L : MemLayout) (A B m fuel : Nat) (st : KState)
    (ls : Nat → List Nat) (hA : A < L.NCPU) (_hAB : A ≠ B)
    (hmB : (A + m) % L.NCPU = B) (hfuel : L.NCPU ≤ fuel) (hv : ValidLists L st ls)
    (hAe : ls A = []) (hBne : ls B ≠ []) :
    ∃ k p rest st1, 0 < k ∧ k ≤ m ∧
      (∀ j, j < k → ls ((A + j) % L.NCPU) = []) ∧
      ls ((A + k) % L.NCPU) = p :: rest ∧
      kalloc L fuel A st = some (p, st1) ∧ p ≠ 0 ∧
      ValidLists L st1 (fun x => if x = (A + k) % L.NCPU then rest else ls x) ∧
      ((∀ j, j < m → ls ((A + j) % L.NCPU) = []) → (A + k) % L.NCPU = B) := by
  have hBhead : st.freelist B ≠ 0 := by
    intro h0
    have hB : B < L.NCPU := by rw [← hmB]; exact mod_shift_lt hA
    exact hBne ((chain_head_iff (hv.1 B hB)).mp h0)
  have hB : B < L.NCPU := by rw [← hmB]; exact mod_shift_lt hA
  obtain ⟨k, hkn, hempty, hne⟩ := exists_first_nonempty L.NCPU A st.freelist hA ⟨B, hB, hBhead⟩
  obtain ⟨rest, hhead, _⟩ := chain_nonnull (hv.1 _ (mod_shift_lt (j := k) hA)) hne
  have hemp : ∀ j, j < k → ls ((A + j) % L.NCPU) = [] := by
    intro j hj
    exact (chain_head_iff (hv.1 _ (mod_shift_lt (j := j) hA))).mp (hempty j hj)
  have hkm : k ≤ m := by
    by_contra hgt
    have := hempty m (by omega)
    rw [hmB] at this
    exact hBhead this
  have hk0 : 0 < k := by
    rcases Nat.eq_zero_or_pos k with h0 | h0
    · subst h0
      rw [Nat.add_zero, Nat.mod_eq_of_lt hA, hAe] at hhead
      cases hhead
    · exact h0
  obtain ⟨hres, hF1, hp1⟩ := kalloc_pop_lists L A k fuel st ls _ rest hA hkn hfuel hv.1 hv.2.1
    hemp hhead
  refine ⟨k, _, rest, _, hk0, hkm, hemp, hhead, hres, hne,
    validLists_pop L st _ ls _ _ rest hv hF1 hp1, ?_⟩
  intro hbefore
  have : k = m := by
    by_contra hkne
    have := hbefore k (by omega)
    rw [hhead] at this
    cases this
  rw [this, hmB]

/-- Example for C8: eight cores, only core 3 holds a page; `kalloc` on core 0 with
`B = 3`. -/
theorem kalloc_steals_first_nonempty_witness :
    ∃ k p rest st1, 0 < k ∧ k ≤ 3 ∧
      (∀ j, j < k → onlyCore3 ((0 + j) % demoLayout8.NCPU) = []) ∧
      onlyCore3 ((0 + k) % demoLayout8.NCPU) = p :: rest ∧
      kalloc demoLayout8 8 0 (headsState (headsOf onlyCore3)) = some (p, st1) ∧ p ≠ 0 ∧
      ValidLists demoLayout8 st1
        (fun x => if x = (0 + k) % demoLayout8.NCPU then rest else onlyCore3 x) ∧
      ((∀ j, j < 3 → onlyCore3 ((0 + j) % demoLayout8.NCPU) = []) →
        (0 + k) % demoLayout8.NCPU = 3) :=
  kalloc_steals_first_nonempty demoLayout8 0 3 3 8 (headsState (headsOf onlyCore3)) onlyCore3
    (by decide) (by decide) (by decide) (by decide) validLists_onlyCore3 (by decide) (by decide)

/-- C9. Hit path: when slot `i` is the first slot of the shard that matches the request,
`bget` selects `i` (it returns `i` at once when the content lock of `i` is free and is
suspended on that lock otherwise), the reference count of `i` has gone through one
`refcnt++` (one more than before, for every count below `(uint)-1`), its `dev`,
`blockno`, `valid` and `timestamp` are unchanged, and no other slot of the cache has
changed, nor has the device been touched; no condition is put on the reference count
the slot had, so an unreferenced slot is matched again in the same way and is not
repurposed. -/
theorem bget_hit (st : BState) (pid dev blockno i : Nat) (hi : i < NSIZE)
    (hm : (st.bcache (blockno % NBUCKETS) i).dev = dev ∧
      (st.bcache (blockno % NBUCKETS) i).blockno = blockno)
    (hfirst : ∀ j, j < i → ¬ ((st.bcache (blockno % NBUCKETS) j).dev = dev ∧
      (st.bcache (blockno % NBUCKETS) j).blockno = blockno)) :
    ∃ st1,
      (bget st pid dev blockno = .ok (blockno % NBUCKETS, i) st1 ∨
        bget st pid dev blockno = .sleep (blockno % NBUCKETS, i) st1) ∧
      ((st.bcache (blockno % NBUCKETS) i).lock.locked = 0 →
        bget st pid dev blockno = .ok (blockno % NBUCKETS, i) st1) ∧
      (st1.bcache (blockno % NBUCKETS) i).refcnt =
        ((st.bcache (blockno % NBUCKETS) i).refcnt + 1) % UINT_MOD ∧
      ((st.bcache (blockno % NBUCKETS) i).refcnt < UINT_MAX →
        (st1.bcache (blockno % NBUCKETS) i).refcnt =
          (st.bcache (blockno % NBUCKETS) i).refcnt + 1) ∧
      (st1.bcache (blockno % NBUCKETS) i).dev = (st.bcache (blockno % NBUCKETS) i).dev ∧
      (st1.bcache (blockno % NBUCKETS) i).blockno =
        (st.bcache (blockno % NBUCKETS) i).blockno ∧
      (st1.bcache (blockno % NBUCKETS) i).valid = (st.bcache (blockno % NBUCKETS) i).valid ∧
      (st1.bcache (blockno % NBUCKETS) i).timestamp =
        (st.bcache (blockno % NBUCKETS) i).timestamp ∧
      (∀ k j, ¬ (k = blockno % NBUCKETS ∧ j = i) → st1.bcache k j = st.bcache k j) ∧
      st1.disk = st.disk ∧ st1.disklog = st.disklog :=
  hit_path_spec st pid dev blockno i hi hm hfirst

/-- Example for C9: bucket 10 holds block 107 in slot 0 and block 10, unreferenced, in
slot 1; a request for block 10 hits slot 1. -/
theorem bget_hit_witness :
    ∃ st1,
      (bget (bucketState 10 (mkBuf 1 1 107 0 5) (mkBuf 1 1 10 0 3)) 7 1 10 =
          .ok (10 % NBUCKETS, 1) st1 ∨
        bget (bucketState 10 (mkBuf 1 1 107 0 5) (mkBuf 1 1 10 0 3)) 7 1 10 =
          .sleep (10 % NBUCKETS, 1) st1) ∧
      (((bucketState 10 (mkBuf 1 1 107 0 5) (mkBuf 1 1 10 0 3)).bcache
          (10 % NBUCKETS) 1).lock.locked = 0 →
        bget (bucketState 10 (mkBuf 1 1 107 0 5) (mkBuf 1 1 10 0 3)) 7 1 10 =
          .ok (10 % NBUCKETS, 1) st1) ∧
      (st1.bcache (10 % NBUCKETS) 1).refcnt =
        (((bucketState 10 (mkBuf 1 1 107 0 5) (mkBuf 1 1 10 0 3)).bcache
          (10 % NBUCKETS) 1).refcnt + 1) % UINT_MOD ∧
      (((bucketState 10 (mkBuf 1 1 107 0 5) (mkBuf 1 1 10 0 3)).bcache
          (10 % NBUCKETS) 1).refcnt < UINT_MAX →
        (st1.bcache (10 % NBUCKETS) 1).refcnt =
          ((bucketState 10 (mkBuf 1 1 107 0 5) (mkBuf 1 1 10 0 3)).bcache
            (10 % NBUCKETS) 1).refcnt + 1) ∧
      (st1.bcache (10 % NBUCKETS) 1).dev =
        ((bucketState 10 (mkBuf 1 1 107 0 5) (mkBuf 1 1 10 0 3)).bcache (10 % NBUCKETS) 1).dev ∧
      (st1.bcache (10 % NBUCKETS) 1).blockno =
        ((bucketState 10 (mkBuf 1 1 107 0 5) (mkBuf 1 1 10 0 3)).bcache
          (10 % NBUCKETS) 1).blockno ∧
      (st1.bcache (10 % NBUCKETS) 1).valid =
        ((bucketState 10 (mkBuf 1 1 107 0 5) (mkBuf 1 1 10 0 3)).bcache (10 % NBUCKETS) 1).valid ∧
      (st1.bcache (10 % NBUCKETS) 1).timestamp =
        ((bucketState 10 (mkBuf 1 1 107 0 5) (mkBuf 1 1 10 0 3)).bcache
          (10 % NBUCKETS) 1).timestamp ∧
      (∀ k j, ¬ (k = 10 % NBUCKETS ∧ j = 1) →
        st1.bcache k j =
          (bucketState 10 (mkBuf 1 1 107 0 5) (mkBuf 1 1 10 0 3)).bcache k j) ∧
      st1.disk = (bucketState 10 (mkBuf 1 1 107 0 5) (mkBuf 1 1 10 0 3)).disk ∧
      st1.disklog = (bucketState 10 (mkBuf 1 1 107 0 5) (mkBuf 1 1 10 0 3)).disklog :=
  bget_hit (bucketState 10 (mkBuf 1 1 107 0 5) (mkBuf 1 1 10 0 3)) 7 1 10 1
    (by decide) (by decide) (by decide)

/-- C10. `bread` loads at most once: whenever its `bget` returns a buffer `b`, `bread`
returns `b` with identity `(dev, blockno)` and a nonzero valid flag; the device log grows
by exactly one read of `(dev, blockno)` when `bget` handed back `b` with `valid == 0`
and does not grow at all when `valid != 0`; and a `brelse` of `b` followed by a second
`bread` of the same block returns `b` again without any further request to the device. -/
theorem bread_loads_at_most_once (st : BState) (pid dev blockno : Nat) (b : Nat × Nat)
    (st1 : BState) (hget : bget st pid dev blockno = .ok b st1) :
    ∃ st2, bread st pid dev blockno = .ok b st2 ∧
      (st2.bcache b.1 b.2).dev = dev ∧ (st2.bcache b.1 b.2).blockno = blockno ∧
      (st2.bcache b.1 b.2).valid ≠ 0 ∧
      ((st1.bcache b.1 b.2).valid = 0 →
        st2.disklog = st.disklog ++ [⟨false, dev, blockno⟩]) ∧
      ((st1.bcache b.1 b.2).valid ≠ 0 → st2.disklog = st.disklog) ∧
      (∀ ticks pid2, ∃ st3 st4, brelse st2 pid b ticks = .ok () st3 ∧
        bread st3 pid2 dev blockno = .ok b st4 ∧ st4.disklog = st2.disklog) := by
  obtain ⟨hb1, hb2, hdev, hblk, hfirst, hlock, _, hlog⟩ :=
    bget_ok_spec st pid dev blockno b st1 hget
  obtain ⟨st2, hread, hvalid2, hdev2, hblk2, hlock2, _, _, hoth2, hlogA, hlogB⟩ :=
    bread_after_bget st pid dev blockno b st1 hget
  refine ⟨st2, hread, by rw [hdev2, hdev], by rw [hblk2, hblk], hvalid2, ?_, ?_, ?_⟩
  · intro hv
    rw [hlogA hv, hlog, hdev, hblk]
  · intro hv
    rw [hlogB hv, hlog]
  · intro ticks pid2
    have hold : (st2.bcache b.1 b.2).lock.locked ≠ 0 ∧ (st2.bcache b.1 b.2).lock.pid = pid := by
      rw [hlock2, hlock]; exact ⟨Nat.one_ne_zero, rfl⟩
    obtain ⟨st3, hrel, hlock3, _, _, _, hdev3, hblk3, hvalid3, _, hoth3, _, hlog3⟩ :=
      brelse_spec st2 pid b ticks hold
    have hb : b = (blockno % NBUCKETS, b.2) := by
      rw [← hb1]
    have hm3 : (st3.bcache (blockno % NBUCKETS) b.2).dev = dev ∧
        (st3.bcache (blockno % NBUCKETS) b.2).blockno = blockno := by
      rw [← hb1, hdev3, hblk3, hdev2, hblk2]
      exact ⟨hdev, hblk⟩
    have hf3 : ∀ j, j < b.2 → ¬ ((st3.bcache (blockno % NBUCKETS) j).dev = dev ∧
        (st3.bcache (blockno % NBUCKETS) j).blockno = blockno) := by
      intro j hj
      have hn : ¬ (b.1 = b.1 ∧ j = b.2) := by
        rintro ⟨_, rfl⟩; exact lt_irrefl _ hj
      rw [← hb1, hoth3 b.1 j hn, hoth2 b.1 j hn]
      exact hfirst j hj
    obtain ⟨s, _, hfree, _, _, _, _, hvalid4, _, _, _, hlog4⟩ :=
      hit_path_spec st3 pid2 dev blockno b.2 hb2 hm3 hf3
    have hget3 : bget st3 pid2 dev blockno = .ok b s := by
      have := hfree (by rw [← hb1, hlock3])
      rw [this, ← hb]
    obtain ⟨st4, hread4, _, _, _, _, _, _, _, _, hlogB4⟩ :=
      bread_after_bget st3 pid2 dev blockno b s hget3
    refine ⟨st3, st4, hrel, hread4, ?_⟩
    have hv4 : (s.bcache b.1 b.2).valid ≠ 0 := by
      have e : (s.bcache b.1 b.2).valid = (st3.bcache b.1 b.2).valid := by
        rw [hb1]; exact hvalid4
      rw [e, hvalid3]
      exact hvalid2
    rw [hlogB4 hv4, hlog4, hlog3]

/-- Example for C10: the first read of block 10 of device 1 on the initialised cache. -/
theorem bread_loads_at_most_once_witness :
    ∃ st2, bread (binit 0) 7 1 10 = .ok (10, 0) st2 ∧
      (st2.bcache 10 0).dev = 1 ∧ (st2.bcache 10 0).blockno = 10 ∧
      (st2.bcache 10 0).valid ≠ 0 ∧
      (((bget (binit 0) 7 1 10).state.bcache 10 0).valid = 0 →
        st2.disklog = (binit 0).disklog ++ [⟨false, 1, 10⟩]) ∧
      (((bget (binit 0) 7 1 10).state.bcache 10 0).valid ≠ 0 →
        st2.disklog = (binit 0).disklog) ∧
      (∀ ticks pid2, ∃ st3 st4, brelse st2 7 (10, 0) ticks = .ok () st3 ∧
        bread st3 pid2 1 10 = .ok (10, 0) st4 ∧ st4.disklog = st2.disklog) :=
  bread_loads_at_most_once (binit 0) 7 1 10 (10, 0) (bget (binit 0) 7 1 10).state rfl

/-- C11. Bookkeeping of `brelse`: when the caller holds the content lock of `b`, the call
returns and the reference count of `b` has gone through one `refcnt--` (one less than
before, for every count from 1 up); the timestamp of `b` is `ticks` when the new count is
0 and is unchanged otherwise; `dev`, `blockno` and `valid` of `b` are unchanged, and so
is every other slot of the cache. -/
theorem brelse_bookkeeping (st : BState) (pid : Nat) (b : Nat × Nat) (ticks : Nat)
    (hold : (st.bcache b.1 b.2).lock.locked ≠ 0 ∧ (st.bcache b.1 b.2).lock.pid = pid) :
    ∃ st1, brelse st pid b ticks = .ok () st1 ∧
      (st1.bcache b.1 b.2).refcnt = ((st.bcache b.1 b.2).refcnt + UINT_MOD - 1) % UINT_MOD ∧
      (0 < (st.bcache b.1 b.2).refcnt → (st.bcache b.1 b.2).refcnt < UINT_MOD →
        (st1.bcache b.1 b.2).refcnt + 1 = (st.bcache b.1 b.2).refcnt) ∧
      ((st1.bcache b.1 b.2).refcnt = 0 → (st1.bcache b.1 b.2).timestamp = ticks) ∧
      ((st1.bcache b.1 b.2).refcnt ≠ 0 →
        (st1.bcache b.1 b.2).timestamp = (st.bcache b.1 b.2).timestamp) ∧
      (st1.bcache b.1 b.2).dev = (st.bcache b.1 b.2).dev ∧
      (st1.bcache b.1 b.2).blockno = (st.bcache b.1 b.2).blockno ∧
      (st1.bcache b.1 b.2).valid = (st.bcache b.1 b.2).valid ∧
      (∀ k j, ¬ (k = b.1 ∧ j = b.2) → st1.bcache k j = st.bcache k j) := by
  obtain ⟨st1, hrel, _, hrc, hz, hnz, hdev, hblk, hvalid, _, hoth, _, _⟩ :=
    brelse_spec st pid b ticks hold
  refine ⟨st1, hrel, hrc, ?_, hz, hnz, hdev, hblk, hvalid, hoth⟩
  intro hpos hlt
  rw [hrc]
  have e : (st.bcache b.1 b.2).refcnt + UINT_MOD - 1 = (st.bcache b.1 b.2).refcnt - 1 + UINT_MOD := by
    omega
  rw [e, Nat.add_mod_right, Nat.mod_eq_of_lt (by omega)]
  omega

/-- Example for C11: block 10, read once on the initialised cache, is released by its
holder at tick 9. -/
theorem brelse_bookkeeping_witness :
    ∃ st1, brelse (bread (binit 0) 7 1 10).state 7 (10, 0) 9 = .ok () st1 ∧
      (st1.bcache 10 0).refcnt =
        (((bread (binit 0) 7 1 10).state.bcache 10 0).refcnt + UINT_MOD - 1) % UINT_MOD ∧
      (0 < ((bread (binit 0) 7 1 10).state.bcache 10 0).refcnt →
        ((bread (binit 0) 7 1 10).state.bcache 10 0).refcnt < UINT_MOD →
        (st1.bcache 10 0).refcnt + 1 = ((bread (binit 0) 7 1 10).state.bcache 10 0).refcnt) ∧
      ((st1.bcache 10 0).refcnt = 0 → (st1.bcache 10 0).timestamp = 9) ∧
      ((st1.bcache 10 0).refcnt ≠ 0 →
        (st1.bcache 10 0).timestamp = ((bread (binit 0) 7 1 10).state.bcache 10 0).timestamp) ∧
      (st1.bcache 10 0).dev = ((bread (binit 0) 7 1 10).state.bcache 10 0).dev ∧
      (st1.bcache 10 0).blockno = ((bread (binit 0) 7 1 10).state.bcache 10 0).blockno ∧
      (st1.bcache 10 0).valid = ((bread (binit 0) 7 1 10).state.bcache 10 0).valid ∧
      (∀ k j, ¬ (k = 10 ∧ j = 0) →
        st1.bcache k j = (bread (binit 0) 7 1 10).state.bcache k j) :=
  brelse_bookkeeping (bread (binit 0) 7 1 10).state 7 (10, 0) 9 (by decide)

/-- C12 (counterexample). On the initialised cache, `bunpin` of slot 0 of bucket 0, whose
reference count is 0, wraps the count around to `(uint)-1` while the ledger of the slot
is -1; and after `bget(1, 10)`, `bunpin` and `brelse` of the buffer obtained, the count of
that slot is `(uint)-1` as well, the `brelse` having decremented a count of 0. -/
theorem refcount_wraps_below_zero :
    ((ledgerRun (binit 0) (fun _ _ => 0) [BOp.unpin (0, 0)]).1.bcache 0 0).refcnt =
      4294967295 ∧
    (ledgerRun (binit 0) (fun _ _ => 0) [BOp.unpin (0, 0)]).2 0 0 = -1 ∧
    ((ledgerRun (binit 0) (fun _ _ => 0)
      [BOp.get 7 1 10, BOp.unpin (10, 0)]).1.bcache 10 0).refcnt = 0 ∧
    ((ledgerRun (binit 0) (fun _ _ => 0)
      [BOp.get 7 1 10, BOp.unpin (10, 0), BOp.release 7 (10, 0) 5]).1.bcache 10 0).refcnt =
      4294967295 ∧
    (ledgerRun (binit 0) (fun _ _ => 0)
      [BOp.get 7 1 10, BOp.unpin (10, 0), BOp.release 7 (10, 0) 5]).2 10 0 = -1 := by
  refine ⟨by decide, by decide, by decide, by decide, by decide⟩

/-- C12 (as amended). Reference-count ledger: after every sequence of `bget`, `brelse`,
`bpin` and `bunpin` calls on the initialised cache, the reference count of each slot
equals, modulo `2^32`, the number of increments applied to it since it was last
repurposed (repurposing counting as setting it to 1) minus the number of decrements; and
along every sequence in which no call decrements a count of 0 or increments a count of
`(uint)-1`, the count equals that difference exactly, so the difference is never
negative. -/
theorem refcount_ledger (ticks : Nat) (ops : List BOp) :
    (∀ i j, (((ledgerRun (binit ticks) (fun _ _ => 0) ops).1.bcache i j).refcnt : Int) =
      (ledgerRun (binit ticks) (fun _ _ => 0) ops).2 i j % (UINT_MOD : Int)) ∧
    (InBounds (binit ticks) ops →
      ∀ i j, (((ledgerRun (binit ticks) (fun _ _ => 0) ops).1.bcache i j).refcnt : Int) =
        (ledgerRun (binit ticks) (fun _ _ => 0) ops).2 i j) := by
  have hm0 : LedgerMod (binit ticks) (fun _ _ => 0) := by
    intro i j
    simp [binit]
  have he0 : LedgerExact (binit ticks) (fun _ _ => 0) := by
    intro i j
    simp [binit]
  exact ⟨ledgerMod_run ops _ _ hm0, fun hb => ledgerExact_run ops _ _ hm0 he0 hb⟩

/-- Example for C12: read block 10, pin it, release it, unpin it. -/
theorem refcount_ledger_witness :
    InBounds (binit 0)
      [BOp.get 7 1 10, BOp.pin (10, 0), BOp.release 7 (10, 0) 5, BOp.unpin (10, 0)] ∧
    ∀ i j, (((ledgerRun (binit 0) (fun _ _ => 0)
        [BOp.get 7 1 10, BOp.pin (10, 0), BOp.release 7 (10, 0) 5,
          BOp.unpin (10, 0)]).1.bcache i j).refcnt : Int) =
      (ledgerRun (binit 0) (fun _ _ => 0)
        [BOp.get 7 1 10, BOp.pin (10, 0), BOp.release 7 (10, 0) 5, BOp.unpin (10, 0)]).2 i j :=
  have hb : InBounds (binit 0)
      [BOp.get 7 1 10, BOp.pin (10, 0), BOp.release 7 (10, 0) 5, BOp.unpin (10, 0)] :=
    ⟨fun i h => Option.noConfusion
        ((show bgetHit ((binit 0).bcache (10 % NBUCKETS)) 1 10 = none by decide).symm.trans h),
      show ((bstep (binit 0) (BOp.get 7 1 10)).bcache 10 0).refcnt < UINT_MAX by decide,
      fun _ => show 0 < ((bstep (bstep (binit 0) (BOp.get 7 1 10))
        (BOp.pin (10, 0))).bcache 10 0).refcnt by decide,
      show 0 < ((bstep (bstep (bstep (binit 0) (BOp.get 7 1 10)) (BOp.pin (10, 0)))
        (BOp.release 7 (10, 0) 5)).bcache 10 0).refcnt by decide,
      trivial⟩
  ⟨hb, (refcount_ledger 0
    [BOp.get 7 1 10, BOp.pin (10, 0), BOp.release 7 (10, 0) 5, BOp.unpin (10, 0)]).2 hb⟩

/-- C13. `kfree` returns the page to the executing core: in a well-formed free-list state
(disjoint null-terminated chains of page-aligned pages), for a page-aligned, non-null
address `pa` inside `[end, PHYSTOP)` that is on no free list, `kfree(pa)` on core `c`
returns; `pa` is then the head of the list of `c`, followed by the previous list of `c`,
and the list and head pointer of every other core are unchanged, whatever list `pa` once
came from; the state is again well formed, and the next `kalloc` on core `c` returns
`pa`. -/
theorem kfree_returns_page_to_executing_core (L : MemLayout) (c fuel : Nat) (st : KState)
    (ls : Nat → List Nat) (pa : Nat) (hc : c < L.NCPU) (hfuel : L.NCPU ≤ fuel)
    (hal : pa % PGSIZE = 0) (hlo : L.kend ≤ pa) (hhi : pa < L.PHYSTOP) (hnz : pa ≠ 0)
    (hv : ValidLists L st ls) (hfresh : pa ∉ allFree L ls) :
    ∃ st1, kfree L c st pa = .ok () st1 ∧
      st1.freelist c = pa ∧ st1.next pa = st.freelist c ∧
      (∀ d, d ≠ c → st1.freelist d = st.freelist d) ∧
      ValidLists L st1 (fun x => if x = c then pa :: ls c else ls x) ∧
      ∃ st2, kalloc L fuel c st1 = some (pa, st2) := by
  have hcond : ¬ (pa % PGSIZE ≠ 0 ∨ pa < L.kend ∨ pa ≥ L.PHYSTOP) := by
    rintro (h | h | h)
    · exact h hal
    · omega
    · omega
  obtain ⟨hF, hnd, hali⟩ := hv
  obtain ⟨st1, hk, hhead, hnext, hoth, _, _⟩ := kfree_ok_spec L c st pa hcond
  obtain ⟨st1', hk', hF1, hperm, _, _⟩ :=
    kfree_push_lists L c st ls pa hc hF hfresh hal hlo hhi hnz
  rw [hk] at hk'
  cases hk'
  have hv1 : ValidLists L st1 (fun x => if x = c then pa :: ls c else ls x) := by
    refine ⟨hF1, (hperm.nodup_iff).mpr (List.nodup_cons.mpr ⟨hfresh, hnd⟩), ?_⟩
    intro q hq
    rcases List.mem_cons.mp (hperm.subset hq) with h | h
    · rw [h]; exact hal
    · exact hali q h
  refine ⟨st1, hk, hhead, hnext, hoth, hv1, ?_⟩
  have hc0 : (c + 0) % L.NCPU = c := by rw [Nat.add_zero, Nat.mod_eq_of_lt hc]
  have hfound := kalloc_found L c 0 fuel st1 hc (by omega) hfuel
    (fun j hj => absurd hj (Nat.not_lt_zero j)) (by rw [hc0, hhead]; exact hnz)
  rw [hc0, hhead] at hfound
  exact ⟨_, hfound⟩

/-- Example for C13: with two cores, page 8192, stolen by core 1 from the list of core 0,
is freed on core 1. -/
theorem kfree_returns_page_to_executing_core_witness :
    ∃ st1, kfree demoLayout 1 demoAlloc.2 8192 = .ok () st1 ∧
      st1.freelist 1 = 8192 ∧ st1.next 8192 = demoAlloc.2.freelist 1 ∧
      (∀ d, d ≠ 1 → st1.freelist d = demoAlloc.2.freelist d) ∧
      ValidLists demoLayout st1
        (fun x => if x = 1 then 8192 :: (fun c => if c = 0 then [4096] else []) 1
          else (fun c => if c = 0 then [4096] else []) x) ∧
      ∃ st2, kalloc demoLayout 2 1 st1 = some (8192, st2) :=
  kfree_returns_page_to_executing_core demoLayout 1 2 demoAlloc.2
    (fun c => if c = 0 then [4096] else []) 8192 (by decide) (by decide) (by decide)
    (by decide) (by decide) (by decide)
    ⟨(by
      intro c _
      by_cases h : c = 0
      · subst h; exact ⟨rfl, by decide, rfl⟩
      · simp only [if_neg h]
        have h1 : c = 1 := by
          have : c < 2 := by assumption
          omega
        subst h1
        rfl), (by decide), (by decide)⟩
    (by decide)

/-- C14. Validation in `kfree`: the call panics, with "kfree" and in the unchanged state,
exactly when `pa` is not a multiple of 4096, or is below `end`, or is at or above
`PHYSTOP`; otherwise it returns with `pa` placed at the head of a free list, so every
page that `kfree` places on a free list is page-aligned and inside `[end, PHYSTOP)`; and
in every state reachable from `kinit` every page on a free list is such a page. -/
theorem kfree_validation (L : MemLayout) (cpu : Nat) (st : KState) (pa : Nat) :
    ((kfree L cpu st pa).isPanic = true ↔
      (pa % PGSIZE ≠ 0 ∨ pa < L.kend ∨ pa ≥ L.PHYSTOP)) ∧
    ((kfree L cpu st pa).isPanic = true → kfree L cpu st pa = .panic "kfree" st) ∧
    (∀ st1, kfree L cpu st pa = .ok () st1 →
      st1.freelist cpu = pa ∧ pa % PGSIZE = 0 ∧ L.kend ≤ pa ∧ pa < L.PHYSTOP) ∧
    (∀ out ls, L.sane → Reachable L st out → FreeLists L st ls →
      ∀ p, p ∈ allFree L ls → p % PGSIZE = 0 ∧ L.kend ≤ p ∧ p < L.PHYSTOP) := by
  have hlast : ∀ out ls, L.sane → Reachable L st out → FreeLists L st ls →
      ∀ p, p ∈ allFree L ls → p % PGSIZE = 0 ∧ L.kend ≤ p ∧ p < L.PHYSTOP := by
    intro out ls hs hr hF p hp
    obtain ⟨ls1, hF1, hperm⟩ := reachable_conserved L hs st out hr
    obtain ⟨c, hc, hpc⟩ := mem_allFree.mp hp
    have e : ls c = ls1 c := chain_unique _ _ _ (hF c hc) (hF1 c hc)
    have hp1 : p ∈ allFree L ls1 := mem_allFree.mpr ⟨c, hc, e ▸ hpc⟩
    obtain ⟨v1, v2, v3, _⟩ :=
      managedPages_valid L p hs (hperm.subset (List.mem_append_left _ hp1))
    exact ⟨v1, v2, v3⟩
  by_cases hcond : pa % PGSIZE ≠ 0 ∨ pa < L.kend ∨ pa ≥ L.PHYSTOP
  · have hk : kfree L cpu st pa = .panic "kfree" st := by
      simp only [kfree, if_pos hcond]
    refine ⟨?_, fun _ => hk, ?_, hlast⟩
    · rw [hk]; simp [Outcome.isPanic, hcond]
    · intro st1 h1
      rw [hk] at h1
      cases h1
  · obtain ⟨s, hk, hhead, _⟩ := kfree_ok_spec L cpu st pa hcond
    refine ⟨?_, ?_, ?_, hlast⟩
    · rw [hk]; simp [Outcome.isPanic, hcond]
    · intro h
      rw [hk] at h
      simp [Outcome.isPanic] at h
    · intro st1 h1
      rw [hk] at h1
      cases h1
      have h2 : pa % PGSIZE = 0 := by
        by_contra h; exact hcond (Or.inl h)
      have h3 : L.kend ≤ pa := by
        by_contra h; exact hcond (Or.inr (Or.inl (not_le.mp h)))
      have h4 : pa < L.PHYSTOP := by
        by_contra h; exact hcond (Or.inr (Or.inr (not_lt.mp h)))
      exact ⟨hhead, h2, h3, h4⟩

/-- C15 (counterexample). Two cores; after `kinit` on core 0 the list of core 0 is
8192, 4096. Freeing page 8192, which is on that list, on core 1 is not rejected: the call
returns, and afterwards page 8192 is the head of the list of core 1 as well as the head
of the list of core 0, whose list has changed from 8192, 4096 to 8192 alone. -/
theorem kfree_accepts_double_free :
    Chain demoInit.next (demoInit.freelist 0) [8192, 4096] ∧
    (kfree demoLayout 1 demoInit 8192).isPanic = false ∧
    (kfree demoLayout 1 demoInit 8192).isOk = true ∧
    Chain (kfree demoLayout 1 demoInit 8192).state.next
      ((kfree demoLayout 1 demoInit 8192).state.freelist 1) [8192] ∧
    Chain (kfree demoLayout 1 demoInit 8192).state.next
      ((kfree demoLayout 1 demoInit 8192).state.freelist 0) [8192] :=
  ⟨⟨rfl, by decide, rfl, by decide, rfl⟩, by decide, by decide,
    ⟨rfl, by decide, rfl⟩, ⟨rfl, by decide, rfl⟩⟩

/-- C15 (as amended). `kfree` has no check for a double free: in every state reachable
from `kinit`, a page `pa` that is on some core's free list passes the alignment and range
checks, so `kfree(pa)` on any core returns and links `pa` once more, as the head of the
executing core's list with the previous head behind it. -/
theorem kfree_does_not_detect_double_free (L : MemLayout) (cpu : Nat) (st : KState)
    (out : List Nat) (ls : Nat → List Nat) (pa : Nat) (hs : L.sane)
    (hr : Reachable L st out) (hF : FreeLists L st ls) (hpa : pa ∈ allFree L ls) :
    ∃ st1, kfree L cpu st pa = .ok () st1 ∧
      st1.freelist cpu = pa ∧ st1.next pa = st.freelist cpu ∧
      (∀ d, d ≠ cpu → st1.freelist d = st.freelist d) := by
  obtain ⟨ls1, hF1, hperm⟩ := reachable_conserved L hs st out hr
  obtain ⟨c, hc, hpc⟩ := mem_allFree.mp hpa
  have e : ls c = ls1 c := chain_unique _ _ _ (hF c hc) (hF1 c hc)
  have hp1 : pa ∈ allFree L ls1 := mem_allFree.mpr ⟨c, hc, e ▸ hpc⟩
  obtain ⟨v1, v2, v3, _⟩ :=
    managedPages_valid L pa hs (hperm.subset (List.mem_append_left _ hp1))
  have hcond : ¬ (pa % PGSIZE ≠ 0 ∨ pa < L.kend ∨ pa ≥ L.PHYSTOP) := by
    rintro (h | h | h)
    · exact h v1
    · omega
    · omega
  obtain ⟨st1, hk, hhead, hnext, hoth, _, _⟩ := kfree_ok_spec L cpu st pa hcond
  exact ⟨st1, hk, hhead, hnext, hoth⟩

/-- Example for C15: the double free of page 8192 on core 1 after `kinit` on core 0. -/
theorem kfree_does_not_detect_double_free_witness :
    ∃ st1, kfree demoLayout 1 demoInit 8192 = .ok () st1 ∧
      st1.freelist 1 = 8192 ∧ st1.next 8192 = demoInit.freelist 1 ∧
      (∀ d, d ≠ 1 → st1.freelist d = demoInit.freelist d) :=
  kfree_does_not_detect_double_free demoLayout 1 demoInit []
    (fun c => if c = 0 then [8192, 4096] else []) 8192 ⟨by decide, by decide, by decide⟩
    (Reachable.init 0 5 bootState demoInit (by decide) (fun _ => rfl) rfl)
    freeLists_demoInit (by decide)

/-- C16 (counterexample). On the initialised cache, `bget(1, 10)` and `bget(1, 20)` both
return with a reference count of 1 and nothing is released; `bget(1, 30)` then returns as
well, with a reference count of 1: the three blocks lie in the buckets 10, 20 and 30. -/
theorem capacity_scenario_blocks_10_20_30 :
    ∃ s1 s2 s3, bget (binit 0) 7 1 10 = .ok (10, 0) s1 ∧ (s1.bcache 10 0).refcnt = 1 ∧
      bget s1 7 1 20 = .ok (20, 0) s2 ∧
      (s2.bcache 10 0).refcnt = 1 ∧ (s2.bcache 20 0).refcnt = 1 ∧
      bget s2 7 1 30 = .ok (30, 0) s3 ∧ (s3.bcache 30 0).refcnt = 1 :=
  ⟨(bget (binit 0) 7 1 10).state,
    (bget (bget (binit 0) 7 1 10).state 7 1 20).state,
    (bget (bget (bget (binit 0) 7 1 10).state 7 1 20).state 7 1 30).state,
    rfl, by decide, rfl, by decide, by decide, rfl, by decide⟩

/-- C16 (as amended). On the cache initialised at a clock value below `(uint)-1`, with
three blocks of the same bucket (10, 107 and 204 are all 10 modulo 97): `bget(1, 10)` and
`bget(1, 107)` both return with a reference count of 1 and fill the two slots of bucket
10; while neither is released, `bget(1, 204)` panics with "bget: no buffers"; after
either one of the two is released by its holder, at a clock value below `(uint)-1`,
`bget(1, 204)` returns the released slot with a reference count of 1. -/
theorem capacity_scenario_same_bucket (t0 t p1 p2 p3 p4 : Nat) (h0 : t0 < UINT_MAX)
    (ht : t < UINT_MAX) :
    ∃ s1 s2, bget (binit t0) p1 1 10 = .ok (10, 0) s1 ∧ (s1.bcache 10 0).refcnt = 1 ∧
      bget s1 p2 1 107 = .ok (10, 1) s2 ∧
      (s2.bcache 10 0).refcnt = 1 ∧ (s2.bcache 10 1).refcnt = 1 ∧
      bget s2 p3 1 204 = .panic "bget: no buffers" s2 ∧
      (∃ s3 s4, brelse s2 p1 (10, 0) t = .ok () s3 ∧ bget s3 p4 1 204 = .ok (10, 0) s4 ∧
        (s4.bcache 10 0).blockno = 204 ∧ (s4.bcache 10 0).refcnt = 1) ∧
      (∃ s3 s4, brelse s2 p2 (10, 1) t = .ok () s3 ∧ bget s3 p4 1 204 = .ok (10, 1) s4 ∧
        (s4.bcache 10 1).blockno = 204 ∧ (s4.bcache 10 1).refcnt = 1) := by
  have m10 : 10 % NBUCKETS = 10 := by decide
  have m107 : 107 % NBUCKETS = 10 := by decide
  have m204 : 204 % NBUCKETS = 10 := by decide
  -- first request: both slots are unreferenced with equal timestamps, slot 0 is taken
  obtain ⟨s1, e1, d1, b1, _, r1, _, l1, o1⟩ :=
    bget_miss_selects (binit t0) p1 1 10 0 (by decide)
      (by intro i _; simp [binit]) (by simp [binit]) (by simpa [binit] using h0)
      (by simp [binit])
      (by
        intro j hj hne _
        right
        refine ⟨by simp [binit], ?_⟩
        rcases slot_cases hj with rfl | rfl
        · exact absurd rfl hne
        · decide)
  rw [m10] at e1 d1 b1 r1 l1 o1
  have s1_1 : s1.bcache 10 1 = (binit t0).bcache 10 1 := o1 10 1 (by simp)
  -- second request: slot 0 is referenced, slot 1 is taken
  obtain ⟨s2, e2, d2, b2, _, r2, _, l2, o2⟩ :=
    bget_miss_selects s1 p2 1 107 1 (by decide)
      (by
        intro i hi
        rw [m107]
        rcases slot_cases hi with rfl | rfl
        · rw [b1]; simp
        · rw [s1_1]; simp [binit])
      (by rw [m107, s1_1]; simp [binit])
      (by rw [m107, s1_1]; simpa [binit] using h0)
      (by rw [m107, s1_1]; simp [binit])
      (by
        intro j hj hne hr
        rw [m107] at hr
        rcases slot_cases hj with rfl | rfl
        · rw [r1] at hr; cases hr
        · exact absurd rfl hne)
  rw [m107] at e2 d2 b2 r2 l2 o2
  have s2_0 : s2.bcache 10 0 = s1.bcache 10 0 := o2 10 0 (by simp)
  have r20 : (s2.bcache 10 0).refcnt = 1 := by rw [s2_0]; exact r1
  -- third request: no slot matches and both are referenced
  have e3 : bget s2 p3 1 204 = .panic "bget: no buffers" s2 := by
    have hmiss : ∀ i, i < NSIZE → ¬ ((s2.bcache (204 % NBUCKETS) i).dev = 1 ∧
        (s2.bcache (204 % NBUCKETS) i).blockno = 204) := by
      intro i hi
      rw [m204]
      rcases slot_cases hi with rfl | rfl
      · rw [s2_0, b1]; simp
      · rw [b2]; simp
    have hnone := (bgetHit_none_iff _ 1 204).mpr hmiss
    rcases bget_miss_cases s2 p3 1 204 hnone with ⟨v, hv, hr, _⟩ | ⟨hb, _⟩
    · rw [m204] at hr
      rcases slot_cases hv with rfl | rfl
      · rw [r20] at hr; cases hr
      · rw [r2] at hr; cases hr
    · exact hb
  refine ⟨s1, s2, e1, r1, e2, r20, r2, e3, ?_, ?_⟩
  · -- slot 0 is released, then taken for block 204
    obtain ⟨s3, e4, l3, rc3, ts3, _, d3, b3, _, _, o3, _, _⟩ :=
      brelse_spec s2 p1 (10, 0) t (by rw [s2_0, l1]; exact ⟨Nat.one_ne_zero, rfl⟩)
    have rc30 : (s3.bcache 10 0).refcnt = 0 := by
      rw [rc3]
      show ((s2.bcache 10 0).refcnt + UINT_MOD - 1) % UINT_MOD = 0
      rw [r20]; exact uint_dec_one
    have s3_1 : s3.bcache 10 1 = s2.bcache 10 1 := o3 10 1 (by simp)
    obtain ⟨s4, e5, _, b4, _, r4, _, _, _⟩ :=
      bget_miss_selects s3 p4 1 204 0 (by decide)
        (by
          intro i hi
          rw [m204]
          rcases slot_cases hi with rfl | rfl
          · have : (s3.bcache 10 0).blockno = 10 := by
              rw [show (s3.bcache 10 0).blockno = (s2.bcache 10 0).blockno from b3, s2_0, b1]
            rw [this]; simp
          · rw [s3_1, b2]; simp)
        (by rw [m204]; exact rc30)
        (by rw [m204, show (s3.bcache 10 0).timestamp = t from ts3 rc30]; exact ht)
        (by rw [m204, show (s3.bcache 10 0).lock = ⟨0, 0⟩ from l3])
        (by
          intro j hj hne hr
          rw [m204] at hr
          rcases slot_cases hj with rfl | rfl
          · exact absurd rfl hne
          · rw [s3_1, r2] at hr; cases hr)
    rw [m204] at e5 b4 r4
    exact ⟨s3, s4, e4, e5, b4, r4⟩
  · -- slot 1 is released, then taken for block 204
    obtain ⟨s3, e4, l3, rc3, ts3, _, d3, b3, _, _, o3, _, _⟩ :=
      brelse_spec s2 p2 (10, 1) t (by rw [l2]; exact ⟨Nat.one_ne_zero, rfl⟩)
    have rc31 : (s3.bcache 10 1).refcnt = 0 := by
      rw [rc3]
      show ((s2.bcache 10 1).refcnt + UINT_MOD - 1) % UINT_MOD = 0
      rw [r2]; exact uint_dec_one
    have s3_0 : s3.bcache 10 0 = s2.bcache 10 0 := o3 10 0 (by simp)
    obtain ⟨s4, e5, _, b4, _, r4, _, _, _⟩ :=
      bget_miss_selects s3 p4 1 204 1 (by decide)
        (by
          intro i hi
          rw [m204]
          rcases slot_cases hi with rfl | rfl
          · rw [s3_0, s2_0, b1]; simp
          · have : (s3.bcache 10 1).blockno = 107 := by
              rw [show (s3.bcache 10 1).blockno = (s2.bcache 10 1).blockno from b3, b2]
            rw [this]; simp)
        (by rw [m204]; exact rc31)
        (by rw [m204, show (s3.bcache 10 1).timestamp = t from ts3 rc31]; exact ht)
        (by rw [m204, show (s3.bcache 10 1).lock = ⟨0, 0⟩ from l3])
        (by
          intro j hj hne hr
          rw [m204] at hr
          rcases slot_cases hj with rfl | rfl
          · rw [s3_0, r20] at hr; cases hr
          · exact absurd rfl hne)
    rw [m204] at e5 b4 r4
    exact ⟨s3, s4, e4, e5, b4, r4⟩

/-- Example for C16: the cache initialised at tick 0, the release at tick 5, every call
made by process 7. -/
theorem capacity_scenario_same_bucket_witness :
    ∃ s1 s2, bget (binit 0) 7 1 10 = .ok (10, 0) s1 ∧ (s1.bcache 10 0).refcnt = 1 ∧
      bget s1 7 1 107 = .ok (10, 1) s2 ∧
      (s2.bcache 10 0).refcnt = 1 ∧ (s2.bcache 10 1).refcnt = 1 ∧
      bget s2 7 1 204 = .panic "bget: no buffers" s2 ∧
      (∃ s3 s4, brelse s2 7 (10, 0) 5 = .ok () s3 ∧ bget s3 7 1 204 = .ok (10, 0) s4 ∧
        (s4.bcache 10 0).blockno = 204 ∧ (s4.bcache 10 0).refcnt = 1) ∧
      (∃ s3 s4, brelse s2 7 (10, 1) 5 = .ok () s3 ∧ bget s3 7 1 204 = .ok (10, 1) s4 ∧
        (s4.bcache 10 1).blockno = 204 ∧ (s4.bcache 10 1).refcnt = 1) :=
  capacity_scenario_same_bucket 0 5 7 7 7 7 (by decide) (by decide)

/-- C17. Lock-discipline checks: `bwrite` panics exactly when the caller does not hold
the content lock of the buffer, and otherwise returns after exactly one write request to
the device; `brelse` panics exactly when the caller does not hold the content lock, and
then the state in which it panics is the state before the call, so the content lock,
the reference count and the timestamp are unchanged. -/
theorem lock_discipline_checks (st : BState) (pid : Nat) (b : Nat × Nat) (ticks : Nat) :
    ((bwrite st pid b).isPanic = true ↔
      ¬ ((st.bcache b.1 b.2).lock.locked ≠ 0 ∧ (st.bcache b.1 b.2).lock.pid = pid)) ∧
    (((st.bcache b.1 b.2).lock.locked ≠ 0 ∧ (st.bcache b.1 b.2).lock.pid = pid) →
      ∃ st1, bwrite st pid b = .ok () st1 ∧
        st1.disklog = st.disklog ++
          [⟨true, (st.bcache b.1 b.2).dev, (st.bcache b.1 b.2).blockno⟩]) ∧
    ((brelse st pid b ticks).isPanic = true ↔
      ¬ ((st.bcache b.1 b.2).lock.locked ≠ 0 ∧ (st.bcache b.1 b.2).lock.pid = pid)) ∧
    (¬ ((st.bcache b.1 b.2).lock.locked ≠ 0 ∧ (st.bcache b.1 b.2).lock.pid = pid) →
      brelse st pid b ticks = .panic "brelse" st ∧ bwrite st pid b = .panic "bwrite" st) := by
  by_cases hold : (st.bcache b.1 b.2).lock.locked ≠ 0 ∧ (st.bcache b.1 b.2).lock.pid = pid
  · obtain ⟨s1, hw, hlog, _⟩ := bwrite_spec st pid b hold
    obtain ⟨s2, hr, _⟩ := brelse_spec st pid b ticks hold
    refine ⟨?_, fun _ => ⟨s1, hw, hlog⟩, ?_, fun h => absurd hold h⟩
    · rw [hw]; simp [Outcome.isPanic, hold]
    · rw [hr]; simp [Outcome.isPanic, hold]
  · have hh : holdingsleep (st.getBuf b).lock pid = false :=
      (holdingsleep_false_iff _ _).mpr hold
    have hw : bwrite st pid b = .panic "bwrite" st := by simp [bwrite, hh]
    have hr : brelse st pid b ticks = .panic "brelse" st := by simp [brelse, hh]
    refine ⟨?_, fun h => absurd h hold, ?_, fun _ => ⟨hr, hw⟩⟩
    · rw [hw]; simp [Outcome.isPanic, hold]
    · rw [hr]; simp [Outcome.isPanic, hold]

/-- C19. Lock discipline of the allocator: the lock operations performed by one `kalloc`
call, stealing scan included, and by one `kfree` call, take one lock at a time: each
acquire happens while no lock is held and is followed at once by the release of the same
lock, and no lock is held when the call ends. -/
theorem allocator_lock_discipline (L : MemLayout) (id fuel : Nat) (st : KState) (pa : Nat)
    (hid : id < L.NCPU) (hfuel : L.NCPU ≤ fuel) :
    (∃ r st1 tr, kalloc L fuel id st = some (r, st1) ∧ st1.locks = st.locks ++ tr ∧
      lockDiscipline none tr = true) ∧
    (∃ tr, (kfree L id st pa).state.locks = st.locks ++ tr ∧
      lockDiscipline none tr = true) := by
  constructor
  · by_cases hall : ∀ c, c < L.NCPU → st.freelist c = 0
    · refine ⟨0, _, probeTrace L id 0 L.NCPU, kalloc_none L id fuel st hid hfuel hall, rfl, ?_⟩
      have := lockDiscipline_probeTrace L id L.NCPU 0 []
      rw [List.append_nil] at this
      rw [this]; rfl
    · have hex : ∃ c, c < L.NCPU ∧ st.freelist c ≠ 0 := by
        by_contra hno
        apply hall
        intro c hc
        by_contra hne
        exact hno ⟨c, hc, hne⟩
      obtain ⟨k, hkn, hempty, hne⟩ := exists_first_nonempty L.NCPU id st.freelist hid hex
      refine ⟨_, _, _, kalloc_found L id k fuel st hid hkn hfuel hempty hne, rfl, ?_⟩
      rw [lockDiscipline_probeTrace]
      simp [lockDiscipline]
  · by_cases hcond : pa % PGSIZE ≠ 0 ∨ pa < L.kend ∨ pa ≥ L.PHYSTOP
    · refine ⟨[], ?_, rfl⟩
      simp only [kfree, if_pos hcond, Outcome.state, List.append_nil]
    · obtain ⟨st1, hk, _, _, _, _, hlocks⟩ := kfree_ok_spec L id st pa hcond
      refine ⟨[LockEvent.acquire id, LockEvent.release id], ?_, ?_⟩
      · rw [hk]; exact hlocks
      · simp [lockDiscipline]

/-- Example for C19: eight cores, only core 3 holds a page; `kalloc` on core 0 and
`kfree` of page 8192 on core 0. -/
theorem allocator_lock_discipline_witness :
    (∃ r st1 tr, kalloc demoLayout8 8 0 (headsState (headsOf onlyCore3)) = some (r, st1) ∧
      st1.locks = (headsState (headsOf onlyCore3)).locks ++ tr ∧
      lockDiscipline none tr = true) ∧
    (∃ tr, (kfree demoLayout8 0 (headsState (headsOf onlyCore3)) 8192).state.locks =
        (headsState (headsOf onlyCore3)).locks ++ tr ∧
      lockDiscipline none tr = true) :=
  allocator_lock_discipline demoLayout8 0 8 (headsState (headsOf onlyCore3)) 8192
    (by decide) (by decide)

/-- C20. Each block has at most one referenced buffer: in every state reachable from the
initialised cache by `bget` calls and by `brelse`, `bpin` and `bunpin` calls on buffers
whose reference count is above 0, no two distinct slots of the cache that are both
referenced carry the same `(dev, blockno)`, and every referenced slot lies in bucket
`blockno % 97`, the bucket whose lock `brelse`, `bpin` and `bunpin` take for it. -/
theorem one_referenced_buffer_per_block (st : BState) (h : BReach st) :
    (∀ i j k l, i < NBUCKETS → j < NSIZE → k < NBUCKETS → l < NSIZE → ¬ (i = k ∧ j = l) →
      0 < (st.bcache i j).refcnt → 0 < (st.bcache k l).refcnt →
      ¬ ((st.bcache i j).dev = (st.bcache k l).dev ∧
        (st.bcache i j).blockno = (st.bcache k l).blockno)) ∧
    (∀ i j, i < NBUCKETS → j < NSIZE → 0 < (st.bcache i j).refcnt →
      (st.bcache i j).blockno % NBUCKETS = i) := by
  obtain ⟨h2, h3⟩ := oneBuffer_reach st h
  refine ⟨?_, fun i j _ hj hp => h2 i j hj hp⟩
  intro i j k l _ hj _ hl hne hp1 hp2 ⟨hd, hb⟩
  have e1 := h2 i j hj hp1
  have e2 := h2 k l hl hp2
  have hik : i = k := by rw [← e1, ← e2, hb]
  subst hik
  rcases slot_cases hj with rfl | rfl <;> rcases slot_cases hl with rfl | rfl
  · exact hne ⟨rfl, rfl⟩
  · have := h3 i hd hb
    omega
  · have := h3 i hd.symm hb.symm
    omega
  · exact hne ⟨rfl, rfl⟩

/-- Example for C20: the initialised cache after `bget(1, 10)` and `bget(1, 107)`. -/
theorem one_referenced_buffer_per_block_witness :
    (∀ i j k l, i < NBUCKETS → j < NSIZE → k < NBUCKETS → l < NSIZE → ¬ (i = k ∧ j = l) →
      0 < ((bget (bget (binit 0) 7 1 10).state 8 1 107).state.bcache i j).refcnt →
      0 < ((bget (bget (binit 0) 7 1 10).state 8 1 107).state.bcache k l).refcnt →
      ¬ (((bget (bget (binit 0) 7 1 10).state 8 1 107).state.bcache i j).dev =
          ((bget (bget (binit 0) 7 1 10).state 8 1 107).state.bcache k l).dev ∧
        ((bget (bget (binit 0) 7 1 10).state 8 1 107).state.bcache i j).blockno =
          ((bget (bget (binit 0) 7 1 10).state 8 1 107).state.bcache k l).blockno)) ∧
    (∀ i j, i < NBUCKETS → j < NSIZE →
      0 < ((bget (bget (binit 0) 7 1 10).state 8 1 107).state.bcache i j).refcnt →
      ((bget (bget (binit 0) 7 1 10).state 8 1 107).state.bcache i j).blockno % NBUCKETS = i) :=
  one_referenced_buffer_per_block (bget (bget (binit 0) 7 1 10).state 8 1 107).state
    (BReach.get _ 8 1 107 (BReach.get _ 7 1 10 (BReach.init 0)))
